import Mathlib

/-!
# Nod: a road-distance log aggregator

A shallow embedding of `src/nod.cc` and a verification of its specification.

* `std::string` is a list of characters (`Str`).
* The `std::regex` patterns of the source are values of `Regex`; `regex_match`
  is a backtracking matcher that returns the capture groups of the first full
  match, as ECMAScript matching does.
* Containers are association lists: `std::set` / `std::map` are kept in the
  order of their comparator, `std::unordered_map` (never iterated by the
  program) in insertion order.
* Machine integers are natural numbers reduced modulo their width.
* An uncaught exception, `exit(1)` and the dereference of an end iterator stop
  the run; the machine records which of them happened.
-/

namespace Nod

/-- The model of `std::string`. -/
abbrev Str := List Char

/-! ## Character classes (the "C" locale) -/

/-- The class `[0-9]`. -/
def isDigit (c : Char) : Bool := decide (48 ≤ c.toNat) && decide (c.toNat ≤ 57)

/-- The class `[1-9]`. -/
def isDigit19 (c : Char) : Bool := decide (49 ≤ c.toNat) && decide (c.toNat ≤ 57)

/-- The class `[[:alnum:]]`: `isalnum` in the "C" locale. -/
def isAlnum (c : Char) : Bool :=
  isDigit c || (decide (65 ≤ c.toNat) && decide (c.toNat ≤ 90))
    || (decide (97 ≤ c.toNat) && decide (c.toNat ≤ 122))

/-- The class `\s`: `isspace` in the "C" locale (space, `\t \n \v \f \r`). -/
def isSpace (c : Char) : Bool :=
  decide (c.toNat = 32) || (decide (9 ≤ c.toNat) && decide (c.toNat ≤ 13))

/-- The class `[AS]`. -/
def isAS (c : Char) : Bool := decide (c = 'A') || decide (c = 'S')

/-! ## Regular expressions

The fragment of ECMAScript regular expressions that the source uses: literal
characters, classes, concatenation, alternation, capture groups and greedy
quantifiers, which the source applies to single-character classes only. -/

/-- Abstract syntax of the patterns of `namespace regex`. -/
inductive Regex where
  | char (c : Char)
  | cls (p : Char → Bool)
  | seq (r q : Regex)
  | alt (r q : Regex)
  | rep (p : Char → Bool) (lo : Nat) (hi : Option Nat)
  | group (r : Regex)

/-- Greedy quantifier `p{lo,hi}`: the longest run first, then shorter ones. -/
def repRun (p : Char → Bool) (lo : Nat) (hi : Option Nat) (s : Str) :
    List (Str × List Str) :=
  let n := (s.takeWhile p).length
  let m := match hi with
    | some h => min n h
    | none => n
  (List.range (m + 1 - lo)).map fun i => (s.drop (m - i), [])

/-- All the ways a pattern matches a prefix of `s`, in the order a
backtracking matcher tries them: the rest of the input and the captures. -/
def Regex.run : Regex → Str → List (Str × List Str)
  | .char c, s =>
    match s with
    | [] => []
    | x :: t => if x = c then [(t, [])] else []
  | .cls p, s =>
    match s with
    | [] => []
    | x :: t => if p x then [(t, [])] else []
  | .seq r q, s =>
    (r.run s).flatMap fun a => (q.run a.1).map fun b => (b.1, a.2 ++ b.2)
  | .alt r q, s => r.run s ++ q.run s
  | .rep p lo hi, s => repRun p lo hi s
  | .group r, s => (r.run s).map fun a => (a.1, s.take (s.length - a.1.length) :: a.2)

/-- The model of `std::regex_match(s, matched, r)`: the capture groups
`matched[1..]` of the first match that covers the whole of `s`, if any. -/
def regex_match (s : Str) (r : Regex) : Option (List Str) :=
  ((r.run s).find? fun a => a.1.isEmpty).map fun a => a.2

namespace regex

/-- The pattern `[[:alnum:]]`. -/
def alphabet : Char → Bool := isAlnum

/-- The pattern `[[:alnum:]]{3,11}`. -/
def car : Regex := .rep alphabet 3 (some 11)

/-- The pattern `[AS][1-9][0-9]{0,2}`. -/
def road : Regex := .seq (.cls isAS) (.seq (.cls isDigit19) (.rep isDigit 0 (some 2)))

/-- The pattern `[1-9][0-9]*|0`. -/
def k : Regex := .alt (.seq (.cls isDigit19) (.rep isDigit 0 none)) (.char '0')

/-- The pattern `[0-9]`. -/
def m : Regex := .cls isDigit

/-- The capture group `(r)`. -/
def O (r : Regex) : Regex := .group r

end regex

/-! ## Enum types -/

inductive ReadType where
  | readErr_t | readEmpty_t | readQuery_t | readAction_t
  deriving DecidableEq, Repr

inductive QueryType where
  | queryAll_t | queryRoad_t | queryCar_t | queryMix_t | queryIgnore_t | queryError_t
  deriving DecidableEq, Repr

inductive RoadType where
  | roadA_t | roadS_t | roadN_t
  deriving DecidableEq, Repr

/-- The order of the enumerators of `RoadType`. -/
def RoadType.toNat : RoadType → Nat
  | .roadA_t => 0
  | .roadS_t => 1
  | .roadN_t => 2

/-! The integer types of the source are natural numbers here, reduced modulo
the width of the type wherever the source computes with them:
`LineCounter = LineId = uint64_t`, `RoadId = uint16_t`, `K = uint32_t`,
`M = uint8_t`, `BigKm = uint64_t`. -/

/-- Increment of a `uint64_t`. -/
def incr64 (n : Nat) : Nat := (n + 1) % 2 ^ 64

/-- The model of `std::to_string` on an unsigned value. -/
def to_string (n : Nat) : Str := Nat.toDigits 10 n

/-- The line that `error` writes to `std::cerr`. -/
def error (line : Str) (lC : Nat) : Str :=
  "Error in line ".toList ++ to_string lC ++ ": ".toList ++ line

abbrev Car := Str

def validCarName (s : Str) : Bool := (regex_match s regex.car).isSome

abbrev Road := RoadType × Nat

def validRoadName (s : Str) : Bool := (regex_match s regex.road).isSome

/-- The macro `ROADN_ID`. -/
def ROADN_ID : Int := -1

/-- Conversion of an integer to `uint16_t`. -/
def toRoadId (i : Int) : Nat := (i % 2 ^ 16).toNat

/-- The largest `unsigned long` (LP64). -/
def ULONG_MAX : Nat := 2 ^ 64 - 1

/-- The value of a decimal digit character. -/
def digitVal (c : Char) : Nat := c.toNat - 48

/-- The number that a string of decimal digits denotes. -/
def decVal (ds : Str) : Nat := ds.foldl (fun a c => 10 * a + digitVal c) 0

/-- The model of `std::stoul(s)`: leading whitespace is skipped, a sign is
accepted, the longest run of decimal digits is converted. `none` when it
throws: `std::invalid_argument` without a digit, `std::out_of_range` when the
value exceeds `ULONG_MAX`. -/
def stoul (s : Str) : Option Nat :=
  let s := s.dropWhile isSpace
  let neg := decide (s.head? = some '-')
  let s := if s.head? = some '-' ∨ s.head? = some '+' then s.tail else s
  let ds := s.takeWhile isDigit
  if ds.isEmpty then none
  else
    let v := decVal ds
    if v > ULONG_MAX then none
    else some (if neg then (2 ^ 64 - v) % 2 ^ 64 else v)

/-- The model of `s.substr(pos, n)` for `pos ≤ s.length()`. -/
def substr (s : Str) (pos n : Nat) : Str := (s.drop pos).take n

/-- The function `stringToRoad`. The conversion of the digits cannot throw
on a valid road name (`stoul_substr_of_validRoadName`), so the `none` branch
of the match on `stoul` is dead. -/
def stringToRoad (s : Str) : Road :=
  if !validRoadName s then (.roadN_t, toRoadId ROADN_ID)
  else
    match stoul (substr s 1 s.length) with
    | none => (.roadN_t, toRoadId ROADN_ID)
    | some v =>
      let id : Nat := v % 2 ^ 16
      if s.head? = some 'A' then (.roadA_t, id)
      else if s.head? = some 'S' then (.roadS_t, id)
      else (.roadN_t, toRoadId ROADN_ID)

def roadToString (road : Road) : Str :=
  match road.1 with
  | .roadA_t => "A".toList ++ to_string road.2
  | .roadS_t => "S".toList ++ to_string road.2
  | .roadN_t => []

/-! ## Km -/

abbrev Km := Nat × Nat

/-- The function `kmToBig`. The product `10 * km.first` and the sum are
evaluated in `unsigned int` (the usual arithmetic conversions of `int`,
`uint32_t` and the promoted `uint8_t`) and only the result is widened to
`uint64_t`. -/
def kmToBig (km : Km) : Nat := ((10 * km.1) % 2 ^ 32 + km.2) % 2 ^ 32

def bigToKm (big : Nat) : Km := ((big / 10) % 2 ^ 32, (big % 10) % 2 ^ 8)

def diff (k1 k2 : Km) : Km :=
  let bigK1 := kmToBig k1
  let bigK2 := kmToBig k2
  let diff := if bigK1 ≥ bigK2 then bigK1 - bigK2 else bigK2 - bigK1
  bigToKm diff

def sum (k1 k2 : Km) : Km :=
  let bigK1 := kmToBig k1
  let bigK2 := kmToBig k2
  let sum := (bigK1 + bigK2) % 2 ^ 64
  bigToKm sum

def kmToString (km : Km) : Str := to_string km.1 ++ ",".toList ++ to_string km.2

/-! ## Positions and parsed actions -/

abbrev Position := Road × Km
abbrev ParsedAction := Car × Road × Km × Nat

def getCar (pA : ParsedAction) : Car := pA.1
def getRoad (pA : ParsedAction) : Road := pA.2.1
def getKm (pA : ParsedAction) : Km := pA.2.2.1
def getLineId (pA : ParsedAction) : Nat := pA.2.2.2

/-! ## Containers -/

section Containers
variable {κ : Type} {ν : Type} [DecidableEq κ]

/-- The member `find` of a map: the value stored under the key, if any. -/
def find (k : κ) : List (κ × ν) → Option ν
  | [] => none
  | e :: t => if e.1 = k then some e.2 else find k t

/-- The assignment `search->second = v` for the element with key `k`. -/
def assign (k : κ) (v : ν) : List (κ × ν) → List (κ × ν)
  | [] => []
  | e :: t => if e.1 = k then (e.1, v) :: t else e :: assign k v t

/-- The member `erase(k)`. -/
def erase (k : κ) : List (κ × ν) → List (κ × ν)
  | [] => []
  | e :: t => if e.1 = k then t else e :: erase k t

/-- The member `insert` of a `std::unordered_map`: no effect when the key is
present. -/
def insertU (k : κ) (v : ν) (m : List (κ × ν)) : List (κ × ν) :=
  match find k m with
  | some _ => m
  | none => m ++ [(k, v)]

/-- The member `insert` of a `std::map` ordered by `lt`: no effect when an
equivalent key is present. -/
def insertO (lt : κ → κ → Bool) (k : κ) (v : ν) : List (κ × ν) → List (κ × ν)
  | [] => [(k, v)]
  | e :: t =>
    if lt k e.1 then (k, v) :: e :: t
    else if lt e.1 k then e :: insertO lt k v t
    else e :: t

/-- The member `insert` of a `std::set` ordered by `lt`. -/
def setInsert (lt : κ → κ → Bool) (k : κ) : List κ → List κ
  | [] => [k]
  | e :: t =>
    if lt k e then k :: e :: t
    else if lt e k then e :: setInsert lt k t
    else e :: t

end Containers

/-- The comparison `operator<` of `std::string`. -/
def strLt : Str → Str → Bool
  | [], [] => false
  | [], _ :: _ => true
  | _ :: _, [] => false
  | a :: s, b :: t =>
    if a.toNat < b.toNat then true
    else if b.toNat < a.toNat then false
    else strLt s t

abbrev LastCarPositionMap := List (Car × (Position × Nat))

def insertCar (lastCarPositionMap : LastCarPositionMap) (pA : ParsedAction) :
    LastCarPositionMap :=
  let car := getCar pA
  let pos : Position := (getRoad pA, getKm pA)
  let lId := getLineId pA
  let val : Position × Nat := (pos, lId)
  match find car lastCarPositionMap with
  | none => insertU car val lastCarPositionMap
  | some _ => assign car val lastCarPositionMap

abbrev HistoryMap := List (Nat × Str)

/-- The pair `HistoryData` of references. -/
structure HistoryData where
  lastCarPositionMap : LastCarPositionMap
  historyMap : HistoryMap
  deriving DecidableEq

def getLastCarPositionMap (historyData : HistoryData) : LastCarPositionMap :=
  historyData.lastCarPositionMap

def getHistoryMap (historyData : HistoryData) : HistoryMap := historyData.historyMap

abbrev CarDistanceOnAMap := List (Car × Km)
abbrev CarDistanceOnSMap := List (Car × Km)

def updateCarKmMap (map : List (Car × Km)) (dist : Km) (s : Str) : List (Car × Km) :=
  match find s map with
  | none => insertU s dist map
  | some second => assign s (sum dist second) map

/-- The comparator `roadCmp`. -/
def roadCmp (r1 r2 : Road) : Bool :=
  if r1.2 = r2.2 then decide (r1.1.toNat < r2.1.toNat)
  else decide (r1.2 < r2.2)

abbrev RoadDistanceMap := List (Road × Km)

def updateRoadDistanceMap (map : RoadDistanceMap) (dist : Km) (road : Road) :
    RoadDistanceMap :=
  match find road map with
  | none => insertO roadCmp road dist map
  | some second => assign road (sum dist second) map

abbrev CarSet := List Car

def updateCarSet (carSet : CarSet) (car : Car) : CarSet := setInsert strLt car carSet

/-- The tuple `StatsTuple` of references. -/
structure StatsTuple where
  carDistanceOnA : CarDistanceOnAMap
  carDistanceOnS : CarDistanceOnSMap
  allCars : CarSet
  roadDistance : RoadDistanceMap
  deriving DecidableEq

def getCarDistanceOnAMap (statsTuple : StatsTuple) : CarDistanceOnAMap :=
  statsTuple.carDistanceOnA

def getCarDistanceOnSMap (statsTuple : StatsTuple) : CarDistanceOnSMap :=
  statsTuple.carDistanceOnS

def getCarSet (statsTuple : StatsTuple) : CarSet := statsTuple.allCars

def getRoadDistanceMap (statsTuple : StatsTuple) : RoadDistanceMap :=
  statsTuple.roadDistance

/-- What stops the process before the end of the input. -/
inductive Halt where
  /-- An uncaught exception (`std::terminate`). -/
  | exception
  /-- The call `exit(1)` of `updateStats`. -/
  | exit1
  /-- The use of an end iterator or of an element past the end of a vector. -/
  | undefined
  deriving DecidableEq, Repr

/-- The function `updateStats`. -/
def updateStats (statsTuple : StatsTuple) (pA : ParsedAction) (endKm : Km) :
    Except Halt StatsTuple :=
  let car := getCar pA
  let road := getRoad pA
  let startKm := getKm pA
  let dist := diff startKm endKm
  let afterSwitch : Except Halt StatsTuple :=
    match road.1 with
    | .roadA_t =>
      .ok { statsTuple with
        carDistanceOnA := updateCarKmMap (getCarDistanceOnAMap statsTuple) dist car }
    | .roadS_t =>
      .ok { statsTuple with
        carDistanceOnS := updateCarKmMap (getCarDistanceOnSMap statsTuple) dist car }
    | .roadN_t => .error .exit1
  match afterSwitch with
  | .error h => .error h
  | .ok st =>
    let st := { st with allCars := updateCarSet (getCarSet st) car }
    .ok { st with roadDistance := updateRoadDistanceMap (getRoadDistanceMap st) dist road }

/-! ## Reading a line -/

abbrev ParsedLine := List Str

/-- The pattern `\s*(car)\s+(road)\s+(k),(m)\s*`. -/
def actionRegex : Regex :=
  .seq (.rep isSpace 0 none) (.seq (regex.O regex.car) (.seq (.rep isSpace 1 none)
    (.seq (regex.O regex.road) (.seq (.rep isSpace 1 none) (.seq (regex.O regex.k)
      (.seq (.char ',') (.seq (regex.O regex.m) (.rep isSpace 0 none))))))))

/-- The pattern `\s*\?\s*([[:alnum:]]*)\s*`. -/
def queryRegex : Regex :=
  .seq (.rep isSpace 0 none) (.seq (.char '?') (.seq (.rep isSpace 0 none)
    (.seq (regex.O (.rep regex.alphabet 0 none)) (.rep isSpace 0 none))))

/-- The function `read`: the classification of the line, the new contents of
`parsedLine` and the incremented line counter. -/
def read (line : Str) (parsedLine : ParsedLine) (lC : Nat) :
    ReadType × ParsedLine × Nat :=
  let lC := incr64 lC
  if line.isEmpty then (.readEmpty_t, parsedLine, lC)
  else
    match regex_match line queryRegex with
    | some matched => (.readQuery_t, matched, lC)
    | none =>
      match regex_match line actionRegex with
      | some matched => (.readAction_t, matched, lC)
      | none => (.readErr_t, [], lC)


/-! ## Queries -/

abbrev InterpretedQuery := QueryType × Str

/-- The function `interpretQuery`. -/
def interpretQuery (parsedLine : ParsedLine) (statsTuple : StatsTuple) :
    Except Halt InterpretedQuery :=
  match parsedLine with
  | [] => .error .undefined
  | name :: _ =>
    if name.isEmpty then .ok (.queryAll_t, [])
    else if !validCarName name && !validRoadName name then .ok (.queryError_t, [])
    else
      let carB := decide (name ∈ getCarSet statsTuple)
      let roadB := (find (stringToRoad name) (getRoadDistanceMap statsTuple)).isSome
      if carB && roadB then .ok (.queryMix_t, name)
      else if carB then .ok (.queryCar_t, name)
      else if roadB then .ok (.queryRoad_t, name)
      else .ok (.queryIgnore_t, name)

/-- The function `queryRoad`: the line written to `std::cout`. -/
def queryRoad (road : Road) (statsTuple : StatsTuple) : Except Halt Str :=
  let message := roadToString road
  match find road (getRoadDistanceMap statsTuple) with
  | none => .error .undefined
  | some second => .ok (message ++ " ".toList ++ kmToString second)

/-- The function `queryCar`: the line written to `std::cout`. -/
def queryCar (name : Str) (statsTuple : StatsTuple) : Str :=
  let message := name
  let message :=
    match find name (getCarDistanceOnAMap statsTuple) with
    | some second => message ++ " A ".toList ++ kmToString second
    | none => message
  let message :=
    match find name (getCarDistanceOnSMap statsTuple) with
    | some second => message ++ " S ".toList ++ kmToString second
    | none => message
  message

/-- The second loop of `queryAll`, over the elements of the road map. -/
def queryRoads (statsTuple : StatsTuple) : List (Road × Km) → Except Halt (List Str)
  | [] => .ok []
  | x :: rest =>
    match queryRoad x.1 statsTuple with
    | .error h => .error h
    | .ok l =>
      match queryRoads statsTuple rest with
      | .error h => .error h
      | .ok ls => .ok (l :: ls)

/-- The function `queryAll`: the lines written to `std::cout`. -/
def queryAll (statsTuple : StatsTuple) : Except Halt (List Str) :=
  match queryRoads statsTuple (getRoadDistanceMap statsTuple) with
  | .error h => .error h
  | .ok ls => .ok ((getCarSet statsTuple).map (fun x => queryCar x statsTuple) ++ ls)

/-- The function `query`: the lines written to `std::cout` and to
`std::cerr`. -/
def query (line : Str) (parsedLine : ParsedLine) (lC : Nat)
    (statsTuple : StatsTuple) : Except Halt (List Str × List Str) :=
  match interpretQuery parsedLine statsTuple with
  | .error h => .error h
  | .ok iQ =>
    match iQ.1 with
    | .queryAll_t =>
      match queryAll statsTuple with
      | .error h => .error h
      | .ok ls => .ok (ls, [])
    | .queryRoad_t =>
      match queryRoad (stringToRoad iQ.2) statsTuple with
      | .error h => .error h
      | .ok l => .ok ([l], [])
    | .queryCar_t => .ok ([queryCar iQ.2 statsTuple], [])
    | .queryMix_t =>
      match queryRoad (stringToRoad iQ.2) statsTuple with
      | .error h => .error h
      | .ok l => .ok ([queryCar iQ.2 statsTuple, l], [])
    | .queryError_t => .ok ([], [error line lC])
    | .queryIgnore_t => .ok ([], [])

/-! ## Actions -/

/-- Conversion of an `unsigned long` to `uint32_t`. -/
def toK (v : Nat) : Nat := v % 2 ^ 32

/-- Conversion of an `unsigned long` to `uint8_t`. -/
def toM (v : Nat) : Nat := v % 2 ^ 8

/-- The function `parseAction`; an exception of `stoul` is not caught. -/
def parseAction (parsedLine : ParsedLine) (lC : Nat) : Except Halt ParsedAction :=
  match parsedLine with
  | car :: roadTok :: kTok :: mTok :: _ =>
    let road := stringToRoad roadTok
    match stoul kTok, stoul mTok with
    | some k, some m => .ok (car, road, (toK k, toM m), lC)
    | _, _ => .error .exception
  | _ => .error .undefined

/-- The function `action`: the new history data and statistics and the lines
written to `std::cerr`. -/
def action (line : Str) (parsedLine : ParsedLine) (lC : Nat)
    (historyData : HistoryData) (statsTuple : StatsTuple) :
    Except Halt (HistoryData × StatsTuple × List Str) :=
  match parseAction parsedLine lC with
  | .error h => .error h
  | .ok pA =>
    match find (getCar pA) (getLastCarPositionMap historyData) with
    | none =>
      .ok ({ lastCarPositionMap := insertCar (getLastCarPositionMap historyData) pA,
             historyMap := insertO (fun a b => decide (a < b)) lC line
               (getHistoryMap historyData) },
           statsTuple, [])
    | some second =>
      let lastPosition := second.1
      let lastLineId := second.2
      let lastRoad := lastPosition.1
      let lastKm := lastPosition.2
      if getRoad pA ≠ lastRoad then
        match find lastLineId (getHistoryMap historyData) with
        | none => .error .undefined
        | some text =>
          .ok ({ lastCarPositionMap := insertCar (getLastCarPositionMap historyData) pA,
                 historyMap := insertO (fun a b => decide (a < b)) lC line
                   (erase lastLineId (getHistoryMap historyData)) },
               statsTuple, [error text lastLineId])
      else
        match updateStats statsTuple pA lastKm with
        | .error h => .error h
        | .ok st =>
          .ok ({ lastCarPositionMap := erase (getCar pA) (getLastCarPositionMap historyData),
                 historyMap := erase lastLineId (getHistoryMap historyData) },
               st, [])

/-! ## The main loop -/

/-- The variables of `run`, the two output streams and the reason why the
process stopped early, if it did. -/
structure Machine where
  lC : Nat
  parsedLine : ParsedLine
  historyData : HistoryData
  statsTuple : StatsTuple
  cout : List Str
  cerr : List Str
  halt : Option Halt
  deriving DecidableEq

/-- The state of `run` before the first line. -/
def Machine.init : Machine where
  lC := 0
  parsedLine := []
  historyData := { lastCarPositionMap := [], historyMap := [] }
  statsTuple := { carDistanceOnA := [], carDistanceOnS := [], allCars := [], roadDistance := [] }
  cout := []
  cerr := []
  halt := none

/-- One iteration of the loop of `run`, on the line that `getline` returned. -/
def step (m : Machine) (line : Str) : Machine :=
  match m.halt with
  | some _ => m
  | none =>
    let r := read line m.parsedLine m.lC
    let read_t := r.1
    let parsedLine := r.2.1
    let lC := r.2.2
    let m := { m with lC := lC, parsedLine := parsedLine }
    match read_t with
    | .readErr_t => { m with cerr := m.cerr ++ [error line lC] }
    | .readQuery_t =>
      match query line parsedLine lC m.statsTuple with
      | .error h => { m with halt := some h }
      | .ok o => { m with cout := m.cout ++ o.1, cerr := m.cerr ++ o.2 }
    | .readAction_t =>
      match action line parsedLine lC m.historyData m.statsTuple with
      | .error h => { m with halt := some h }
      | .ok o =>
        { m with historyData := o.1, statsTuple := o.2.1, cerr := m.cerr ++ o.2.2 }
    | .readEmpty_t => m

/-- The loop of `run` from the state `m` over the lines of the input. -/
def runFrom (m : Machine) (lines : List Str) : Machine := lines.foldl step m

/-- The function `run` on the lines of standard input. -/
def run (lines : List Str) : Machine := runFrom Machine.init lines


/-! ## The language of a pattern -/

/-- The pattern `r` matches exactly the word `w`, with captures `cs`. -/
def Regex.Matches : Regex → Str → List Str → Prop
  | .char c, w, cs => w = [c] ∧ cs = []
  | .cls p, w, cs => ∃ x, w = [x] ∧ p x = true ∧ cs = []
  | .seq r q, w, cs =>
    ∃ w1 w2 c1 c2, w = w1 ++ w2 ∧ cs = c1 ++ c2 ∧ r.Matches w1 c1 ∧ q.Matches w2 c2
  | .alt r q, w, cs => r.Matches w cs ∨ q.Matches w cs
  | .rep p lo hi, w, cs =>
    (∀ x ∈ w, p x = true) ∧ lo ≤ w.length ∧ (∀ h, hi = some h → w.length ≤ h) ∧ cs = []
  | .group r, w, cs => ∃ c, cs = w :: c ∧ r.Matches w c

/-! ## The grammars of the specification -/

/-- The road grammar of the specification, `[AS][1-9][0-9]{0,2}`: the letter
`A` or `S`, a digit from 1 to 9, then at most two more digits. -/
def roadGrammar : Str → Bool
  | a :: d :: ds => isAS a && isDigit19 d && ds.all isDigit && decide (ds.length ≤ 2)
  | _ => false

/-- The car-name grammar of the specification, `[A-Za-z0-9]{3,11}`. -/
def carGrammar (c : Str) : Bool :=
  c.all isAlnum && decide (3 ≤ c.length) && decide (c.length ≤ 11)

/-- The integer part of a distance: the literal `0`, or digits without a
leading zero. -/
def intGrammar : Str → Bool
  | [] => false
  | d :: ds => (decide (d = '0') && ds.isEmpty) || (isDigit19 d && ds.all isDigit)

/-- The decimal part of a distance: exactly one digit. -/
def decGrammar : Str → Bool
  | [d] => isDigit d
  | _ => false

/-- The action grammar of the specification: the whole line is optional
whitespace, a car token, whitespace, a road token, whitespace, an integer
token, a comma, one decimal digit and optional whitespace. -/
def ActionLine (line c r k m : Str) : Prop :=
  ∃ w0 w1 w2 w3 : Str,
    line = w0 ++ c ++ w1 ++ r ++ w2 ++ k ++ [','] ++ m ++ w3 ∧
    (∀ x ∈ w0, isSpace x = true) ∧ carGrammar c = true ∧
    (w1 ≠ [] ∧ ∀ x ∈ w1, isSpace x = true) ∧ roadGrammar r = true ∧
    (w2 ≠ [] ∧ ∀ x ∈ w2, isSpace x = true) ∧ intGrammar k = true ∧
    decGrammar m = true ∧ (∀ x ∈ w3, isSpace x = true)

/-- The query grammar of the specification: the whole line is optional
whitespace, a question mark, optional whitespace, a possibly empty token of
alphanumeric characters and optional whitespace. -/
def QueryLine (line t : Str) : Prop :=
  ∃ w0 w1 w2 : Str,
    line = w0 ++ ['?'] ++ w1 ++ t ++ w2 ∧
    (∀ x ∈ w0, isSpace x = true) ∧ (∀ x ∈ w1, isSpace x = true) ∧
    (∀ x ∈ t, isAlnum x = true) ∧ (∀ x ∈ w2, isSpace x = true)

/-! ## Invariants of the run -/

/-- A road of category A or S with an id between 1 and 999. -/
def RoadOk (r : Road) : Prop :=
  (r.1 = RoadType.roadA_t ∨ r.1 = RoadType.roadS_t) ∧ 1 ≤ r.2 ∧ r.2 ≤ 999

/-- The order of the road answers in the specification: by id, then by
category with A before S. -/
def roadBefore (r1 r2 : Road) : Prop :=
  r1.2 < r2.2 ∨ (r1.2 = r2.2 ∧ r1.1 = RoadType.roadA_t ∧ r2.1 = RoadType.roadS_t)

/-- The lexicographic order of strings by character code. -/
def lexBefore (a b : Str) : Prop := List.Lex (fun x y : Char => x.toNat < y.toNat) a b

/-- What holds of the containers after any number of lines: the roads of the
pending reports and the keys of the per-road map are roads of category A or
S, and the car set and the per-road map are in the order of their
comparators. -/
def StoreInv (hd : HistoryData) (st : StatsTuple) : Prop :=
  (∀ e ∈ hd.lastCarPositionMap, RoadOk e.2.1.1) ∧
  (∀ e ∈ st.roadDistance, RoadOk e.1) ∧
  st.allCars.Pairwise (fun a b => strLt a b = true) ∧
  (st.roadDistance.map Prod.fst).Pairwise (fun a b => roadCmp a b = true)

/-- The absolute difference of the km values `a1,d1` and `a2,d2` of the
specification, computed on exact tenths. -/
def absDiffKm (a1 d1 a2 d2 : Nat) : Km :=
  ((max (10 * a1 + d1) (10 * a2 + d2) - min (10 * a1 + d1) (10 * a2 + d2)) / 10,
   (max (10 * a1 + d1) (10 * a2 + d2) - min (10 * a1 + d1) (10 * a2 + d2)) % 10)

/-! ## The committed segments of a run -/

/-- The segment that a line commits: the car and the road of the call of
`updateStats` that `action` makes on this line, if it makes one. -/
def committed (m : Machine) (line : Str) : Option (Car × Road) :=
  match m.halt with
  | some _ => none
  | none =>
    let r := read line m.parsedLine m.lC
    match r.1 with
    | .readAction_t =>
      match parseAction r.2.1 r.2.2 with
      | .error _ => none
      | .ok pA =>
        match find (getCar pA) (getLastCarPositionMap m.historyData) with
        | none => none
        | some second =>
          if getRoad pA ≠ second.1.1 then none
          else
            match updateStats m.statsTuple pA second.1.2 with
            | .error _ => none
            | .ok _ => some (getCar pA, getRoad pA)
    | _ => none

/-- The segments committed while the lines are processed from the state `m`,
oldest first. -/
def commitsFrom (m : Machine) : List Str → List (Car × Road)
  | [] => []
  | l :: ls => (committed m l).toList ++ commitsFrom (step m l) ls

/-- The segments committed by `run` on the lines of the input. -/
def commits (lines : List Str) : List (Car × Road) := commitsFrom Machine.init lines

/-! ## The history of the pending reports -/

/-- The relation between the pending reports `L` (by car) and the history
`H` (by line number) after the lines `ps`, the line counter being `lC`: the
keys of the history are line numbers that were read, each with the text of
its line; the line of every pending report is in the history; every key of
the history is the line of a pending report; and no two cars are pending
from the same line. -/
def LedgerHistory (lC : Nat) (ps : List Str) (L : Car → Option (Position × Nat))
    (H : Nat → Option Str) : Prop :=
  (∀ n text, H n = some text → 1 ≤ n ∧ n ≤ lC ∧ ps[n - 1]? = some text) ∧
  (∀ c pos n, L c = some (pos, n) → (H n).isSome = true) ∧
  (∀ n, (H n).isSome = true → ∃ c pos, L c = some (pos, n)) ∧
  (∀ c c' pos pos' n, L c = some (pos, n) → L c' = some (pos', n) → c = c')

/-- The invariant of the history data after the lines `ps`. -/
def HistInv (ps : List Str) (m : Machine) : Prop :=
  m.lC ≤ ps.length ∧ (m.halt = none → m.lC = ps.length) ∧
  m.halt ≠ some Halt.undefined ∧
  LedgerHistory m.lC ps (fun c => find c m.historyData.lastCarPositionMap)
    (fun n => find n m.historyData.historyMap) ∧
  (m.historyData.lastCarPositionMap.map Prod.fst).Nodup ∧
  (m.historyData.historyMap.map Prod.fst).Pairwise (fun a b => decide (a < b) = true)

/-! ## The two views of the store -/

/-- The tenths of a km value, `10 * integer part + digit`, as an exact
number. -/
def tenths (km : Km) : Nat := 10 * km.1 + km.2

/-- The sum of the tenths of the entries of a map whose key satisfies `p`. -/
def totalOf {κ : Type} (p : κ → Bool) (map : List (κ × Km)) : Nat :=
  ((map.filter fun e => p e.1).map fun e => tenths e.2).sum

/-- The sum of the tenths of all entries of a per-car map. -/
def carTotal (map : List (Car × Km)) : Nat := totalOf (fun _ => true) map

/-- The sum of the tenths of the per-road totals of the roads of a category. -/
def roadTotal (t : RoadType) (map : RoadDistanceMap) : Nat :=
  totalOf (fun r => decide (r.1 = t)) map

/-- Every total of the store has tenths below 2^32, so that `kmToBig`
converts it without wrapping. -/
def storeInRange (st : StatsTuple) : Bool :=
  st.carDistanceOnA.all (fun e => decide (tenths e.2 < 2 ^ 32)) &&
  st.carDistanceOnS.all (fun e => decide (tenths e.2 < 2 ^ 32)) &&
  st.roadDistance.all (fun e => decide (tenths e.2 < 2 ^ 32))

/-- No total wraps when a distance is added to it: before each of the lines,
processed from the state `m`, every total of the store is in range. -/
def totalsInRange (m : Machine) : List Str → Bool
  | [] => true
  | l :: ls => storeInRange m.statsTuple && totalsInRange (step m l) ls

/-- The sum of two km values in the words of the specification: both are
converted to tenths, the tenths are added, and the result is converted back. -/
def kmSum (a b : Km) : Km := ((tenths a + tenths b) / 10, (tenths a + tenths b) % 10)

/-! # Verification -/

theorem length_le_takeWhile (p : Char → Bool) (w t : Str) (h : ∀ x ∈ w, p x = true) :
    w.length ≤ ((w ++ t).takeWhile p).length := by
  induction w with
  | nil => simp
  | cons a w ih =>
    have ha : p a = true := h a (by simp)
    simp [List.takeWhile_cons, ha]
    exact ih (fun x hx => h x (by simp [hx]))

theorem all_take_of_le (p : Char → Bool) (s : Str) :
    ∀ k, k ≤ (s.takeWhile p).length → ∀ x ∈ s.take k, p x = true := by
  induction s with
  | nil => intro k _ x hx; simp at hx
  | cons a s ih =>
    intro k hk x hx
    cases k with
    | zero => simp at hx
    | succ k =>
      by_cases ha : p a = true
      · simp [List.takeWhile_cons, ha] at hk
        simp at hx
        rcases hx with rfl | hx
        · exact ha
        · exact ih k hk x hx
      · simp [List.takeWhile_cons, ha] at hk

theorem repRun_spec (p : Char → Bool) (lo : Nat) (hi : Option Nat) (s t : Str)
    (cs : List Str) :
    (t, cs) ∈ repRun p lo hi s ↔
      ∃ w, s = w ++ t ∧ (Regex.rep p lo hi).Matches w cs := by
  unfold repRun
  simp only [List.mem_map, List.mem_range, Prod.mk.injEq, Regex.Matches]
  constructor
  · rintro ⟨i, hi1, rfl, rfl⟩
    set n := (s.takeWhile p).length with hn
    set m := (match hi with
      | some h => min n h
      | none => n) with hm
    have hmn : m ≤ n := by
      rw [hm]; cases hi <;> simp
    refine ⟨s.take (m - i), (List.take_append_drop _ _).symm, ?_, ?_, ?_, rfl⟩
    · exact all_take_of_le p s (m - i) (by omega)
    · have : m - i ≤ s.length := by
        have := (List.takeWhile_prefix p (l := s)).length_le
        omega
      simp [List.length_take]
      omega
    · intro h hh
      subst hh
      have : m ≤ h := by rw [hm]; simp
      simp [List.length_take]
      omega
  · rintro ⟨w, rfl, hall, hlo, hhi, rfl⟩
    set n := ((w ++ t).takeWhile p).length with hn
    set m := (match hi with
      | some h => min n h
      | none => n) with hm
    have hwn : w.length ≤ n := length_le_takeWhile p w t hall
    have hwm : w.length ≤ m := by
      rw [hm]
      cases hi with
      | none => simpa using hwn
      | some h => simp; exact ⟨hwn, hhi h rfl⟩
    refine ⟨m - w.length, by omega, ?_, rfl⟩
    have : m - (m - w.length) = w.length := by omega
    rw [this]
    simp

theorem Regex.run_spec (r : Regex) : ∀ (s t : Str) (cs : List Str),
    (t, cs) ∈ r.run s ↔ ∃ w, s = w ++ t ∧ r.Matches w cs := by
  induction r with
  | char c =>
    intro s t cs
    cases s with
    | nil => simp [Regex.run, Regex.Matches]
    | cons x s =>
      by_cases hx : x = c
      · subst hx
        simp only [Regex.run, Regex.Matches, if_true, List.mem_singleton, Prod.mk.injEq]
        constructor
        · rintro ⟨rfl, rfl⟩; exact ⟨[x], rfl, rfl, rfl⟩
        · rintro ⟨w, h, rfl, rfl⟩
          simp at h
          exact ⟨h.symm, rfl⟩
      · simp only [Regex.run, Regex.Matches, hx, if_false, List.not_mem_nil, false_iff]
        rintro ⟨w, h, rfl, rfl⟩
        simp at h
        exact hx h.1
  | cls p =>
    intro s t cs
    cases s with
    | nil => simp [Regex.run, Regex.Matches]
    | cons x s =>
      by_cases hx : p x = true
      · simp only [Regex.run, Regex.Matches, hx, if_true, List.mem_singleton, Prod.mk.injEq]
        constructor
        · rintro ⟨rfl, rfl⟩; exact ⟨[x], rfl, x, rfl, hx, rfl⟩
        · rintro ⟨w, h, y, rfl, _, rfl⟩
          simp at h
          exact ⟨h.2.symm, rfl⟩
      · have hx' : p x = false := by simpa using hx
        simp only [Regex.run, Regex.Matches, hx', Bool.false_eq_true, if_false,
          List.not_mem_nil, false_iff]
        rintro ⟨w, h, y, rfl, hy, rfl⟩
        simp at h
        rw [h.1] at hx
        exact hx hy
  | seq r q ihr ihq =>
    intro s t cs
    simp only [Regex.run, Regex.Matches, List.mem_flatMap, List.mem_map, Prod.mk.injEq,
      Prod.exists]
    constructor
    · rintro ⟨u, c1, h1, v, c2, h2, rfl, rfl⟩
      obtain ⟨w1, rfl, m1⟩ := (ihr _ _ _).1 h1
      obtain ⟨w2, rfl, m2⟩ := (ihq _ _ _).1 h2
      exact ⟨w1 ++ w2, by simp, w1, w2, c1, c2, rfl, rfl, m1, m2⟩
    · rintro ⟨w, rfl, w1, w2, c1, c2, rfl, rfl, m1, m2⟩
      refine ⟨w2 ++ t, c1, (ihr _ _ _).2 ⟨w1, by simp, m1⟩, t, c2, ?_, rfl, rfl⟩
      exact (ihq _ _ _).2 ⟨w2, rfl, m2⟩
  | alt r q ihr ihq =>
    intro s t cs
    simp only [Regex.run, Regex.Matches, List.mem_append, ihr, ihq]
    constructor
    · rintro (⟨w, h, m⟩ | ⟨w, h, m⟩)
      · exact ⟨w, h, Or.inl m⟩
      · exact ⟨w, h, Or.inr m⟩
    · rintro ⟨w, h, m | m⟩
      · exact Or.inl ⟨w, h, m⟩
      · exact Or.inr ⟨w, h, m⟩
  | rep p lo hi =>
    intro s t cs
    simp only [Regex.run]
    exact repRun_spec p lo hi s t cs
  | group r ih =>
    intro s t cs
    simp only [Regex.run, Regex.Matches, List.mem_map, Prod.mk.injEq, Prod.exists]
    constructor
    · rintro ⟨u, c, h, rfl, rfl⟩
      obtain ⟨w, rfl, m⟩ := (ih _ _ _).1 h
      exact ⟨w, rfl, c, by simp, m⟩
    · rintro ⟨w, rfl, c, rfl, m⟩
      exact ⟨t, c, (ih _ _ _).2 ⟨w, rfl, m⟩, rfl, by simp⟩

/-- A successful `regex_match` returns the captures of a match of the whole
string. -/
theorem regex_match_sound {s : Str} {r : Regex} {cs : List Str}
    (h : regex_match s r = some cs) : r.Matches s cs := by
  unfold regex_match at h
  simp only [Option.map_eq_some'] at h
  obtain ⟨a, ha, rfl⟩ := h
  have hm := List.mem_of_find?_eq_some ha
  have hp := List.find?_some ha
  obtain ⟨t, c⟩ := a
  simp at hp
  subst hp
  obtain ⟨w, hw, m⟩ := (r.run_spec _ _ _).1 hm
  simp at hw
  subst hw
  exact m

/-- When the pattern has a match of the whole string, `regex_match` succeeds. -/
theorem regex_match_complete {s : Str} {r : Regex} {cs : List Str}
    (h : r.Matches s cs) : ∃ cs', regex_match s r = some cs' := by
  have hm : (([] : Str), cs) ∈ r.run s := (r.run_spec _ _ _).2 ⟨s, by simp, h⟩
  unfold regex_match
  cases hf : (r.run s).find? fun a => a.1.isEmpty with
  | some a => exact ⟨a.2, rfl⟩
  | none =>
    rw [List.find?_eq_none] at hf
    have := hf _ hm
    simp at this

theorem regex_match_isSome_iff (s : Str) (r : Regex) :
    (regex_match s r).isSome = true ↔ ∃ cs, r.Matches s cs := by
  constructor
  · intro h
    obtain ⟨cs, hcs⟩ := Option.isSome_iff_exists.1 h
    exact ⟨cs, regex_match_sound hcs⟩
  · rintro ⟨cs, h⟩
    obtain ⟨cs', h'⟩ := regex_match_complete h
    simp [h']

/-- When all matches of the whole string have the same captures,
`regex_match` returns them. -/
theorem regex_match_eq_of_unique {s : Str} {r : Regex} {cs : List Str}
    (h : r.Matches s cs) (huniq : ∀ cs', r.Matches s cs' → cs' = cs) :
    regex_match s r = some cs := by
  obtain ⟨cs', h'⟩ := regex_match_complete h
  rw [h', huniq cs' (regex_match_sound h')]

/-! ## Decimal digits -/

theorem digitChar_digitVal (c : Char) (h : isDigit c = true) :
    Nat.digitChar (digitVal c) = c := by
  unfold isDigit at h
  simp only [Bool.and_eq_true, decide_eq_true_eq] at h
  obtain ⟨h1, h2⟩ := h
  have hc := Char.ofNat_toNat c
  unfold digitVal
  generalize c.toNat = n at *
  subst hc
  interval_cases n <;> decide

theorem digitVal_lt (c : Char) (h : isDigit c = true) : digitVal c < 10 := by
  unfold isDigit at h
  simp only [Bool.and_eq_true, decide_eq_true_eq] at h
  unfold digitVal
  omega

theorem digitVal_pos (c : Char) (h : isDigit19 c = true) : 0 < digitVal c := by
  unfold isDigit19 at h
  simp only [Bool.and_eq_true, decide_eq_true_eq] at h
  unfold digitVal
  omega

theorem isDigit_of_isDigit19 (c : Char) (h : isDigit19 c = true) : isDigit c = true := by
  unfold isDigit19 at h
  unfold isDigit
  simp only [Bool.and_eq_true, decide_eq_true_eq] at h ⊢
  omega

theorem toDigitsCore_eq (n : Nat) : ∀ fuel acc, n < fuel →
    Nat.toDigitsCore 10 fuel n acc = Nat.toDigitsCore 10 (n + 1) n [] ++ acc := by
  induction n using Nat.strong_induction_on with
  | _ n ih =>
    intro fuel acc hf
    obtain ⟨f, rfl⟩ : ∃ f, fuel = f + 1 := ⟨fuel - 1, by omega⟩
    simp only [Nat.toDigitsCore]
    by_cases h0 : n / 10 = 0
    · simp [h0]
    · simp only [h0, if_false]
      have hlt : n / 10 < n := Nat.div_lt_self (by omega) (by omega)
      rw [ih (n / 10) hlt f _ (by omega), ih (n / 10) hlt n _ hlt]
      simp

theorem to_string_lt10 (n : Nat) (h : n < 10) : to_string n = [Nat.digitChar n] := by
  unfold to_string Nat.toDigits
  simp only [Nat.toDigitsCore]
  have h0 : n / 10 = 0 := by omega
  have h1 : n % 10 = n := by omega
  simp [h0, h1]

theorem to_string_step (q d : Nat) (hq : 0 < q) (hd : d < 10) :
    to_string (10 * q + d) = to_string q ++ [Nat.digitChar d] := by
  unfold to_string Nat.toDigits
  simp only [Nat.toDigitsCore]
  have h0 : (10 * q + d) / 10 = q := by omega
  have h1 : (10 * q + d) % 10 = d := by omega
  have hq0 : q ≠ 0 := by omega
  simp only [h0, h1, hq0, if_false]
  exact toDigitsCore_eq q _ _ (by omega)

theorem decVal_snoc (ds : Str) (c : Char) :
    decVal (ds ++ [c]) = 10 * decVal ds + digitVal c := by
  simp [decVal, List.foldl_append]

/-- A decimal numeral without a leading zero is the rendering of its value. -/
theorem to_string_decVal (d : Char) (hd : isDigit19 d = true) (ds : Str) :
    (∀ x ∈ ds, isDigit x = true) →
      to_string (decVal (d :: ds)) = d :: ds ∧ 0 < decVal (d :: ds) := by
  induction ds using List.reverseRecOn with
  | nil =>
    intro _
    have hv : decVal [d] = digitVal d := by simp [decVal]
    rw [hv]
    refine ⟨?_, digitVal_pos d hd⟩
    rw [to_string_lt10 _ (digitVal_lt d (isDigit_of_isDigit19 d hd)),
      digitChar_digitVal d (isDigit_of_isDigit19 d hd)]
  | append_singleton ds c ih =>
    intro h
    have hc : isDigit c = true := h c (by simp)
    obtain ⟨ih1, ih2⟩ := ih (fun x hx => h x (by simp [hx]))
    have hv : decVal (d :: (ds ++ [c])) = 10 * decVal (d :: ds) + digitVal c := by
      rw [← List.cons_append, decVal_snoc]
    rw [hv]
    refine ⟨?_, by omega⟩
    rw [to_string_step _ _ ih2 (digitVal_lt c hc), ih1, digitChar_digitVal c hc]
    simp

theorem decVal_lt (ds : Str) : (∀ x ∈ ds, isDigit x = true) →
    decVal ds < 10 ^ ds.length := by
  induction ds using List.reverseRecOn with
  | nil => intro _; simp [decVal]
  | append_singleton ds c ih =>
    intro h
    have hc := digitVal_lt c (h c (by simp))
    have := ih (fun x hx => h x (by simp [hx]))
    rw [decVal_snoc, List.length_append, List.length_singleton, pow_succ]
    omega

theorem not_isSpace_of_isDigit (c : Char) (h : isDigit c = true) : isSpace c = false := by
  unfold isDigit at h
  unfold isSpace
  simp only [Bool.and_eq_true, decide_eq_true_eq] at h
  simp only [Bool.or_eq_false_iff, Bool.and_eq_false_imp, decide_eq_false_iff_not,
    decide_eq_true_eq]
  omega

/-- On a non-empty string of digits `stoul` converts the whole string, and
throws exactly when the value exceeds `ULONG_MAX`. -/
theorem stoul_digits (d : Char) (ds : Str) (hd : isDigit d = true)
    (hds : ∀ x ∈ ds, isDigit x = true) :
    stoul (d :: ds) = if decVal (d :: ds) > ULONG_MAX then none else some (decVal (d :: ds)) := by
  have hsp := not_isSpace_of_isDigit d hd
  have hm : d ≠ '-' := by rintro rfl; revert hd; decide
  have hp : d ≠ '+' := by rintro rfl; revert hd; decide
  have htw : (d :: ds).takeWhile isDigit = d :: ds := by
    rw [List.takeWhile_eq_self_iff]
    intro x hx
    rcases List.mem_cons.1 hx with rfl | hx
    · exact hd
    · exact hds x hx
  unfold stoul
  simp only [List.dropWhile_cons, hsp, Bool.false_eq_true, if_false, List.head?_cons,
    Option.some.injEq, hm, hp, or_self, htw, decide_False, List.isEmpty_cons]

/-! ## Road names -/

theorem roadGrammar_iff (s : Str) :
    roadGrammar s = true ↔ ∃ a d ds, s = a :: d :: ds ∧ isAS a = true ∧
      isDigit19 d = true ∧ (∀ x ∈ ds, isDigit x = true) ∧ ds.length ≤ 2 := by
  constructor
  · intro h
    match s, h with
    | a :: d :: ds, h =>
      simp only [roadGrammar, Bool.and_eq_true, List.all_eq_true, decide_eq_true_eq] at h
      exact ⟨a, d, ds, rfl, h.1.1.1, h.1.1.2, h.1.2, h.2⟩
  · rintro ⟨a, d, ds, rfl, h1, h2, h3, h4⟩
    simp only [roadGrammar, Bool.and_eq_true, List.all_eq_true, decide_eq_true_eq]
    exact ⟨⟨⟨h1, h2⟩, h3⟩, h4⟩

theorem road_matches_iff (s : Str) (cs : List Str) :
    regex.road.Matches s cs ↔ cs = [] ∧ roadGrammar s = true := by
  rw [roadGrammar_iff]
  simp only [regex.road, Regex.Matches]
  constructor
  · rintro ⟨w1, w2, c1, c2, rfl, rfl, ⟨a, rfl, ha, rfl⟩, w3, w4, c3, c4, rfl, rfl,
      ⟨d, rfl, hd, rfl⟩, hall, -, hhi, rfl⟩
    exact ⟨rfl, a, d, w4, rfl, ha, hd, hall, hhi 2 rfl⟩
  · rintro ⟨rfl, a, d, ds, rfl, ha, hd, hall, hlen⟩
    refine ⟨[a], d :: ds, [], [], rfl, rfl, ⟨a, rfl, ha, rfl⟩, [d], ds, [], [], rfl, rfl,
      ⟨d, rfl, hd, rfl⟩, hall, Nat.zero_le _, ?_, rfl⟩
    intro h hh
    cases hh
    exact hlen

/-- The pattern of `validRoadName` accepts exactly the road grammar. -/
theorem validRoadName_eq_roadGrammar (s : Str) : validRoadName s = roadGrammar s := by
  rw [Bool.eq_iff_iff]
  unfold validRoadName
  rw [regex_match_isSome_iff]
  constructor
  · rintro ⟨cs, h⟩
    exact ((road_matches_iff s cs).1 h).2
  · intro h
    exact ⟨[], (road_matches_iff s []).2 ⟨rfl, h⟩⟩

theorem isAS_iff (a : Char) : isAS a = true ↔ a = 'A' ∨ a = 'S' := by
  simp [isAS]

/-- The road that `stringToRoad` returns on a name of the road grammar. -/
theorem stringToRoad_of_grammar (a d : Char) (ds : Str) (ha : isAS a = true)
    (hd : isDigit19 d = true) (hds : ∀ x ∈ ds, isDigit x = true) (hlen : ds.length ≤ 2) :
    stringToRoad (a :: d :: ds) =
      ((if a = 'A' then RoadType.roadA_t else RoadType.roadS_t), decVal (d :: ds)) ∧
    decVal (d :: ds) < 1000 := by
  have hv : validRoadName (a :: d :: ds) = true := by
    rw [validRoadName_eq_roadGrammar, roadGrammar_iff]
    exact ⟨a, d, ds, rfl, ha, hd, hds, hlen⟩
  have hsub : substr (a :: d :: ds) 1 (a :: d :: ds).length = d :: ds := by
    simp only [substr, List.drop_succ_cons, List.drop_zero]
    apply List.take_of_length_le
    simp
  have hall : ∀ x ∈ d :: ds, isDigit x = true := by
    intro x hx
    rcases List.mem_cons.1 hx with rfl | hx
    · exact isDigit_of_isDigit19 _ hd
    · exact hds x hx
  have hlt : decVal (d :: ds) < 1000 := by
    have h1 := decVal_lt (d :: ds) hall
    have h2 : 10 ^ (d :: ds).length ≤ 10 ^ 3 :=
      Nat.pow_le_pow_right (by omega) (by simp; omega)
    omega
  have hst : stoul (d :: ds) = some (decVal (d :: ds)) := by
    rw [stoul_digits d ds (isDigit_of_isDigit19 _ hd) hds]
    have : ¬ decVal (d :: ds) > ULONG_MAX := by
      unfold ULONG_MAX
      omega
    simp [this]
  refine ⟨?_, hlt⟩
  unfold stringToRoad
  rw [hv, hsub, hst]
  have hmod : decVal (d :: ds) % 2 ^ 16 = decVal (d :: ds) := Nat.mod_eq_of_lt (by omega)
  rcases (isAS_iff a).1 ha with rfl | rfl
  · simp; omega
  · simp; omega

theorem stringToRoad_of_not_grammar (s : Str) (h : roadGrammar s = false) :
    stringToRoad s = (RoadType.roadN_t, toRoadId ROADN_ID) := by
  unfold stringToRoad
  rw [validRoadName_eq_roadGrammar, h]
  rfl

/-- The conversion of the digits of a valid road name does not throw. -/
theorem stoul_substr_of_validRoadName (s : Str) (h : validRoadName s = true) :
    ∃ v, stoul (substr s 1 s.length) = some v ∧ v < 1000 := by
  rw [validRoadName_eq_roadGrammar, roadGrammar_iff] at h
  obtain ⟨a, d, ds, rfl, ha, hd, hds, hlen⟩ := h
  have hsub : substr (a :: d :: ds) 1 (a :: d :: ds).length = d :: ds := by
    simp only [substr, List.drop_succ_cons, List.drop_zero]
    apply List.take_of_length_le
    simp
  have hlt := (stringToRoad_of_grammar a d ds ha hd hds hlen).2
  rw [hsub, stoul_digits d ds (isDigit_of_isDigit19 _ hd) hds]
  have : ¬ decVal (d :: ds) > ULONG_MAX := by
    unfold ULONG_MAX
    omega
  exact ⟨decVal (d :: ds), by simp [this], hlt⟩

/-- Rendering the road parsed from a name of the road grammar gives the name
back. -/
theorem roadToString_stringToRoad (s : Str) (hs : roadGrammar s = true) :
    roadToString (stringToRoad s) = s := by
  obtain ⟨a, d, ds, rfl, ha, hd, hds, hlen⟩ := (roadGrammar_iff s).1 hs
  rw [(stringToRoad_of_grammar a d ds ha hd hds hlen).1]
  have hr := (to_string_decVal d hd ds hds).1
  rcases (isAS_iff a).1 ha with rfl | rfl
  · simp [roadToString, hr]
  · simp [roadToString, hr]

/-- Different names of the road grammar are different roads. -/
theorem stringToRoad_injective (r1 r2 : Str) (h1 : roadGrammar r1 = true)
    (h2 : roadGrammar r2 = true) (h : stringToRoad r1 = stringToRoad r2) : r1 = r2 := by
  rw [← roadToString_stringToRoad r1 h1, ← roadToString_stringToRoad r2 h2, h]

/-- **C3.** For every string of the road grammar `[AS][1-9][0-9]{0,2}`,
rendering the parsed road gives the string back; for every other string
`stringToRoad` returns the none sentinel (category none, id `ROADN_ID` as a
`uint16_t`), which `roadToString` renders as the empty string. -/
theorem C3_road_roundtrip :
    (∀ s : Str, roadGrammar s = true → roadToString (stringToRoad s) = s) ∧
    (∀ s : Str, roadGrammar s = false →
      stringToRoad s = (RoadType.roadN_t, toRoadId ROADN_ID) ∧
      (stringToRoad s).1 = RoadType.roadN_t ∧ (stringToRoad s).2 = 65535 ∧
      roadToString (stringToRoad s) = []) := by
  constructor
  · intro s hs
    exact roadToString_stringToRoad s hs
  · intro s hs
    rw [stringToRoad_of_not_grammar s hs]
    exact ⟨rfl, rfl, by decide, rfl⟩

/-- The round trip on `S107` and the sentinel on `A0`, by C3. -/
theorem C3_road_roundtrip_witness :
    (roadGrammar "S107".toList = true ∧
      roadToString (stringToRoad "S107".toList) = "S107".toList) ∧
    (roadGrammar "A0".toList = false ∧
      stringToRoad "A0".toList = (RoadType.roadN_t, toRoadId ROADN_ID) ∧
      roadToString (stringToRoad "A0".toList) = []) :=
  ⟨⟨by decide, C3_road_roundtrip.1 _ (by decide)⟩,
   ⟨by decide, (C3_road_roundtrip.2 _ (by decide)).1,
    (C3_road_roundtrip.2 _ (by decide)).2.2.2⟩⟩

/-! ## Character classes -/

theorem isAlnum_of_isDigit (c : Char) (h : isDigit c = true) : isAlnum c = true := by
  simp [isAlnum, h]

theorem isAlnum_of_isAS (c : Char) (h : isAS c = true) : isAlnum c = true := by
  rcases (isAS_iff c).1 h with rfl | rfl <;> decide

theorem not_isSpace_of_isAlnum (c : Char) (h : isAlnum c = true) : isSpace c = false := by
  unfold isAlnum isDigit at h
  unfold isSpace
  simp only [Bool.or_eq_true, Bool.and_eq_true, decide_eq_true_eq] at h
  simp only [Bool.or_eq_false_iff, Bool.and_eq_false_imp, decide_eq_false_iff_not,
    decide_eq_true_eq]
  omega

theorem not_isAlnum_of_isSpace (c : Char) (h : isSpace c = true) : isAlnum c = false := by
  cases h' : isAlnum c with
  | false => rfl
  | true => rw [not_isSpace_of_isAlnum c h'] at h; cases h

/-- Two splittings of a string into a run of `p` and a rest that does not
start with `p` coincide. -/
theorem split_unique (p : Char → Bool) : ∀ (a a' b b' : Str), a ++ b = a' ++ b' →
    (∀ x ∈ a, p x = true) → (∀ x ∈ a', p x = true) →
    (∀ x, b.head? = some x → p x = false) → (∀ x, b'.head? = some x → p x = false) →
    a = a' ∧ b = b' := by
  intro a
  induction a with
  | nil =>
    intro a' b b' h _ ha' hb _
    cases a' with
    | nil => exact ⟨rfl, by simpa using h⟩
    | cons y a' =>
      simp only [List.nil_append] at h
      have := hb y (by rw [h]; rfl)
      rw [ha' y (by simp)] at this
      cases this
  | cons x a ih =>
    intro a' b b' h ha ha' hb hb'
    cases a' with
    | nil =>
      simp only [List.nil_append] at h
      have := hb' x (by rw [← h]; rfl)
      rw [ha x (by simp)] at this
      cases this
    | cons y a' =>
      simp only [List.cons_append, List.cons.injEq] at h
      obtain ⟨rfl, h⟩ := h
      obtain ⟨rfl, rfl⟩ := ih a' b b' h (fun z hz => ha z (by simp [hz]))
        (fun z hz => ha' z (by simp [hz])) hb hb'
      exact ⟨rfl, rfl⟩

/-! ## The tokens of a line -/

theorem carGrammar_iff (c : Str) :
    carGrammar c = true ↔ (∀ x ∈ c, isAlnum x = true) ∧ 3 ≤ c.length ∧ c.length ≤ 11 := by
  simp [carGrammar, and_assoc]

theorem car_matches_iff (w : Str) (cs : List Str) :
    regex.car.Matches w cs ↔ cs = [] ∧ carGrammar w = true := by
  rw [carGrammar_iff]
  simp only [regex.car, regex.alphabet, Regex.Matches]
  constructor
  · rintro ⟨h1, h2, h3, rfl⟩
    exact ⟨rfl, h1, h2, h3 11 rfl⟩
  · rintro ⟨rfl, h1, h2, h3⟩
    refine ⟨h1, h2, ?_, rfl⟩
    intro h hh
    cases hh
    exact h3

/-- The pattern of `validCarName` accepts exactly the car-name grammar. -/
theorem validCarName_eq_carGrammar (s : Str) : validCarName s = carGrammar s := by
  rw [Bool.eq_iff_iff]
  unfold validCarName
  rw [regex_match_isSome_iff]
  constructor
  · rintro ⟨cs, h⟩
    exact ((car_matches_iff s cs).1 h).2
  · intro h
    exact ⟨[], (car_matches_iff s []).2 ⟨rfl, h⟩⟩

theorem intGrammar_iff (k : Str) :
    intGrammar k = true ↔ k = ['0'] ∨
      ∃ d ds, k = d :: ds ∧ isDigit19 d = true ∧ ∀ x ∈ ds, isDigit x = true := by
  cases k with
  | nil => simp [intGrammar]
  | cons d ds =>
    simp only [intGrammar, Bool.or_eq_true, Bool.and_eq_true, decide_eq_true_eq,
      List.isEmpty_iff, List.all_eq_true, List.cons.injEq]
    constructor
    · rintro (⟨rfl, rfl⟩ | ⟨h1, h2⟩)
      · exact Or.inl ⟨rfl, rfl⟩
      · exact Or.inr ⟨d, ds, ⟨rfl, rfl⟩, h1, h2⟩
    · rintro (⟨rfl, rfl⟩ | ⟨d', ds', ⟨rfl, rfl⟩, h1, h2⟩)
      · exact Or.inl ⟨rfl, rfl⟩
      · exact Or.inr ⟨h1, h2⟩

theorem k_matches_iff (w : Str) (cs : List Str) :
    regex.k.Matches w cs ↔ cs = [] ∧ intGrammar w = true := by
  rw [intGrammar_iff]
  simp only [regex.k, Regex.Matches]
  constructor
  · rintro (⟨w1, w2, c1, c2, rfl, rfl, ⟨d, rfl, hd, rfl⟩, hall, -, -, rfl⟩ | ⟨rfl, rfl⟩)
    · exact ⟨rfl, Or.inr ⟨d, w2, rfl, hd, hall⟩⟩
    · exact ⟨rfl, Or.inl rfl⟩
  · rintro ⟨rfl, rfl | ⟨d, ds, rfl, hd, hall⟩⟩
    · exact Or.inr ⟨rfl, rfl⟩
    · exact Or.inl ⟨[d], ds, [], [], rfl, rfl, ⟨d, rfl, hd, rfl⟩, hall, Nat.zero_le _,
        (by intro h hh; cases hh), rfl⟩

theorem decGrammar_iff (m : Str) :
    decGrammar m = true ↔ ∃ d, m = [d] ∧ isDigit d = true := by
  match m with
  | [] => simp [decGrammar]
  | [d] => simp [decGrammar]
  | _ :: _ :: _ => simp [decGrammar]

theorem m_matches_iff (w : Str) (cs : List Str) :
    regex.m.Matches w cs ↔ cs = [] ∧ decGrammar w = true := by
  rw [decGrammar_iff]
  simp only [regex.m, Regex.Matches]
  constructor
  · rintro ⟨d, rfl, hd, rfl⟩
    exact ⟨rfl, d, rfl, hd⟩
  · rintro ⟨rfl, d, rfl, hd⟩
    exact ⟨d, rfl, hd, rfl⟩

theorem star_matches_iff (p : Char → Bool) (w : Str) (cs : List Str) :
    (Regex.rep p 0 none).Matches w cs ↔ cs = [] ∧ ∀ x ∈ w, p x = true := by
  simp only [Regex.Matches]
  constructor
  · rintro ⟨h, -, -, rfl⟩
    exact ⟨rfl, h⟩
  · rintro ⟨rfl, h⟩
    exact ⟨h, Nat.zero_le _, (by intro h hh; cases hh), rfl⟩

theorem plus_matches_iff (p : Char → Bool) (w : Str) (cs : List Str) :
    (Regex.rep p 1 none).Matches w cs ↔ cs = [] ∧ w ≠ [] ∧ ∀ x ∈ w, p x = true := by
  simp only [Regex.Matches]
  constructor
  · rintro ⟨h, h1, -, rfl⟩
    refine ⟨rfl, ?_, h⟩
    rintro rfl
    simp at h1
  · rintro ⟨rfl, hne, h⟩
    refine ⟨h, ?_, (by intro h hh; cases hh), rfl⟩
    cases w with
    | nil => exact absurd rfl hne
    | cons a w => simp

theorem seq_matches_iff (r q : Regex) (w : Str) (cs : List Str) :
    (Regex.seq r q).Matches w cs ↔
      ∃ w1 w2 c1 c2, w = w1 ++ w2 ∧ cs = c1 ++ c2 ∧ r.Matches w1 c1 ∧ q.Matches w2 c2 :=
  Iff.rfl

theorem group_matches_iff (r : Regex) (w : Str) (cs : List Str) :
    (Regex.group r).Matches w cs ↔ ∃ c, cs = w :: c ∧ r.Matches w c :=
  Iff.rfl

theorem char_matches_iff (c : Char) (w : Str) (cs : List Str) :
    (Regex.char c).Matches w cs ↔ w = [c] ∧ cs = [] :=
  Iff.rfl

/-- The matches of the action pattern are the lines of the action grammar,
captured token by token. -/
theorem actionRegex_matches_iff (line : Str) (cs : List Str) :
    actionRegex.Matches line cs ↔
      ∃ c r k m, cs = [c, r, k, m] ∧ ActionLine line c r k m := by
  unfold actionRegex regex.O
  simp only [seq_matches_iff, group_matches_iff, char_matches_iff, star_matches_iff,
    plus_matches_iff, car_matches_iff, road_matches_iff, k_matches_iff, m_matches_iff]
  constructor
  · rintro ⟨w0, _, _, _, rfl, rfl, ⟨rfl, h0⟩, c, _, _, _, rfl, rfl, ⟨_, rfl, rfl, hc⟩,
      w1, _, _, _, rfl, rfl, ⟨rfl, h1⟩, r, _, _, _, rfl, rfl, ⟨_, rfl, rfl, hr⟩,
      w2, _, _, _, rfl, rfl, ⟨rfl, h2⟩, k, _, _, _, rfl, rfl, ⟨_, rfl, rfl, hk⟩,
      _, _, _, _, rfl, rfl, ⟨rfl, rfl⟩, m, w3, _, _, rfl, rfl, ⟨_, rfl, rfl, hm⟩, rfl, h3⟩
    refine ⟨c, r, k, m, by simp, w0, w1, w2, w3, by simp, h0, hc, h1, hr, h2, hk, hm, h3⟩
  · rintro ⟨c, r, k, m, rfl, w0, w1, w2, w3, rfl, h0, hc, h1, hr, h2, hk, hm, h3⟩
    refine ⟨w0, c ++ (w1 ++ (r ++ (w2 ++ (k ++ (',' :: (m ++ w3)))))), [], [c, r, k, m],
      by simp, rfl, ⟨rfl, h0⟩, c, w1 ++ (r ++ (w2 ++ (k ++ (',' :: (m ++ w3))))), [c],
      [r, k, m], rfl, rfl, ⟨[], rfl, rfl, hc⟩, w1, r ++ (w2 ++ (k ++ (',' :: (m ++ w3)))),
      [], [r, k, m], rfl, rfl, ⟨rfl, h1⟩, r, w2 ++ (k ++ (',' :: (m ++ w3))), [r], [k, m],
      rfl, rfl, ⟨[], rfl, rfl, hr⟩, w2, k ++ (',' :: (m ++ w3)), [], [k, m], rfl, rfl,
      ⟨rfl, h2⟩, k, ',' :: (m ++ w3), [k], [m], rfl, rfl, ⟨[], rfl, rfl, hk⟩, [','],
      m ++ w3, [], [m], rfl, rfl, ⟨rfl, rfl⟩, m, w3, [m], [], rfl, rfl, ⟨[], rfl, rfl, hm⟩,
      rfl, h3⟩

/-- The matches of the query pattern are the lines of the query grammar. -/
theorem queryRegex_matches_iff (line : Str) (cs : List Str) :
    queryRegex.Matches line cs ↔ ∃ t, cs = [t] ∧ QueryLine line t := by
  unfold queryRegex regex.O regex.alphabet
  simp only [seq_matches_iff, group_matches_iff, char_matches_iff, star_matches_iff]
  constructor
  · rintro ⟨w0, _, _, _, rfl, rfl, ⟨rfl, h0⟩, _, _, _, _, rfl, rfl, ⟨rfl, rfl⟩,
      w1, _, _, _, rfl, rfl, ⟨rfl, h1⟩, t, w2, _, _, rfl, rfl, ⟨_, rfl, rfl, ht⟩, rfl, h2⟩
    exact ⟨t, by simp, w0, w1, w2, by simp, h0, h1, ht, h2⟩
  · rintro ⟨t, rfl, w0, w1, w2, rfl, h0, h1, ht, h2⟩
    refine ⟨w0, '?' :: (w1 ++ (t ++ w2)), [], [t], by simp, rfl, ⟨rfl, h0⟩, ['?'],
      w1 ++ (t ++ w2), [], [t], rfl, rfl, ⟨rfl, rfl⟩, w1, t ++ w2, [], [t], rfl, rfl,
      ⟨rfl, h1⟩, t, w2, [t], [], rfl, rfl, ⟨[], rfl, rfl, ht⟩, rfl, h2⟩

/-! ## Uniqueness of the tokens -/

theorem head_append_prop (a b : Str) (q : Char → Prop) (hne : a ≠ [])
    (hall : ∀ x ∈ a, q x) : ∀ x, (a ++ b).head? = some x → q x := by
  cases a with
  | nil => exact absurd rfl hne
  | cons y a =>
    intro x hx
    simp only [List.cons_append, List.head?_cons, Option.some.injEq] at hx
    subst hx
    exact hall y (by simp)

theorem carGrammar_ne_nil (c : Str) (h : carGrammar c = true) : c ≠ [] := by
  rintro rfl
  simp [carGrammar] at h

theorem roadGrammar_alnum (r : Str) (h : roadGrammar r = true) :
    r ≠ [] ∧ ∀ x ∈ r, isAlnum x = true := by
  obtain ⟨a, d, ds, rfl, ha, hd, hds, -⟩ := (roadGrammar_iff r).1 h
  refine ⟨by simp, ?_⟩
  intro x hx
  simp only [List.mem_cons] at hx
  rcases hx with rfl | rfl | hx
  · exact isAlnum_of_isAS _ ha
  · exact isAlnum_of_isDigit _ (isDigit_of_isDigit19 _ hd)
  · exact isAlnum_of_isDigit _ (hds x hx)

theorem intGrammar_digits (k : Str) (h : intGrammar k = true) :
    k ≠ [] ∧ ∀ x ∈ k, isDigit x = true := by
  rcases (intGrammar_iff k).1 h with rfl | ⟨d, ds, rfl, hd, hds⟩
  · refine ⟨by simp, ?_⟩
    intro x hx
    simp only [List.mem_singleton] at hx
    subst hx
    decide
  · refine ⟨by simp, ?_⟩
    intro x hx
    simp only [List.mem_cons] at hx
    rcases hx with rfl | hx
    · exact isDigit_of_isDigit19 _ hd
    · exact hds x hx

/-- The action grammar with the concatenation nested to the right. -/
theorem ActionLine_iff (line c r k m : Str) :
    ActionLine line c r k m ↔ ∃ w0 w1 w2 w3 : Str,
      line = w0 ++ (c ++ (w1 ++ (r ++ (w2 ++ (k ++ (',' :: (m ++ w3))))))) ∧
      (∀ x ∈ w0, isSpace x = true) ∧ carGrammar c = true ∧
      (w1 ≠ [] ∧ ∀ x ∈ w1, isSpace x = true) ∧ roadGrammar r = true ∧
      (w2 ≠ [] ∧ ∀ x ∈ w2, isSpace x = true) ∧ intGrammar k = true ∧
      decGrammar m = true ∧ (∀ x ∈ w3, isSpace x = true) := by
  unfold ActionLine
  simp only [List.append_assoc, List.singleton_append, List.cons_append, List.nil_append]

/-- A line has at most one reading as an action. -/
theorem ActionLine_unique {line c r k m c' r' k' m' : Str}
    (h : ActionLine line c r k m) (h' : ActionLine line c' r' k' m') :
    c = c' ∧ r = r' ∧ k = k' ∧ m = m' := by
  obtain ⟨w0, w1, w2, w3, rfl, h0, hc, ⟨n1, h1⟩, hr, ⟨n2, h2⟩, hk, hm, -⟩ :=
    (ActionLine_iff _ _ _ _ _).1 h
  obtain ⟨v0, v1, v2, v3, e, g0, gc, ⟨l1, g1⟩, gr, ⟨l2, g2⟩, gk, gm, -⟩ :=
    (ActionLine_iff _ _ _ _ _).1 h'
  have hca := (carGrammar_iff c).1 hc
  have gca := (carGrammar_iff c').1 gc
  have hra := roadGrammar_alnum r hr
  have gra := roadGrammar_alnum r' gr
  have hkd := intGrammar_digits k hk
  have gkd := intGrammar_digits k' gk
  obtain ⟨-, e1⟩ := split_unique isSpace _ _ _ _ e h0 g0
    (head_append_prop c _ (fun x => isSpace x = false) (carGrammar_ne_nil c hc)
      (fun x hx => not_isSpace_of_isAlnum x (hca.1 x hx)))
    (head_append_prop c' _ (fun x => isSpace x = false) (carGrammar_ne_nil c' gc)
      (fun x hx => not_isSpace_of_isAlnum x (gca.1 x hx)))
  obtain ⟨rfl, e2⟩ := split_unique isAlnum _ _ _ _ e1 hca.1 gca.1
    (head_append_prop w1 _ (fun x => isAlnum x = false) n1
      (fun x hx => not_isAlnum_of_isSpace x (h1 x hx)))
    (head_append_prop v1 _ (fun x => isAlnum x = false) l1
      (fun x hx => not_isAlnum_of_isSpace x (g1 x hx)))
  obtain ⟨-, e3⟩ := split_unique isSpace _ _ _ _ e2 h1 g1
    (head_append_prop r _ (fun x => isSpace x = false) hra.1
      (fun x hx => not_isSpace_of_isAlnum x (hra.2 x hx)))
    (head_append_prop r' _ (fun x => isSpace x = false) gra.1
      (fun x hx => not_isSpace_of_isAlnum x (gra.2 x hx)))
  obtain ⟨rfl, e4⟩ := split_unique isAlnum _ _ _ _ e3 hra.2 gra.2
    (head_append_prop w2 _ (fun x => isAlnum x = false) n2
      (fun x hx => not_isAlnum_of_isSpace x (h2 x hx)))
    (head_append_prop v2 _ (fun x => isAlnum x = false) l2
      (fun x hx => not_isAlnum_of_isSpace x (g2 x hx)))
  obtain ⟨-, e5⟩ := split_unique isSpace _ _ _ _ e4 h2 g2
    (head_append_prop k _ (fun x => isSpace x = false) hkd.1
      (fun x hx => not_isSpace_of_isDigit x (hkd.2 x hx)))
    (head_append_prop k' _ (fun x => isSpace x = false) gkd.1
      (fun x hx => not_isSpace_of_isDigit x (gkd.2 x hx)))
  have hcomma : ∀ (t : Str) (x : Char), (',' :: t).head? = some x → isDigit x = false := by
    intro t x hx
    simp only [List.head?_cons, Option.some.injEq] at hx
    subst hx
    decide
  obtain ⟨rfl, e6⟩ := split_unique isDigit _ _ _ _ e5 hkd.2 gkd.2 (hcomma _) (hcomma _)
  obtain ⟨d, rfl, -⟩ := (decGrammar_iff m).1 hm
  obtain ⟨d', rfl, -⟩ := (decGrammar_iff m').1 gm
  simp only [List.cons.injEq, List.singleton_append, true_and] at e6
  obtain ⟨rfl, -⟩ := e6
  exact ⟨rfl, rfl, rfl, rfl⟩

/-- Every character of an action line is white space, alphanumeric or the
comma. -/
theorem ActionLine_chars {line c r k m : Str} (h : ActionLine line c r k m) :
    ∀ x ∈ line, isSpace x = true ∨ isAlnum x = true ∨ x = ',' := by
  obtain ⟨w0, w1, w2, w3, rfl, h0, hc, ⟨-, h1⟩, hr, ⟨-, h2⟩, hk, hm, h3⟩ :=
    (ActionLine_iff _ _ _ _ _).1 h
  obtain ⟨d, rfl, hd⟩ := (decGrammar_iff m).1 hm
  intro x hx
  simp only [List.mem_append, List.mem_cons, List.mem_singleton, List.not_mem_nil,
    or_false] at hx
  rcases hx with hx | hx | hx | hx | hx | hx | hx | hx | hx
  · exact Or.inl (h0 x hx)
  · exact Or.inr (Or.inl (((carGrammar_iff c).1 hc).1 x hx))
  · exact Or.inl (h1 x hx)
  · exact Or.inr (Or.inl ((roadGrammar_alnum r hr).2 x hx))
  · exact Or.inl (h2 x hx)
  · exact Or.inr (Or.inl (isAlnum_of_isDigit x ((intGrammar_digits k hk).2 x hx)))
  · exact Or.inr (Or.inr hx)
  · subst hx
    exact Or.inr (Or.inl (isAlnum_of_isDigit _ hd))
  · exact Or.inl (h3 x hx)

theorem QueryLine_mem {line t : Str} (h : QueryLine line t) : '?' ∈ line := by
  obtain ⟨w0, w1, w2, rfl, -⟩ := h
  simp

/-- No line is both a query and an action. -/
theorem not_QueryLine_of_ActionLine {line c r k m t : Str}
    (h : ActionLine line c r k m) : ¬ QueryLine line t := by
  intro hq
  rcases ActionLine_chars h '?' (QueryLine_mem hq) with h1 | h1 | h1
  · revert h1; decide
  · revert h1; decide
  · revert h1; decide

theorem filter_isAlnum_of_space (w : Str) (h : ∀ x ∈ w, isSpace x = true) :
    w.filter isAlnum = [] := by
  rw [List.filter_eq_nil_iff]
  intro x hx
  simp [not_isAlnum_of_isSpace x (h x hx)]

/-- The token of a query line is what is left of the line when all but the
alphanumeric characters are removed. -/
theorem QueryLine_token {line t : Str} (h : QueryLine line t) :
    t = line.filter isAlnum := by
  obtain ⟨w0, w1, w2, rfl, h0, h1, ht, h2⟩ := h
  have hq : isAlnum '?' = false := by decide
  simp only [List.filter_append, filter_isAlnum_of_space w0 h0,
    filter_isAlnum_of_space w1 h1, filter_isAlnum_of_space w2 h2, List.nil_append,
    List.append_nil, List.filter_cons, hq, List.filter_nil, Bool.false_eq_true, if_false]
  exact (List.filter_eq_self.2 ht).symm

/-! ## The classification of a line by `read` -/

theorem read_lC (line : Str) (pl : ParsedLine) (lC : Nat) :
    (read line pl lC).2.2 = incr64 lC := by
  unfold read
  split
  · rfl
  · split
    · rfl
    · split <;> rfl

theorem regex_match_query {line t : Str} (h : QueryLine line t) :
    regex_match line queryRegex = some [t] := by
  apply regex_match_eq_of_unique ((queryRegex_matches_iff line [t]).2 ⟨t, rfl, h⟩)
  intro cs' hcs'
  obtain ⟨t', rfl, ht'⟩ := (queryRegex_matches_iff line cs').1 hcs'
  rw [QueryLine_token h, QueryLine_token ht']

theorem regex_match_action {line c r k m : Str} (h : ActionLine line c r k m) :
    regex_match line actionRegex = some [c, r, k, m] := by
  apply regex_match_eq_of_unique
    ((actionRegex_matches_iff line [c, r, k, m]).2 ⟨c, r, k, m, rfl, h⟩)
  intro cs' hcs'
  obtain ⟨c', r', k', m', rfl, h'⟩ := (actionRegex_matches_iff line cs').1 hcs'
  obtain ⟨rfl, rfl, rfl, rfl⟩ := ActionLine_unique h h'
  rfl

theorem regex_match_query_none_of_action {line c r k m : Str}
    (h : ActionLine line c r k m) : regex_match line queryRegex = none := by
  cases hq : regex_match line queryRegex with
  | none => rfl
  | some cs =>
    obtain ⟨t, -, ht⟩ := (queryRegex_matches_iff line cs).1 (regex_match_sound hq)
    exact absurd ht (not_QueryLine_of_ActionLine h)

theorem ActionLine_ne_nil {line c r k m : Str} (h : ActionLine line c r k m) :
    line ≠ [] := by
  obtain ⟨w0, w1, w2, w3, rfl, -⟩ := h
  simp

theorem QueryLine_ne_nil {line t : Str} (h : QueryLine line t) : line ≠ [] := by
  obtain ⟨w0, w1, w2, rfl, -⟩ := h
  simp

/-- What `read` returns on a line of the action grammar. -/
theorem read_of_ActionLine {line c r k m : Str} (h : ActionLine line c r k m)
    (pl : ParsedLine) (lC : Nat) :
    read line pl lC = (ReadType.readAction_t, [c, r, k, m], incr64 lC) := by
  have hne : line.isEmpty = false := by
    cases line with
    | nil => exact absurd rfl (ActionLine_ne_nil h)
    | cons _ _ => rfl
  unfold read
  simp only [hne, Bool.false_eq_true, if_false, regex_match_query_none_of_action h,
    regex_match_action h]

/-- What `read` returns on a line of the query grammar. -/
theorem read_of_QueryLine {line t : Str} (h : QueryLine line t)
    (pl : ParsedLine) (lC : Nat) :
    read line pl lC = (ReadType.readQuery_t, [t], incr64 lC) := by
  have hne : line.isEmpty = false := by
    cases line with
    | nil => exact absurd rfl (QueryLine_ne_nil h)
    | cons _ _ => rfl
  unfold read
  simp only [hne, Bool.false_eq_true, if_false, regex_match_query h]

/-- A line that `read` classifies as an action is a line of the action
grammar, and `parsedLine` holds its four tokens. -/
theorem ActionLine_of_read {line : Str} {pl : ParsedLine} {lC : Nat}
    (h : (read line pl lC).1 = ReadType.readAction_t) :
    ∃ c r k m, (read line pl lC).2.1 = [c, r, k, m] ∧ ActionLine line c r k m := by
  unfold read at h ⊢
  by_cases he : line.isEmpty = true
  · simp [he] at h
  · simp only [he, if_false] at h ⊢
    cases hq : regex_match line queryRegex with
    | some cs => simp [hq] at h
    | none =>
      simp only [hq] at h ⊢
      cases ha : regex_match line actionRegex with
      | none => simp [ha] at h
      | some cs =>
        obtain ⟨c, r, k, m, rfl, hl⟩ :=
          (actionRegex_matches_iff line cs).1 (regex_match_sound ha)
        exact ⟨c, r, k, m, rfl, hl⟩

/-- A line that `read` classifies as a query is a line of the query grammar,
and `parsedLine` holds its token. -/
theorem QueryLine_of_read {line : Str} {pl : ParsedLine} {lC : Nat}
    (h : (read line pl lC).1 = ReadType.readQuery_t) :
    ∃ t, (read line pl lC).2.1 = [t] ∧ QueryLine line t := by
  unfold read at h ⊢
  by_cases he : line.isEmpty = true
  · simp [he] at h
  · simp only [he, if_false] at h ⊢
    cases hq : regex_match line queryRegex with
    | some cs =>
      obtain ⟨t, rfl, hl⟩ := (queryRegex_matches_iff line cs).1 (regex_match_sound hq)
      exact ⟨t, rfl, hl⟩
    | none =>
      simp only [hq] at h
      cases ha : regex_match line actionRegex with
      | none => simp [ha] at h
      | some cs => simp [ha] at h

theorem ActionLine_of_read_tokens {line : Str} {pl : ParsedLine} {lC : Nat} {c r k d : Str}
    (h1 : (read line pl lC).1 = ReadType.readAction_t)
    (h2 : (read line pl lC).2.1 = [c, r, k, d]) : ActionLine line c r k d := by
  obtain ⟨c', r', k', d', e, hl⟩ := ActionLine_of_read h1
  rw [h2] at e
  simp only [List.cons.injEq, and_true] at e
  obtain ⟨rfl, rfl, rfl, rfl⟩ := e
  exact hl

theorem read_fst_indep (line : Str) (pl : ParsedLine) (lC : Nat) :
    (read line pl lC).1 = (read line [] 0).1 := by
  unfold read
  split
  · rfl
  · split
    · rfl
    · split <;> rfl

/-- **C6.** `read` classifies a line as an action, with `parsedLine` equal to
the four tokens car, road, integer part and decimal digit, if and only if the
whole line is optional whitespace, a car token of 3 to 11 alphanumeric
characters, whitespace, a road token `[AS][1-9][0-9]{0,2}`, whitespace, an
integer token that is `0` or has no leading zero, a comma, one decimal digit
and optional whitespace; every line classified as an action has four such
tokens; and the seven listed lines are classified as malformed. -/
theorem C6_read_action :
    (∀ (line : Str) (pl : ParsedLine) (lC : Nat) (c r k m : Str),
      ((read line pl lC).1 = ReadType.readAction_t ∧ (read line pl lC).2.1 = [c, r, k, m]) ↔
        ActionLine line c r k m) ∧
    (∀ (line : Str) (pl : ParsedLine) (lC : Nat),
      (read line pl lC).1 = ReadType.readAction_t →
        ∃ c r k m, (read line pl lC).2.1 = [c, r, k, m] ∧ ActionLine line c r k m) ∧
    (∀ (pl : ParsedLine) (lC : Nat),
      (read "CAR001 A01 1,0".toList pl lC).1 = ReadType.readErr_t ∧
      (read "CAR001 A0 1,0".toList pl lC).1 = ReadType.readErr_t ∧
      (read "CAR001 A1000 1,0".toList pl lC).1 = ReadType.readErr_t ∧
      (read "CAR001 A1 01,0".toList pl lC).1 = ReadType.readErr_t ∧
      (read "CAR001 A1 1,00".toList pl lC).1 = ReadType.readErr_t ∧
      (read "AB A1 1,0".toList pl lC).1 = ReadType.readErr_t ∧
      (read "ABCDEFGHIJKL A1 1,0".toList pl lC).1 = ReadType.readErr_t) := by
  refine ⟨?_, ?_, ?_⟩
  · intro line pl lC c r k m
    constructor
    · rintro ⟨h1, h2⟩
      exact ActionLine_of_read_tokens h1 h2
    · intro h
      rw [read_of_ActionLine h]
      exact ⟨rfl, rfl⟩
  · intro line pl lC h
    exact ActionLine_of_read h
  · intro pl lC
    refine ⟨?_, ?_, ?_, ?_, ?_, ?_, ?_⟩ <;> rw [read_fst_indep] <;> decide

/-- The line `CAR001 A1 10,0` is an action line with tokens `CAR001`, `A1`,
`10` and `0`, by C6. -/
theorem C6_read_action_witness :
    ActionLine "CAR001 A1 10,0".toList "CAR001".toList "A1".toList "10".toList "0".toList :=
  (C6_read_action.1 "CAR001 A1 10,0".toList [] 0 "CAR001".toList "A1".toList "10".toList
    "0".toList).1 ⟨by decide, by decide⟩

/-! ## Km arithmetic -/

/-- The tenths of a km value, `10 * integer part + digit`, as an exact
number. -/
theorem kmToBig_exact (km : Km) (h : 10 * km.1 + km.2 < 2 ^ 32) :
    kmToBig km = 10 * km.1 + km.2 := by
  unfold kmToBig
  omega

theorem bigToKm_exact (big : Nat) (h : big < 2 ^ 32) : bigToKm big = (big / 10, big % 10) := by
  unfold bigToKm
  have h1 : big / 10 % 2 ^ 32 = big / 10 := by omega
  have h2 : big % 10 % 2 ^ 8 = big % 10 := by omega
  rw [h1, h2]

/-- Below the 32-bit range of the tenths, `diff` is the absolute difference. -/
theorem diff_exact (k1 k2 : Km) (h1 : 10 * k1.1 + k1.2 < 2 ^ 32)
    (h2 : 10 * k2.1 + k2.2 < 2 ^ 32) :
    (diff k1 k2).2 < 10 ∧
    10 * (diff k1 k2).1 + (diff k1 k2).2 =
      max (10 * k1.1 + k1.2) (10 * k2.1 + k2.2) - min (10 * k1.1 + k1.2) (10 * k2.1 + k2.2) := by
  unfold diff
  simp only [kmToBig_exact k1 h1, kmToBig_exact k2 h2]
  split
  · rw [bigToKm_exact _ (by omega)]
    simp only
    omega
  · rw [bigToKm_exact _ (by omega)]
    simp only
    omega

/-- **C4.** The code at a failing input: the tenths of the km value
`429496730,0` are computed as 4, not as 4294967300, because `kmToBig`
multiplies in 32 bits, so `diff` of `429496730,0` and `0,0` is `0,4`; the
log `CAR001 A1 429496730,0`, `CAR001 A1 0,0`, `?CAR001` prints `CAR001 A 0,4`. -/
theorem C4_diff_wraps :
    kmToBig (429496730, 0) = 4 ∧ diff (429496730, 0) (0, 0) = (0, 4) ∧
    (run ["CAR001 A1 429496730,0".toList, "CAR001 A1 0,0".toList,
      "?CAR001".toList]).cout = ["CAR001 A 0,4".toList] := by
  refine ⟨by decide, by decide, by decide⟩

/-! ## Queries -/

/-- **C7.** For every query token `t` and every aggregation store,
`interpretQuery` returns All iff `t` is empty; Error iff `t` is non-empty and
matches neither the car-name nor the road-name grammar; and otherwise Mix iff
`t` is in the car set and `stringToRoad t` is a key of the per-road map, Car
iff only the former, Road iff only the latter, Ignore iff neither. `query`
then prints the car answer followed by the road answer for Mix, one answer
for Car or Road, nothing on either stream for Ignore, and only the diagnostic
of the line on the error stream for Error. -/
theorem C7_query_classification (t : Str) (rest : ParsedLine) (st : StatsTuple)
    (line : Str) (lC : Nat) :
    ∃ qt name, interpretQuery (t :: rest) st = .ok (qt, name) ∧
      (qt = QueryType.queryAll_t ↔ t = []) ∧
      (qt = QueryType.queryError_t ↔
        t ≠ [] ∧ carGrammar t = false ∧ roadGrammar t = false) ∧
      (t ≠ [] ∧ (carGrammar t = true ∨ roadGrammar t = true) →
        (qt = QueryType.queryMix_t ↔
          t ∈ st.allCars ∧ (find (stringToRoad t) st.roadDistance).isSome = true) ∧
        (qt = QueryType.queryCar_t ↔
          t ∈ st.allCars ∧ (find (stringToRoad t) st.roadDistance).isSome = false) ∧
        (qt = QueryType.queryRoad_t ↔
          t ∉ st.allCars ∧ (find (stringToRoad t) st.roadDistance).isSome = true) ∧
        (qt = QueryType.queryIgnore_t ↔
          t ∉ st.allCars ∧ (find (stringToRoad t) st.roadDistance).isSome = false)) ∧
      (qt = QueryType.queryMix_t → ∃ km, find (stringToRoad t) st.roadDistance = some km ∧
        query line (t :: rest) lC st =
          .ok ([queryCar t st,
                roadToString (stringToRoad t) ++ " ".toList ++ kmToString km], [])) ∧
      (qt = QueryType.queryCar_t → query line (t :: rest) lC st = .ok ([queryCar t st], [])) ∧
      (qt = QueryType.queryRoad_t → ∃ km, find (stringToRoad t) st.roadDistance = some km ∧
        query line (t :: rest) lC st =
          .ok ([roadToString (stringToRoad t) ++ " ".toList ++ kmToString km], [])) ∧
      (qt = QueryType.queryIgnore_t → query line (t :: rest) lC st = .ok ([], [])) ∧
      (qt = QueryType.queryError_t →
        query line (t :: rest) lC st = .ok ([], [error line lC])) := by
  by_cases ht : t = []
  · subst ht
    refine ⟨.queryAll_t, [], rfl, by simp, by simp, by simp, by simp, by simp, by simp,
      by simp, by simp⟩
  have hte : t.isEmpty = false := by
    cases t with
    | nil => exact absurd rfl ht
    | cons _ _ => rfl
  by_cases hv : carGrammar t = false ∧ roadGrammar t = false
  · have hi : interpretQuery (t :: rest) st = .ok (.queryError_t, []) := by
      simp [interpretQuery, hte, validCarName_eq_carGrammar, validRoadName_eq_roadGrammar,
        hv.1, hv.2]
    refine ⟨.queryError_t, [], hi, by simp [ht], by simp [ht, hv], ?_, by simp, by simp,
      by simp, by simp, ?_⟩
    · rintro ⟨-, h | h⟩
      · rw [hv.1] at h; cases h
      · rw [hv.2] at h; cases h
    · intro _
      simp [query, hi]
  have hv' : (!validCarName t && !validRoadName t) = false := by
    rw [validCarName_eq_carGrammar, validRoadName_eq_roadGrammar]
    cases h1 : carGrammar t <;> cases h2 : roadGrammar t <;> simp_all
  have hnv : ¬ (t ≠ [] ∧ carGrammar t = false ∧ roadGrammar t = false) := fun h => hv h.2
  by_cases hc : t ∈ st.allCars
  · cases hr : find (stringToRoad t) st.roadDistance with
    | some km =>
      have hi : interpretQuery (t :: rest) st = .ok (.queryMix_t, t) := by
        simp [interpretQuery, hte, hv', getCarSet, getRoadDistanceMap, hc, hr]
      refine ⟨.queryMix_t, t, hi, by simp [ht], by simpa using hnv, ?_, ?_, by simp,
        by simp, by simp, by simp⟩
      · intro _
        simp [hc]
      · intro _
        exact ⟨km, rfl, by simp [query, hi, queryRoad, getRoadDistanceMap, hr]⟩
    | none =>
      have hi : interpretQuery (t :: rest) st = .ok (.queryCar_t, t) := by
        simp [interpretQuery, hte, hv', getCarSet, getRoadDistanceMap, hc, hr]
      refine ⟨.queryCar_t, t, hi, by simp [ht], by simpa using hnv, ?_, by simp, ?_,
        by simp, by simp, by simp⟩
      · intro _
        simp [hc]
      · intro _
        simp [query, hi]
  · cases hr : find (stringToRoad t) st.roadDistance with
    | some km =>
      have hi : interpretQuery (t :: rest) st = .ok (.queryRoad_t, t) := by
        simp [interpretQuery, hte, hv', getCarSet, getRoadDistanceMap, hc, hr]
      refine ⟨.queryRoad_t, t, hi, by simp [ht], by simpa using hnv, ?_, by simp, by simp,
        ?_, by simp, by simp⟩
      · intro _
        simp [hc]
      · intro _
        exact ⟨km, rfl, by simp [query, hi, queryRoad, getRoadDistanceMap, hr]⟩
    | none =>
      have hi : interpretQuery (t :: rest) st = .ok (.queryIgnore_t, t) := by
        simp [interpretQuery, hte, hv', getCarSet, getRoadDistanceMap, hc, hr]
      refine ⟨.queryIgnore_t, t, hi, by simp [ht], by simpa using hnv, ?_, by simp, by simp,
        by simp, ?_, by simp⟩
      · intro _
        simp [hc]
      · intro _
        simp [query, hi]

/-- After two reports of the car `A12` on the road `A12`, the token `A12` is
both a car and a road, and the query prints both answers, by C7. -/
theorem C7_query_classification_witness :
    ∃ km, find (stringToRoad "A12".toList)
        (run ["A12 A12 10,0".toList, "A12 A12 12,5".toList]).statsTuple.roadDistance = some km ∧
      query "?A12".toList ["A12".toList] 3
          (run ["A12 A12 10,0".toList, "A12 A12 12,5".toList]).statsTuple =
        .ok ([queryCar "A12".toList
                (run ["A12 A12 10,0".toList, "A12 A12 12,5".toList]).statsTuple,
              roadToString (stringToRoad "A12".toList) ++ " ".toList ++ kmToString km], []) := by
  obtain ⟨qt, name, -, -, -, hcls, hmix, -⟩ := C7_query_classification "A12".toList []
    (run ["A12 A12 10,0".toList, "A12 A12 12,5".toList]).statsTuple "?A12".toList 3
  exact hmix ((hcls ⟨by decide, Or.inl (by decide)⟩).1.2 ⟨by decide, by decide⟩)

/-- **C9.** Processing a line that `read` classifies as blank, malformed or
a query (whatever the answer to the query) leaves the position ledger, the
history store and the four structures of the aggregation store as they
were; the line counter is incremented. -/
theorem C9_frame (m : Machine) (line : Str)
    (h : (read line m.parsedLine m.lC).1 = ReadType.readEmpty_t ∨
      (read line m.parsedLine m.lC).1 = ReadType.readErr_t ∨
      (read line m.parsedLine m.lC).1 = ReadType.readQuery_t) :
    (step m line).historyData = m.historyData ∧
    (step m line).statsTuple = m.statsTuple ∧
    (m.halt = none → (step m line).lC = incr64 m.lC) := by
  unfold step
  cases hh : m.halt with
  | some x => simp
  | none =>
    simp only [read_lC]
    rcases h with h | h | h
    · simp [h]
    · simp [h]
    · simp only [h]
      split <;> simp

/-- The query `?CAR001` after one report of `CAR001` leaves the pending
report and the stores as they were, by C9. -/
theorem C9_frame_witness :
    (read "?CAR001".toList (run ["CAR001 A1 10,0".toList]).parsedLine
        (run ["CAR001 A1 10,0".toList]).lC).1 = ReadType.readQuery_t ∧
    (step (run ["CAR001 A1 10,0".toList]) "?CAR001".toList).historyData =
      (run ["CAR001 A1 10,0".toList]).historyData ∧
    (step (run ["CAR001 A1 10,0".toList]) "?CAR001".toList).statsTuple =
      (run ["CAR001 A1 10,0".toList]).statsTuple :=
  ⟨by decide,
   (C9_frame (run ["CAR001 A1 10,0".toList]) "?CAR001".toList
      (Or.inr (Or.inr (by decide)))).1,
   (C9_frame (run ["CAR001 A1 10,0".toList]) "?CAR001".toList
      (Or.inr (Or.inr (by decide)))).2.1⟩

/-! ## Containers -/

section ContainerLemmas
variable {κ : Type} {ν : Type} [DecidableEq κ]

theorem mem_assign {k : κ} {v : ν} {m : List (κ × ν)} {e : κ × ν} (h : e ∈ assign k v m) :
    e ∈ m ∨ e = (k, v) := by
  induction m with
  | nil => simp [assign] at h
  | cons a t ih =>
    simp only [assign] at h
    split at h
    · rename_i hk
      simp only [List.mem_cons] at h
      rcases h with h | h
      · right; rw [h, hk]
      · left; simp [h]
    · simp only [List.mem_cons] at h
      rcases h with h | h
      · left; simp [h]
      · rcases ih h with h | h
        · left; simp [h]
        · right; exact h

theorem keys_assign (k : κ) (v : ν) (m : List (κ × ν)) :
    (assign k v m).map Prod.fst = m.map Prod.fst := by
  induction m with
  | nil => rfl
  | cons a t ih =>
    simp only [assign]
    split
    · simp
    · simp [ih]

theorem mem_erase {k : κ} {m : List (κ × ν)} {e : κ × ν} (h : e ∈ erase k m) : e ∈ m := by
  induction m with
  | nil => simp [erase] at h
  | cons a t ih =>
    simp only [erase] at h
    split at h
    · simp [h]
    · simp only [List.mem_cons] at h ⊢
      rcases h with h | h
      · exact Or.inl h
      · exact Or.inr (ih h)

theorem mem_insertU {k : κ} {v : ν} {m : List (κ × ν)} {e : κ × ν}
    (h : e ∈ insertU k v m) : e ∈ m ∨ e = (k, v) := by
  unfold insertU at h
  split at h
  · exact Or.inl h
  · simpa using h

end ContainerLemmas

section OrderedContainers
variable {κ : Type} {ν : Type}

theorem mem_insertO {lt : κ → κ → Bool} {k : κ} {v : ν} {m : List (κ × ν)} {e : κ × ν}
    (h : e ∈ insertO lt k v m) : e ∈ m ∨ e = (k, v) := by
  induction m with
  | nil => simpa [insertO] using h
  | cons a t ih =>
    simp only [insertO] at h
    split at h
    · simp only [List.mem_cons] at h ⊢
      rcases h with h | h | h
      · exact Or.inr h
      · exact Or.inl (Or.inl h)
      · exact Or.inl (Or.inr h)
    · split at h
      · simp only [List.mem_cons] at h ⊢
        rcases h with h | h
        · exact Or.inl (Or.inl h)
        · rcases ih h with h | h
          · exact Or.inl (Or.inr h)
          · exact Or.inr h
      · exact Or.inl h

theorem mem_setInsert {lt : κ → κ → Bool} {k : κ} {m : List κ} {e : κ}
    (h : e ∈ setInsert lt k m) : e ∈ m ∨ e = k := by
  induction m with
  | nil => simpa [setInsert] using h
  | cons a t ih =>
    simp only [setInsert] at h
    split at h
    · simp only [List.mem_cons] at h ⊢
      rcases h with h | h | h
      · exact Or.inr h
      · exact Or.inl (Or.inl h)
      · exact Or.inl (Or.inr h)
    · split at h
      · simp only [List.mem_cons] at h ⊢
        rcases h with h | h
        · exact Or.inl (Or.inl h)
        · rcases ih h with h | h
          · exact Or.inl (Or.inr h)
          · exact Or.inr h
      · exact Or.inl h

/-- Insertion into a set keeps the order of the comparator. -/
theorem setInsert_sorted {lt : κ → κ → Bool}
    (htrans : ∀ a b c, lt a b = true → lt b c = true → lt a c = true) (k : κ) (m : List κ)
    (h : m.Pairwise (fun a b => lt a b = true)) :
    (setInsert lt k m).Pairwise (fun a b => lt a b = true) := by
  induction m with
  | nil => simp [setInsert]
  | cons a t ih =>
    rw [List.pairwise_cons] at h
    simp only [setInsert]
    split
    · rename_i hk
      rw [List.pairwise_cons]
      refine ⟨?_, List.pairwise_cons.2 h⟩
      intro x hx
      rcases List.mem_cons.1 hx with rfl | hx
      · exact hk
      · exact htrans _ _ _ hk (h.1 x hx)
    · split
      · rename_i hk
        rw [List.pairwise_cons]
        refine ⟨?_, ih h.2⟩
        intro x hx
        rcases mem_setInsert hx with hx | rfl
        · exact h.1 x hx
        · exact hk
      · exact List.pairwise_cons.2 h

/-- Insertion into an ordered map keeps the order of the comparator. -/
theorem insertO_sorted {lt : κ → κ → Bool}
    (htrans : ∀ a b c, lt a b = true → lt b c = true → lt a c = true) (k : κ) (v : ν)
    (m : List (κ × ν)) (h : (m.map Prod.fst).Pairwise (fun a b => lt a b = true)) :
    ((insertO lt k v m).map Prod.fst).Pairwise (fun a b => lt a b = true) := by
  induction m with
  | nil => simp [insertO]
  | cons a t ih =>
    rw [List.map_cons, List.pairwise_cons] at h
    simp only [insertO]
    split
    · rename_i hk
      rw [List.map_cons, List.pairwise_cons]
      refine ⟨?_, by rw [List.map_cons]; exact List.pairwise_cons.2 h⟩
      intro x hx
      rw [List.map_cons] at hx
      rcases List.mem_cons.1 hx with rfl | hx
      · exact hk
      · exact htrans _ _ _ hk (h.1 x hx)
    · split
      · rename_i hk
        rw [List.map_cons, List.pairwise_cons]
        refine ⟨?_, ih h.2⟩
        intro x hx
        obtain ⟨e, he, rfl⟩ := List.mem_map.1 hx
        rcases mem_insertO he with he | rfl
        · exact h.1 _ (List.mem_map.2 ⟨e, he, rfl⟩)
        · exact hk
      · rw [List.map_cons]
        exact List.pairwise_cons.2 h

end OrderedContainers

/-- In a map without repeated keys, `find` on the key of an element returns
the value of that element. -/
theorem find_of_mem_nodup {κ : Type} {ν : Type} [DecidableEq κ]
    (m : List (κ × ν)) (h : (m.map Prod.fst).Nodup) :
    ∀ e ∈ m, find e.1 m = some e.2 := by
  induction m with
  | nil => intro e he; simp at he
  | cons a t ih =>
    rw [List.map_cons, List.nodup_cons] at h
    intro e he
    rcases List.mem_cons.1 he with rfl | he
    · simp [find]
    · have hne : a.1 ≠ e.1 := by
        intro heq
        exact h.1 (heq ▸ List.mem_map.2 ⟨e, he, rfl⟩)
      simp only [find, hne, if_false]
      exact ih h.2 e he


/-! ## The comparators -/

theorem strLt_irrefl (a : Str) : strLt a a = false := by
  induction a with
  | nil => rfl
  | cons x a ih => simp [strLt, ih]

theorem strLt_trans : ∀ a b c : Str, strLt a b = true → strLt b c = true →
    strLt a c = true := by
  intro a
  induction a with
  | nil =>
    intro b c hab hbc
    cases b with
    | nil => simp [strLt] at hab
    | cons y b =>
      cases c with
      | nil => simp [strLt] at hbc
      | cons z c => simp [strLt]
  | cons x a ih =>
    intro b c hab hbc
    cases b with
    | nil => simp [strLt] at hab
    | cons y b =>
      cases c with
      | nil => simp [strLt] at hbc
      | cons z c =>
        simp only [strLt] at hab hbc ⊢
        by_cases h1 : x.toNat < y.toNat
        · by_cases h2 : y.toNat < z.toNat
          · have : x.toNat < z.toNat := by omega
            simp [this]
          · simp only [h2, if_false] at hbc
            by_cases h3 : z.toNat < y.toNat
            · simp [h3] at hbc
            · have : x.toNat < z.toNat := by omega
              simp [this]
        · simp only [h1, if_false] at hab
          by_cases h1' : y.toNat < x.toNat
          · simp [h1'] at hab
          · simp only [h1', if_false] at hab
            by_cases h2 : y.toNat < z.toNat
            · have : x.toNat < z.toNat := by omega
              simp [this]
            · simp only [h2, if_false] at hbc
              by_cases h3 : z.toNat < y.toNat
              · simp [h3] at hbc
              · simp only [h3, if_false] at hbc
                have h4 : ¬ x.toNat < z.toNat := by omega
                have h5 : ¬ z.toNat < x.toNat := by omega
                simp only [h4, h5, if_false]
                exact ih b c hab hbc

theorem char_eq_of_toNat_eq (x y : Char) (h : x.toNat = y.toNat) : x = y := by
  rw [← Char.ofNat_toNat x, ← Char.ofNat_toNat y, h]

/-- The comparison of `std::string` is the lexicographic order. -/
theorem strLt_iff_lexBefore : ∀ a b : Str, strLt a b = true ↔ lexBefore a b := by
  intro a
  unfold lexBefore
  induction a with
  | nil =>
    intro b
    cases b with
    | nil =>
      simp only [strLt, Bool.false_eq_true, false_iff]
      intro h
      cases h
    | cons y b =>
      simp only [strLt, true_iff]
      exact List.Lex.nil
  | cons x a ih =>
    intro b
    cases b with
    | nil =>
      simp only [strLt, Bool.false_eq_true, false_iff]
      intro h
      cases h
    | cons y b =>
      simp only [strLt]
      by_cases h1 : x.toNat < y.toNat
      · simp only [h1, if_true, true_iff]
        exact List.Lex.rel h1
      · simp only [h1, if_false]
        by_cases h2 : y.toNat < x.toNat
        · simp only [h2, if_true, Bool.false_eq_true, false_iff]
          intro h
          cases h with
          | cons h => omega
          | rel h => omega
        · simp only [h2, if_false]
          have hxy : x = y := char_eq_of_toNat_eq x y (by omega)
          subst hxy
          rw [ih b]
          constructor
          · intro h
            exact List.Lex.cons h
          · intro h
            cases h with
            | cons h => exact h
            | rel h => omega

theorem roadCmp_irrefl (a : Road) : roadCmp a a = false := by
  simp [roadCmp]

theorem roadCmp_trans (a b c : Road) (h1 : roadCmp a b = true) (h2 : roadCmp b c = true) :
    roadCmp a c = true := by
  obtain ⟨t1, n1⟩ := a
  obtain ⟨t2, n2⟩ := b
  obtain ⟨t3, n3⟩ := c
  simp only [roadCmp] at h1 h2 ⊢
  split_ifs at h1 h2 ⊢ <;> simp only [decide_eq_true_eq] at h1 h2 ⊢ <;> omega

/-- Equivalence under `roadCmp` is equality of roads, so that the `find` of
the road map is a search for an equal key. -/
theorem roadCmp_equiv_iff (a b : Road) :
    (roadCmp a b = false ∧ roadCmp b a = false) ↔ a = b := by
  constructor
  · rintro ⟨h1, h2⟩
    unfold roadCmp at h1 h2
    obtain ⟨t1, n1⟩ := a
    obtain ⟨t2, n2⟩ := b
    by_cases e : n1 = n2
    · subst e
      simp only [if_true, decide_eq_false_iff_not] at h1 h2
      cases t1 <;> cases t2 <;> simp [RoadType.toNat] at h1 h2 ⊢
    · have e' : ¬ n2 = n1 := fun h => e h.symm
      simp only [e, e', if_false, decide_eq_false_iff_not] at h1 h2
      omega
  · rintro rfl
    exact ⟨roadCmp_irrefl a, roadCmp_irrefl a⟩

/-- On roads of category A or S, `roadCmp` orders by id, then by category
with A before S. -/
theorem roadBefore_of_roadCmp (a b : Road) (ha : RoadOk a) (hb : RoadOk b)
    (h : roadCmp a b = true) : roadBefore a b := by
  unfold roadCmp at h
  unfold roadBefore
  obtain ⟨t1, n1⟩ := a
  obtain ⟨t2, n2⟩ := b
  obtain ⟨ha, -⟩ := ha
  obtain ⟨hb, -⟩ := hb
  by_cases e : n1 = n2
  · subst e
    simp only [if_true, decide_eq_true_eq] at h
    right
    simp only at ha hb
    rcases ha with rfl | rfl <;> rcases hb with rfl | rfl <;>
      simp [RoadType.toNat] at h ⊢
  · simp only [e, if_false, decide_eq_true_eq] at h
    exact Or.inl h

/-! ## The invariant of the containers -/

theorem stringToRoad_ok (r : Str) (h : roadGrammar r = true) : RoadOk (stringToRoad r) := by
  obtain ⟨a, d, ds, rfl, ha, hd, hds, hlen⟩ := (roadGrammar_iff r).1 h
  obtain ⟨e, hlt⟩ := stringToRoad_of_grammar a d ds ha hd hds hlen
  have hpos := (to_string_decVal d hd ds hds).2
  rw [e]
  refine ⟨?_, hpos, by omega⟩
  by_cases h : a = 'A'
  · simp [h]
  · simp [h]

theorem mem_insertCar {m : LastCarPositionMap} {pA : ParsedAction}
    {e : Car × (Position × Nat)} (h : e ∈ insertCar m pA) :
    e ∈ m ∨ e = (getCar pA, ((getRoad pA, getKm pA), getLineId pA)) := by
  unfold insertCar at h
  simp only at h
  split at h
  · exact mem_insertU h
  · exact mem_assign h

theorem updateRoadDistanceMap_inv (m : RoadDistanceMap) (dist : Km) (road : Road)
    (hroad : RoadOk road) (h1 : ∀ e ∈ m, RoadOk e.1)
    (h2 : (m.map Prod.fst).Pairwise (fun a b => roadCmp a b = true)) :
    (∀ e ∈ updateRoadDistanceMap m dist road, RoadOk e.1) ∧
    ((updateRoadDistanceMap m dist road).map Prod.fst).Pairwise
      (fun a b => roadCmp a b = true) := by
  unfold updateRoadDistanceMap
  split
  · refine ⟨?_, insertO_sorted roadCmp_trans road dist m h2⟩
    intro e he
    rcases mem_insertO he with he | rfl
    · exact h1 e he
    · exact hroad
  · refine ⟨?_, by rw [keys_assign]; exact h2⟩
    intro e he
    rcases mem_assign he with he | rfl
    · exact h1 e he
    · exact hroad

/-- The function `updateStats` on a road of category A or S: it does not
call `exit`, and what it stores. -/
theorem updateStats_ok (st : StatsTuple) (pA : ParsedAction) (endKm : Km)
    (hroad : RoadOk (getRoad pA)) :
    ∃ st', updateStats st pA endKm = .ok st' ∧
      st'.allCars = updateCarSet st.allCars (getCar pA) ∧
      st'.roadDistance =
        updateRoadDistanceMap st.roadDistance (diff (getKm pA) endKm) (getRoad pA) ∧
      (((getRoad pA).1 = RoadType.roadA_t ∧
          st'.carDistanceOnA =
            updateCarKmMap st.carDistanceOnA (diff (getKm pA) endKm) (getCar pA) ∧
          st'.carDistanceOnS = st.carDistanceOnS) ∨
       ((getRoad pA).1 = RoadType.roadS_t ∧
          st'.carDistanceOnS =
            updateCarKmMap st.carDistanceOnS (diff (getKm pA) endKm) (getCar pA) ∧
          st'.carDistanceOnA = st.carDistanceOnA)) := by
  rcases hroad.1 with h | h
  · exact ⟨{ carDistanceOnA :=
               updateCarKmMap st.carDistanceOnA (diff (getKm pA) endKm) (getCar pA),
             carDistanceOnS := st.carDistanceOnS,
             allCars := updateCarSet st.allCars (getCar pA),
             roadDistance :=
               updateRoadDistanceMap st.roadDistance (diff (getKm pA) endKm) (getRoad pA) },
      (by simp only [updateStats, h]; rfl), rfl, rfl, Or.inl ⟨h, rfl, rfl⟩⟩
  · exact ⟨{ carDistanceOnA := st.carDistanceOnA,
             carDistanceOnS :=
               updateCarKmMap st.carDistanceOnS (diff (getKm pA) endKm) (getCar pA),
             allCars := updateCarSet st.allCars (getCar pA),
             roadDistance :=
               updateRoadDistanceMap st.roadDistance (diff (getKm pA) endKm) (getRoad pA) },
      (by simp only [updateStats, h]; rfl), rfl, rfl, Or.inr ⟨h, rfl, rfl⟩⟩

theorem parseAction_ok {c r k mt : Str} {lC : Nat} {pA : ParsedAction}
    (h : parseAction [c, r, k, mt] lC = .ok pA) :
    ∃ kv mv, stoul k = some kv ∧ stoul mt = some mv ∧
      pA = (c, stringToRoad r, (toK kv, toM mv), lC) := by
  unfold parseAction at h
  simp only at h
  split at h
  · rename_i kv mv hk hm
    cases h
    exact ⟨kv, mv, hk, hm, rfl⟩
  · cases h

theorem parseAction_error {c r k mt : Str} {lC : Nat} {x : Halt}
    (h : parseAction [c, r, k, mt] lC = .error x) : x = Halt.exception := by
  unfold parseAction at h
  simp only at h
  split at h
  · cases h
  · cases h
    rfl

/-- An action on tokens with a road of the grammar keeps the invariant of the
containers. -/
theorem action_inv {line c r k mt : Str} {lC : Nat} {hd hd' : HistoryData}
    {st st' : StatsTuple} {err : List Str} (hr : roadGrammar r = true)
    (hinv : StoreInv hd st)
    (h : action line [c, r, k, mt] lC hd st = .ok (hd', st', err)) : StoreInv hd' st' := by
  obtain ⟨i1, i2, i3, i4⟩ := hinv
  unfold action at h
  cases hp : parseAction [c, r, k, mt] lC with
  | error x => simp [hp] at h
  | ok pA =>
    obtain ⟨kv, mv, -, -, rfl⟩ := parseAction_ok hp
    have hroad : RoadOk (stringToRoad r) := stringToRoad_ok r hr
    simp only [hp] at h
    have hledger : ∀ e ∈ insertCar hd.lastCarPositionMap
        (c, stringToRoad r, (toK kv, toM mv), lC), RoadOk e.2.1.1 := by
      intro e he
      rcases mem_insertCar he with he | rfl
      · exact i1 e he
      · exact hroad
    split at h
    · simp only [Except.ok.injEq, Prod.mk.injEq] at h
      obtain ⟨rfl, rfl, rfl⟩ := h
      exact ⟨hledger, i2, i3, i4⟩
    · split at h
      · split at h
        · cases h
        · simp only [Except.ok.injEq, Prod.mk.injEq] at h
          obtain ⟨rfl, rfl, rfl⟩ := h
          exact ⟨hledger, i2, i3, i4⟩
      · rename_i second _ _
        obtain ⟨st2, hu, ha, hrd, -⟩ :=
          updateStats_ok st (c, stringToRoad r, (toK kv, toM mv), lC) second.1.2 hroad
        rw [hu] at h
        simp only [Except.ok.injEq, Prod.mk.injEq] at h
        obtain ⟨rfl, rfl, rfl⟩ := h
        obtain ⟨r1, r2⟩ := updateRoadDistanceMap_inv st.roadDistance
          (diff (toK kv, toM mv) second.1.2) (stringToRoad r) hroad i2 i4
        refine ⟨?_, ?_, ?_, ?_⟩
        · intro e he
          exact i1 e (mem_erase he)
        · rw [hrd]
          exact r1
        · rw [ha]
          exact setInsert_sorted strLt_trans _ _ i3
        · rw [hrd]
          exact r2

/-- An action on tokens with a road of the grammar stops the process only by
the exception of `stoul` or by the use of a missing history entry, never by
`exit(1)`. -/
theorem action_error {line c r k mt : Str} {lC : Nat} {hd : HistoryData}
    {st : StatsTuple} {x : Halt} (hr : roadGrammar r = true)
    (h : action line [c, r, k, mt] lC hd st = .error x) : x ≠ Halt.exit1 := by
  unfold action at h
  cases hp : parseAction [c, r, k, mt] lC with
  | error y =>
    simp only [hp] at h
    cases h
    rw [parseAction_error hp]
    decide
  | ok pA =>
    obtain ⟨kv, mv, -, -, rfl⟩ := parseAction_ok hp
    have hroad : RoadOk (stringToRoad r) := stringToRoad_ok r hr
    simp only [hp] at h
    split at h
    · cases h
    · split at h
      · split at h
        · cases h
          decide
        · cases h
      · rename_i second _ _
        obtain ⟨st2, hu, -⟩ :=
          updateStats_ok st (c, stringToRoad r, (toK kv, toM mv), lC) second.1.2 hroad
        rw [hu] at h
        cases h

theorem query_error {line : Str} {t : Str} {lC : Nat} {st : StatsTuple} {x : Halt}
    (h : query line [t] lC st = .error x) : x ≠ Halt.exit1 := by
  unfold query at h
  split at h
  · rename_i y hi
    cases h
    unfold interpretQuery at hi
    simp only at hi
    split_ifs at hi
  · have hqs : ∀ (l : List (Road × Km)) (y : Halt), queryRoads st l = .error y →
        y = Halt.undefined := by
      intro l
      induction l with
      | nil => intro y hy; cases hy
      | cons a l ih =>
        intro y hy
        simp only [queryRoads] at hy
        split at hy
        · rename_i z hz
          cases hy
          unfold queryRoad at hz
          simp only at hz
          split at hz
          · cases hz; rfl
          · cases hz
        · split at hy
          · rename_i z hz
            cases hy
            exact ih _ hz
          · cases hy
    have hq : ∀ (rd : Road) (y : Halt), queryRoad rd st = .error y → y = Halt.undefined := by
      intro rd y hy
      unfold queryRoad at hy
      simp only at hy
      split at hy
      · cases hy; rfl
      · cases hy
    split at h
    · unfold queryAll at h
      split at h
      · rename_i _ z hz
        split at hz
        · rename_i w hw
          cases hz
          cases h
          rw [hqs _ _ hw]
          decide
        · cases hz
      · cases h
    · split at h
      · rename_i z hz
        cases h
        rw [hq _ _ hz]
        decide
      · cases h
    · cases h
    · split at h
      · rename_i z hz
        cases h
        rw [hq _ _ hz]
        decide
      · cases h
    · cases h
    · cases h

/-! ## Induction over the run -/

theorem runFrom_induction (P : Machine → Prop) (hstep : ∀ m line, P m → P (step m line)) :
    ∀ (lines : List Str) (m : Machine), P m → P (runFrom m lines) := by
  intro lines
  induction lines with
  | nil => intro m hm; exact hm
  | cons l ls ih =>
    intro m hm
    exact ih (step m l) (hstep m l hm)

theorem runFrom_append (m : Machine) (l1 l2 : List Str) :
    runFrom m (l1 ++ l2) = runFrom (runFrom m l1) l2 := by
  simp [runFrom, List.foldl_append]

theorem step_inv (m : Machine) (line : Str)
    (h : StoreInv m.historyData m.statsTuple ∧ m.halt ≠ some Halt.exit1) :
    StoreInv (step m line).historyData (step m line).statsTuple ∧
      (step m line).halt ≠ some Halt.exit1 := by
  obtain ⟨h1, h2⟩ := h
  unfold step
  cases hh : m.halt with
  | some x =>
    simp only
    exact ⟨h1, h2⟩
  | none =>
    simp only
    cases hrt : (read line m.parsedLine m.lC).1 with
    | readErr_t => exact ⟨h1, by simp [hh]⟩
    | readEmpty_t => exact ⟨h1, by simp [hh]⟩
    | readQuery_t =>
      obtain ⟨t, ht, -⟩ := QueryLine_of_read hrt
      simp only [ht, read_lC]
      cases hq : query line [t] (incr64 m.lC) m.statsTuple with
      | error x =>
        refine ⟨h1, ?_⟩
        simp only [ne_eq, Option.some.injEq]
        exact query_error hq
      | ok o => exact ⟨h1, by simp [hh]⟩
    | readAction_t =>
      obtain ⟨c, r, k, mt, ht, hl⟩ := ActionLine_of_read hrt
      obtain ⟨w0, w1, w2, w3, -, -, -, -, hr, -⟩ := hl
      simp only [ht, read_lC]
      cases ha : action line [c, r, k, mt] (incr64 m.lC) m.historyData m.statsTuple with
      | error x =>
        refine ⟨h1, ?_⟩
        simp only [ne_eq, Option.some.injEq]
        exact action_error hr ha
      | ok o =>
        obtain ⟨hd', st', err⟩ := o
        exact ⟨action_inv hr h1 ha, by simp [hh]⟩

/-- After any number of lines the containers satisfy their invariant and the
process has not called `exit(1)`. -/
theorem run_inv (lines : List Str) :
    StoreInv (run lines).historyData (run lines).statsTuple ∧
      (run lines).halt ≠ some Halt.exit1 := by
  unfold run
  apply runFrom_induction
    (fun m => StoreInv m.historyData m.statsTuple ∧ m.halt ≠ some Halt.exit1) step_inv
  refine ⟨⟨?_, ?_, ?_, ?_⟩, ?_⟩ <;> simp [Machine.init]

/-- **C5.** After every sequence of input lines, every key of the per-road
total map (and the road of every pending report) is a road of category A or S
with an id between 1 and 999, so the none sentinel is not a key; the process
has not stopped in the `exit(1)` branch of `updateStats`; and every line that
`read` classifies as an action carries a road token that `stringToRoad`
parses to a road of category A or S. -/
theorem C5_no_none_road (lines : List Str) :
    (∀ e ∈ (run lines).statsTuple.roadDistance, RoadOk e.1) ∧
    (∀ e ∈ (run lines).historyData.lastCarPositionMap, RoadOk e.2.1.1) ∧
    (run lines).halt ≠ some Halt.exit1 ∧
    (∀ (line : Str) (pl : ParsedLine) (lC : Nat),
      (read line pl lC).1 = ReadType.readAction_t →
        ∃ c r k m, (read line pl lC).2.1 = [c, r, k, m] ∧
          (stringToRoad r).1 ≠ RoadType.roadN_t ∧ RoadOk (stringToRoad r)) := by
  obtain ⟨⟨h1, h2, -, -⟩, h3⟩ := run_inv lines
  refine ⟨h2, h1, h3, ?_⟩
  intro line pl lC h
  obtain ⟨c, r, k, mt, ht, hl⟩ := ActionLine_of_read h
  obtain ⟨w0, w1, w2, w3, -, -, -, -, hr, -⟩ := hl
  have hok := stringToRoad_ok r hr
  refine ⟨c, r, k, mt, ht, ?_, hok⟩
  rcases hok.1 with e | e <;> rw [e] <;> decide

/-- The road token of the action line `CAR001 S2 5,0` parses to a road of
category A or S, by C5. -/
theorem C5_no_none_road_witness :
    ∃ c r k m, (read "CAR001 S2 5,0".toList [] 0).2.1 = [c, r, k, m] ∧
      (stringToRoad r).1 ≠ RoadType.roadN_t ∧ RoadOk (stringToRoad r) :=
  (C5_no_none_road []).2.2.2 "CAR001 S2 5,0".toList [] 0 (by decide)

/-! ## The answer to the query for everything -/

theorem queryRoads_ok (st : StatsTuple) : ∀ l : List (Road × Km),
    (∀ e ∈ l, find e.1 st.roadDistance = some e.2) →
    queryRoads st l =
      .ok (l.map fun x => roadToString x.1 ++ " ".toList ++ kmToString x.2) := by
  intro l
  induction l with
  | nil => intro _; rfl
  | cons a l ih =>
    intro h
    have ha := h a (by simp)
    simp only [queryRoads, queryRoad, getRoadDistanceMap, ha,
      ih (fun e he => h e (by simp [he])), List.map_cons]

theorem nodup_of_pairwise_lt {α : Type} (lt : α → α → Bool) (hirr : ∀ a, lt a a = false)
    (l : List α) (h : l.Pairwise (fun a b => lt a b = true)) : l.Nodup := by
  unfold List.Nodup
  apply h.imp
  intro a b hab heq
  subst heq
  rw [hirr a] at hab
  cases hab

/-- **C10.** After every sequence of input lines, the `?` query prints one
car line for every car of the car set, in strictly increasing lexicographic
order of the car names, followed by one road line for every key of the
per-road map, in strictly increasing order of id and then category with A
before S; no car and no road is listed twice. -/
theorem C10_query_all_order (lines : List Str) (line : Str) (rest : ParsedLine) (lC : Nat) :
    query line ([] :: rest) lC (run lines).statsTuple =
      .ok ((run lines).statsTuple.allCars.map (fun c => queryCar c (run lines).statsTuple) ++
           (run lines).statsTuple.roadDistance.map
             (fun x => roadToString x.1 ++ " ".toList ++ kmToString x.2), []) ∧
    (run lines).statsTuple.allCars.Pairwise lexBefore ∧
    ((run lines).statsTuple.roadDistance.map Prod.fst).Pairwise roadBefore ∧
    (run lines).statsTuple.allCars.Nodup ∧
    ((run lines).statsTuple.roadDistance.map Prod.fst).Nodup := by
  obtain ⟨⟨-, h2, h3, h4⟩, -⟩ := run_inv lines
  have hnd := nodup_of_pairwise_lt roadCmp roadCmp_irrefl _ h4
  refine ⟨?_, ?_, ?_, nodup_of_pairwise_lt strLt strLt_irrefl _ h3, hnd⟩
  · have hq := queryRoads_ok (run lines).statsTuple (run lines).statsTuple.roadDistance
      (find_of_mem_nodup _ hnd)
    simp [query, interpretQuery, queryAll, getRoadDistanceMap, getCarSet, hq]
  · exact h3.imp (fun h => (strLt_iff_lexBefore _ _).1 h)
  · apply h4.imp_of_mem
    intro a b ha hb hab
    obtain ⟨ea, hea, rfl⟩ := List.mem_map.1 ha
    obtain ⟨eb, heb, rfl⟩ := List.mem_map.1 hb
    exact roadBefore_of_roadCmp _ _ (h2 ea hea) (h2 eb heb) hab

/-! ## The steps of an action -/

theorem find_append_none {κ : Type} {ν : Type} [DecidableEq κ] (k : κ) (v : ν) :
    ∀ m : List (κ × ν), find k m = none → find k (m ++ [(k, v)]) = some v := by
  intro m
  induction m with
  | nil => intro _; simp [find]
  | cons a t ih =>
    intro h
    simp only [find] at h
    split at h
    · cases h
    · rename_i hne
      simp only [List.cons_append, find, hne, if_false]
      exact ih h

theorem find_insertU_none {κ : Type} {ν : Type} [DecidableEq κ] (k : κ) (v : ν)
    (m : List (κ × ν)) (h : find k m = none) :
    insertU k v m = m ++ [(k, v)] ∧ find k (insertU k v m) = some v := by
  have e : insertU k v m = m ++ [(k, v)] := by
    unfold insertU
    rw [h]
  exact ⟨e, by rw [e]; exact find_append_none k v m h⟩

theorem strLt_total : ∀ a b : Str, strLt a b = false → strLt b a = false → a = b := by
  intro a
  induction a with
  | nil =>
    intro b h1 _
    cases b with
    | nil => rfl
    | cons y b => simp [strLt] at h1
  | cons x a ih =>
    intro b h1 h2
    cases b with
    | nil => simp [strLt] at h2
    | cons y b =>
      simp only [strLt] at h1 h2
      by_cases c1 : x.toNat < y.toNat
      · simp [c1] at h1
      · by_cases c2 : y.toNat < x.toNat
        · simp [c2] at h2
        · simp only [c1, c2, if_false] at h1 h2
          rw [char_eq_of_toNat_eq x y (by omega), ih b h1 h2]

theorem mem_updateCarSet_self (car : Car) (s : CarSet) : car ∈ updateCarSet s car := by
  unfold updateCarSet
  induction s with
  | nil => simp [setInsert]
  | cons a t ih =>
    simp only [setInsert]
    by_cases h1 : strLt car a = true
    · simp [h1]
    · by_cases h2 : strLt a car = true
      · simp [h1, h2, ih]
      · have : car = a := strLt_total car a (by simpa using h1) (by simpa using h2)
        subst this
        simp [strLt_irrefl]

theorem stoul_int (k : Str) (h : intGrammar k = true) :
    stoul k = if decVal k > ULONG_MAX then none else some (decVal k) := by
  obtain ⟨hne, hd⟩ := intGrammar_digits k h
  cases k with
  | nil => exact absurd rfl hne
  | cons d ds =>
    exact stoul_digits d ds (hd d (by simp)) (fun x hx => hd x (by simp [hx]))

theorem stoul_dec (d : Str) (h : decGrammar d = true) :
    stoul d = some (decVal d) ∧ decVal d < 10 := by
  obtain ⟨x, rfl, hx⟩ := (decGrammar_iff d).1 h
  have hv : decVal [x] = digitVal x := by simp [decVal]
  have hlt := digitVal_lt x hx
  rw [stoul_digits x [] hx (by simp), hv]
  have : ¬ digitVal x > ULONG_MAX := by
    unfold ULONG_MAX
    omega
  simp [this, hlt]

/-- The parsed action of the tokens of an action line whose integer part does
not exceed `ULONG_MAX`. -/
theorem parseAction_tokens (c r k d : Str) (lC : Nat) (hk : intGrammar k = true)
    (hd : decGrammar d = true) (hmax : decVal k ≤ ULONG_MAX) :
    parseAction [c, r, k, d] lC =
      .ok (c, stringToRoad r, (toK (decVal k), decVal d), lC) := by
  have h1 : stoul k = some (decVal k) := by
    rw [stoul_int k hk]
    have : ¬ decVal k > ULONG_MAX := by omega
    simp [this]
  obtain ⟨h2, h3⟩ := stoul_dec d hd
  have h4 : toM (decVal d) = decVal d := by
    unfold toM
    omega
  simp only [parseAction, h1, h2, h4]

/-- The parsed action when the integer part exceeds `ULONG_MAX`: `stoul`
throws. -/
theorem parseAction_overflow (c r k d : Str) (lC : Nat) (hk : intGrammar k = true)
    (hmax : decVal k > ULONG_MAX) :
    parseAction [c, r, k, d] lC = .error Halt.exception := by
  have h1 : stoul k = none := by
    rw [stoul_int k hk]
    simp [hmax]
  simp only [parseAction, h1]

/-- An action of a car without a pending report opens one. -/
theorem action_open (line : Str) (pl : ParsedLine) (lC : Nat) (hd : HistoryData)
    (st : StatsTuple) (pA : ParsedAction) (hp : parseAction pl lC = .ok pA)
    (hf : find (getCar pA) hd.lastCarPositionMap = none) :
    action line pl lC hd st =
      .ok ({ lastCarPositionMap :=
               hd.lastCarPositionMap ++ [(getCar pA, ((getRoad pA, getKm pA), getLineId pA))],
             historyMap := insertO (fun a b => decide (a < b)) lC line hd.historyMap },
           st, []) := by
  unfold action
  simp only [hp, getLastCarPositionMap, getHistoryMap, hf, insertCar]
  rw [(find_insertU_none _ _ _ hf).1]

/-- An action on the road of the pending report of the car commits the
distance and closes the report. -/
theorem action_close (line : Str) (pl : ParsedLine) (lC : Nat) (hd : HistoryData)
    (st st' : StatsTuple) (pA : ParsedAction) (lastKm : Km) (lastLineId : Nat)
    (hp : parseAction pl lC = .ok pA)
    (hf : find (getCar pA) hd.lastCarPositionMap = some ((getRoad pA, lastKm), lastLineId))
    (hu : updateStats st pA lastKm = .ok st') :
    action line pl lC hd st =
      .ok ({ lastCarPositionMap := erase (getCar pA) hd.lastCarPositionMap,
             historyMap := erase lastLineId hd.historyMap },
           st', []) := by
  unfold action
  simp only [hp, getLastCarPositionMap, getHistoryMap, hf, ne_eq, not_true_eq_false,
    if_false, hu]

/-- An action on another road than the pending report of the car writes the
diagnostic of the pending line and opens a new report. -/
theorem action_mismatch (line : Str) (pl : ParsedLine) (lC : Nat) (hd : HistoryData)
    (st : StatsTuple) (pA : ParsedAction) (lastRoad : Road) (lastKm : Km)
    (lastLineId : Nat) (text : Str) (hp : parseAction pl lC = .ok pA)
    (hf : find (getCar pA) hd.lastCarPositionMap = some ((lastRoad, lastKm), lastLineId))
    (hne : getRoad pA ≠ lastRoad) (hh : find lastLineId hd.historyMap = some text) :
    action line pl lC hd st =
      .ok ({ lastCarPositionMap :=
               assign (getCar pA) ((getRoad pA, getKm pA), getLineId pA)
                 hd.lastCarPositionMap,
             historyMap := insertO (fun a b => decide (a < b)) lC line
               (erase lastLineId hd.historyMap) },
           st, [error text lastLineId]) := by
  unfold action
  simp only [hp, getLastCarPositionMap, getHistoryMap, hf, ne_eq, hne, not_false_eq_true,
    if_true, hh, insertCar]

/-- The step of the machine on a line of the action grammar. -/
theorem step_action (m : Machine) (line c r k d : Str) (hrun : m.halt = none)
    (hl : ActionLine line c r k d) :
    step m line =
      match action line [c, r, k, d] (incr64 m.lC) m.historyData m.statsTuple with
      | .error h => { m with lC := incr64 m.lC, parsedLine := [c, r, k, d], halt := some h }
      | .ok o =>
        { m with lC := incr64 m.lC, parsedLine := [c, r, k, d], historyData := o.1,
                 statsTuple := o.2.1, cerr := m.cerr ++ o.2.2 } := by
  unfold step
  simp only [hrun, read_of_ActionLine hl]

/-- The step of the machine on a line of the query grammar. -/
theorem step_query (m : Machine) (line t : Str) (hrun : m.halt = none)
    (hl : QueryLine line t) :
    step m line =
      match query line [t] (incr64 m.lC) m.statsTuple with
      | .error h => { m with lC := incr64 m.lC, parsedLine := [t], halt := some h }
      | .ok o =>
        { m with lC := incr64 m.lC, parsedLine := [t], cout := m.cout ++ o.1,
                 cerr := m.cerr ++ o.2 } := by
  unfold step
  simp only [hrun, read_of_QueryLine hl]

/-! ## Two reports on one road, then a query -/

theorem ActionLine_parts {line c r k d : Str} (h : ActionLine line c r k d) :
    carGrammar c = true ∧ roadGrammar r = true ∧ intGrammar k = true ∧
      decGrammar d = true := by
  obtain ⟨w0, w1, w2, w3, -, -, hc, -, hr, -, hk, hd, -⟩ := h
  exact ⟨hc, hr, hk, hd⟩

theorem QueryLine_bare (c : Str) (h : ∀ x ∈ c, isAlnum x = true) : QueryLine ('?' :: c) c :=
  ⟨[], [], [], by simp, by simp, by simp, h, by simp⟩

/-- Below the 32-bit range of the tenths, `diff` is the absolute difference
of the specification. -/
theorem diff_eq_absDiffKm (a1 d1 a2 d2 : Nat) (h1 : 10 * a1 + d1 < 2 ^ 32)
    (h2 : 10 * a2 + d2 < 2 ^ 32) : diff (a2, d2) (a1, d1) = absDiffKm a1 d1 a2 d2 := by
  obtain ⟨e1, e2⟩ := diff_exact (a2, d2) (a1, d1) h2 h1
  simp only at e2
  unfold absDiffKm
  apply Prod.ext
  · simp only
    omega
  · simp only
    omega

/-- The answer to the query for a car that is in the car set. -/
theorem query_known_car (line c : Str) (lC : Nat) (st : StatsTuple)
    (hc : carGrammar c = true) (hmem : c ∈ st.allCars) :
    query line [c] lC st =
      .ok (queryCar c st ::
        (match find (stringToRoad c) st.roadDistance with
          | some km => [roadToString (stringToRoad c) ++ " ".toList ++ kmToString km]
          | none => []), []) := by
  have hne : c.isEmpty = false := by
    cases c with
    | nil => exact absurd rfl (carGrammar_ne_nil [] hc)
    | cons _ _ => rfl
  cases hr : find (stringToRoad c) st.roadDistance with
  | some km =>
    simp [query, interpretQuery, hne, validCarName_eq_carGrammar, hc, getCarSet, hmem,
      getRoadDistanceMap, hr, queryRoad]
  | none =>
    simp [query, interpretQuery, hne, validCarName_eq_carGrammar, hc, getCarSet, hmem,
      getRoadDistanceMap, hr]

/-- The car line of a car with a distance on one category only. -/
theorem queryCar_single (c : Str) (st : StatsTuple) (dist : Km) :
    (find c st.carDistanceOnA = some dist → find c st.carDistanceOnS = none →
      queryCar c st = c ++ " A ".toList ++ kmToString dist) ∧
    (find c st.carDistanceOnA = none → find c st.carDistanceOnS = some dist →
      queryCar c st = c ++ " S ".toList ++ kmToString dist) := by
  constructor
  · intro h1 h2
    simp [queryCar, getCarDistanceOnAMap, getCarDistanceOnSMap, h1, h2]
  · intro h1 h2
    simp [queryCar, getCarDistanceOnAMap, getCarDistanceOnSMap, h1, h2]

theorem find_updateCarKmMap_none (map : List (Car × Km)) (dist : Km) (c : Car)
    (h : find c map = none) : find c (updateCarKmMap map dist c) = some dist := by
  unfold updateCarKmMap
  rw [h]
  exact (find_insertU_none c dist map h).2

/-- **C1 (amended).** For every pair of action lines for the same car on the
same road whose km values have tenths below 2^32, processed by a running
machine in which that car has no pending report and no recorded distance,
the query `?<car>` that follows prints the line `<car> A <d>` when the road
is of category A and `<car> S <d>` when it is of category S, where `<d>` is
the rendering of the absolute difference of the two km values. It is the
only line printed when the name of the car is not the name of a road with a
recorded total; otherwise the line of that road follows it. -/
theorem C1_pair_then_query (m : Machine) (l1 l2 c r k1 d1 k2 d2 : Str)
    (hrun : m.halt = none)
    (h1 : ActionLine l1 c r k1 d1) (h2 : ActionLine l2 c r k2 d2)
    (hpend : find c m.historyData.lastCarPositionMap = none)
    (hA : find c m.statsTuple.carDistanceOnA = none)
    (hS : find c m.statsTuple.carDistanceOnS = none)
    (hb1 : 10 * decVal k1 + decVal d1 < 2 ^ 32)
    (hb2 : 10 * decVal k2 + decVal d2 < 2 ^ 32) :
    (runFrom m [l1, l2, '?' :: c]).cout =
      m.cout ++
        (c ++ (if (stringToRoad r).1 = RoadType.roadA_t then " A ".toList else " S ".toList)
            ++ kmToString (absDiffKm (decVal k1) (decVal d1) (decVal k2) (decVal d2))) ::
        (match find (stringToRoad c)
            (updateRoadDistanceMap m.statsTuple.roadDistance
              (absDiffKm (decVal k1) (decVal d1) (decVal k2) (decVal d2))
              (stringToRoad r)) with
          | some km => [roadToString (stringToRoad c) ++ " ".toList ++ kmToString km]
          | none => []) := by
  obtain ⟨hc, hr, hk1, hd1⟩ := ActionLine_parts h1
  obtain ⟨-, -, hk2, hd2⟩ := ActionLine_parts h2
  have hroad := stringToRoad_ok r hr
  have hK1 : toK (decVal k1) = decVal k1 := by unfold toK; omega
  have hK2 : toK (decVal k2) = decVal k2 := by unfold toK; omega
  have hp1 := parseAction_tokens c r k1 d1 (incr64 m.lC) hk1 hd1 (by unfold ULONG_MAX; omega)
  rw [hK1] at hp1
  have hp2 := parseAction_tokens c r k2 d2 (incr64 (incr64 m.lC)) hk2 hd2
    (by unfold ULONG_MAX; omega)
  rw [hK2] at hp2
  -- the first line opens a pending report
  have s1 := step_action m l1 c r k1 d1 hrun h1
  rw [action_open l1 _ _ _ _ _ hp1 hpend] at s1
  simp only [getCar, getRoad, getKm, getLineId] at s1
  -- the second line closes it
  have hf2 : find c (m.historyData.lastCarPositionMap ++
      [(c, ((stringToRoad r, (decVal k1, decVal d1)), incr64 m.lC))]) =
      some ((stringToRoad r, (decVal k1, decVal d1)), incr64 m.lC) :=
    find_append_none _ _ _ hpend
  obtain ⟨st', hu, hcars, hrd, hcat⟩ := updateStats_ok m.statsTuple
    (c, stringToRoad r, (decVal k2, decVal d2), incr64 (incr64 m.lC))
    (decVal k1, decVal d1) hroad
  simp only [getCar, getRoad, getKm] at hcars hrd hcat
  rw [diff_eq_absDiffKm _ _ _ _ hb1 hb2] at hrd hcat
  have s2 := step_action (step m l1) l2 c r k2 d2 (by rw [s1]; exact hrun) h2
  rw [s1] at s2
  simp only at s2
  rw [action_close l2 _ _
    { lastCarPositionMap := m.historyData.lastCarPositionMap ++
        [(c, ((stringToRoad r, (decVal k1, decVal d1)), incr64 m.lC))],
      historyMap := insertO (fun a b => decide (a < b)) (incr64 m.lC) l1
        m.historyData.historyMap }
    m.statsTuple st' _ (decVal k1, decVal d1) (incr64 m.lC) hp2 hf2 hu] at s2
  simp only at s2
  -- the query
  have s3 := step_query (step (step m l1) l2) ('?' :: c) c (by rw [s1, s2]; exact hrun)
    (QueryLine_bare c ((carGrammar_iff c).1 hc).1)
  rw [s1, s2] at s3
  simp only at s3
  have hmem : c ∈ st'.allCars := by
    rw [hcars]
    exact mem_updateCarSet_self c _
  rw [query_known_car _ c _ st' hc hmem] at s3
  simp only at s3
  have hrun3 : runFrom m [l1, l2, '?' :: c] = step (step (step m l1) l2) ('?' :: c) := rfl
  rw [hrun3, s1, s2, s3, hrd]
  simp only [List.append_nil, List.cons_append, List.append_cancel_left_eq, List.cons.injEq,
    and_true]
  rcases hcat with ⟨e, eA, eS⟩ | ⟨e, eS, eA⟩
  · rw [(queryCar_single c st' _).1
      (by rw [eA]; exact find_updateCarKmMap_none _ _ _ hA) (by rw [eS]; exact hS)]
    simp [e]
  · rw [(queryCar_single c st' _).2
      (by rw [eA]; exact hA) (by rw [eS]; exact find_updateCarKmMap_none _ _ _ hS)]
    simp [e]

/-- The scenario of the specification, by C1: after `CAR001 A1 10,0` and
`CAR001 A1 12,5` the query `?CAR001` prints `CAR001 A 2,5` and nothing else. -/
theorem C1_pair_then_query_witness :
    (runFrom Machine.init ["CAR001 A1 10,0".toList, "CAR001 A1 12,5".toList,
      "?CAR001".toList]).cout = ["CAR001 A 2,5".toList] :=
  (C1_pair_then_query Machine.init "CAR001 A1 10,0".toList "CAR001 A1 12,5".toList
    "CAR001".toList "A1".toList "10".toList "0".toList "12".toList "5".toList rfl
    (@ActionLine_of_read_tokens _ [] 0 _ _ _ _ (by decide) (by decide))
    (@ActionLine_of_read_tokens _ [] 0 _ _ _ _ (by decide) (by decide))
    (by decide) (by decide) (by decide) (by decide) (by decide)).trans (by decide)

/-- **C1 (counterexample).** The car `A12` reports twice on the road `A12`
from the initial state, in which it has no pending report and no recorded
distance; the two actions print nothing, and the query `?A12` prints two
lines, the car line `A12 A 2,5` and the road line `A12 2,5`, not the car
line alone. -/
theorem C1_counterexample :
    find "A12".toList Machine.init.historyData.lastCarPositionMap = none ∧
    find "A12".toList Machine.init.statsTuple.carDistanceOnA = none ∧
    find "A12".toList Machine.init.statsTuple.carDistanceOnS = none ∧
    (run ["A12 A12 10,0".toList, "A12 A12 12,5".toList]).cout = [] ∧
    (run ["A12 A12 10,0".toList, "A12 A12 12,5".toList, "?A12".toList]).cout =
      ["A12 A 2,5".toList, "A12 2,5".toList] ∧
    (run ["A12 A12 10,0".toList, "A12 A12 12,5".toList, "?A12".toList]).cout ≠
      ["A12 A 2,5".toList] := by
  refine ⟨rfl, rfl, rfl, by decide, by decide, by decide⟩

/-- **C2.** The code at a failing input: after `CAR001 A1 10,0` and
`CAR001 S2 429496730,0` there is one diagnostic, for line 1, nothing on the
standard output, and the car is pending on S2 at `429496730,0` from line 2;
the third action `CAR001 S2 0,0` then commits `0,4` and not the absolute
difference `429496730,0`, because `kmToBig` multiplies in 32 bits. -/
theorem C2_third_action_wraps :
    (run ["CAR001 A1 10,0".toList, "CAR001 S2 429496730,0".toList]).cerr =
      ["Error in line 1: CAR001 A1 10,0".toList] ∧
    (run ["CAR001 A1 10,0".toList, "CAR001 S2 429496730,0".toList]).cout = [] ∧
    find "CAR001".toList
      (run ["CAR001 A1 10,0".toList,
        "CAR001 S2 429496730,0".toList]).historyData.lastCarPositionMap =
      some (((RoadType.roadS_t, 2), (429496730, 0)), 2) ∧
    (run ["CAR001 A1 10,0".toList, "CAR001 S2 429496730,0".toList,
      "CAR001 S2 0,0".toList]).statsTuple.carDistanceOnS = [("CAR001".toList, (0, 4))] ∧
    (run ["CAR001 A1 10,0".toList, "CAR001 S2 429496730,0".toList,
      "CAR001 S2 0,0".toList, "?CAR001".toList]).cout = ["CAR001 S 0,4".toList] := by
  refine ⟨by decide, by decide, by decide, by decide, by decide⟩

/-- **C8.** The code at a failing input: the integer part of the first line
exceeds `ULONG_MAX`, `stoul` throws and the exception is not caught, so the
process stops at line 1; the second line, which is malformed, is not read
and gets no diagnostic. -/
theorem C8_abort_skips_diagnostic :
    (read "CAR001 A1 100000000000000000000,0".toList [] 0).1 = ReadType.readAction_t ∧
    (read "x".toList [] 1).1 = ReadType.readErr_t ∧
    (run ["CAR001 A1 100000000000000000000,0".toList, "x".toList]).halt =
      some Halt.exception ∧
    (run ["CAR001 A1 100000000000000000000,0".toList, "x".toList]).lC = 1 ∧
    (run ["CAR001 A1 100000000000000000000,0".toList, "x".toList]).cerr = [] := by
  refine ⟨by decide, by decide, by decide, by decide, by decide⟩

/-! ## Diagnostics while the process runs

The statements of this section hold as long as the process has not been
stopped by an uncaught exception of `stoul`. -/

theorem runFrom_halted (m : Machine) (x : Halt) (h : m.halt = some x) :
    ∀ lines : List Str, runFrom m lines = m := by
  intro lines
  induction lines with
  | nil => rfl
  | cons l ls ih =>
    have hs : step m l = m := by
      unfold step
      simp only [h]
    show runFrom (step m l) ls = m
    rw [hs]
    exact ih

theorem step_lC (m : Machine) (line : Str) (h : (step m line).halt = none) :
    m.halt = none ∧ (step m line).lC = incr64 m.lC := by
  cases hh : m.halt with
  | some x =>
    have hs : step m line = m := by
      unfold step
      simp only [hh]
    rw [hs, hh] at h
    cases h
  | none =>
    refine ⟨rfl, ?_⟩
    unfold step
    simp only [hh, read_lC]
    split
    · rfl
    · split <;> rfl
    · split <;> rfl
    · rfl

/-- While the process runs, the line counter is the number of lines read,
modulo the width of `uint64_t`. -/
theorem runFrom_lC : ∀ (lines : List Str) (m : Machine), m.lC < 2 ^ 64 →
    (runFrom m lines).halt = none →
    (runFrom m lines).lC = (m.lC + lines.length) % 2 ^ 64 := by
  intro lines
  induction lines with
  | nil =>
    intro m hm _
    change m.lC = _
    simp only [List.length_nil, Nat.add_zero]
    exact (Nat.mod_eq_of_lt hm).symm
  | cons l ls ih =>
    intro m hm h
    have hstep : (step m l).halt = none := by
      cases hs : (step m l).halt with
      | none => rfl
      | some x =>
        have := runFrom_halted (step m l) x hs ls
        change (runFrom (step m l) ls).halt = none at h
        rw [this, hs] at h
        cases h
    obtain ⟨-, hl⟩ := step_lC m l hstep
    have hlt : (step m l).lC < 2 ^ 64 := by
      rw [hl]
      unfold incr64
      omega
    change (runFrom (step m l) ls).lC = _
    rw [ih (step m l) hlt h, hl]
    unfold incr64
    simp only [List.length_cons]
    omega

/-- While the process runs, after `i < 2^64` lines the line counter is `i`. -/
theorem run_lC (lines : List Str) (h : (run lines).halt = none)
    (hlen : lines.length < 2 ^ 64) : (run lines).lC = lines.length := by
  unfold run at h ⊢
  rw [runFrom_lC lines Machine.init (by simp [Machine.init]) h]
  simp only [Machine.init, Nat.zero_add]
  exact Nat.mod_eq_of_lt hlen

/-- A running process writes exactly one diagnostic, with the number and the
text of the line, for a line that is malformed. -/
theorem step_malformed (m : Machine) (line : Str) (hrun : m.halt = none)
    (h : (read line m.parsedLine m.lC).1 = ReadType.readErr_t) :
    (step m line).cerr = m.cerr ++ [error line (incr64 m.lC)] ∧
    (step m line).cout = m.cout ∧ (step m line).halt = none := by
  unfold step
  simp only [hrun, h, read_lC]
  exact ⟨trivial, trivial, trivial⟩

/-- A running process writes exactly one diagnostic, with the number and the
text of the line, for a query whose token is neither a car name nor a road
name. -/
theorem step_invalid_query (m : Machine) (line t : Str) (hrun : m.halt = none)
    (hl : QueryLine line t) (ht : t ≠ []) (hc : carGrammar t = false)
    (hr : roadGrammar t = false) :
    (step m line).cerr = m.cerr ++ [error line (incr64 m.lC)] ∧
    (step m line).cout = m.cout ∧ (step m line).halt = none := by
  have hte : t.isEmpty = false := by
    cases t with
    | nil => exact absurd rfl ht
    | cons _ _ => rfl
  have hq : query line [t] (incr64 m.lC) m.statsTuple = .ok ([], [error line (incr64 m.lC)]) := by
    simp [query, interpretQuery, hte, validCarName_eq_carGrammar,
      validRoadName_eq_roadGrammar, hc, hr]
  rw [step_query m line t hrun hl, hq]
  simp [hrun]

/-! ## Two reports on different roads

The behaviour of a road mismatch while `stoul` does not throw. The distance
that the third report commits is `diff` of the second and third km values,
which is their absolute difference below the 32-bit range of the tenths
(`diff_exact`). -/

theorem find_insertO_nat (k : Nat) (v : Str) : ∀ m : List (Nat × Str), find k m = none →
    find k (insertO (fun a b => decide (a < b)) k v m) = some v := by
  intro m
  induction m with
  | nil => intro _; simp [insertO, find]
  | cons a t ih =>
    intro h
    simp only [find] at h
    split at h
    · cases h
    · rename_i hne
      simp only [insertO]
      by_cases c1 : k < a.1
      · simp [c1, find]
      · by_cases c2 : a.1 < k
        · simp only [c1, c2, decide_True, decide_False, if_true, Bool.false_eq_true, if_false,
            find, hne]
          exact ih h
        · exact absurd (by omega) hne

theorem find_assign_self {κ : Type} {ν : Type} [DecidableEq κ] (k : κ) (v : ν) :
    ∀ (m : List (κ × ν)) (w : ν), find k m = some w → find k (assign k v m) = some v := by
  intro m
  induction m with
  | nil => intro w h; simp [find] at h
  | cons a t ih =>
    intro w h
    simp only [find] at h
    simp only [assign]
    split at h
    · rename_i hk
      simp [hk, find]
    · rename_i hk
      simp only [hk, if_false, find]
      exact ih w h

/-- Two consecutive reports of a car on different roads, the car having no
pending report before the first: one diagnostic with the number and the text
of the first line, nothing on the standard output, no change of the
aggregation store, and the second report pending. A third report on the road
of the second then commits `diff` of their km values and closes the report. -/
theorem mismatch_pair (m : Machine) (l1 l2 l3 c r1 r2 k1 d1 k2 d2 k3 d3 : Str)
    (hrun : m.halt = none) (h1 : ActionLine l1 c r1 k1 d1) (h2 : ActionLine l2 c r2 k2 d2)
    (h3 : ActionLine l3 c r2 k3 d3) (hne : r1 ≠ r2)
    (hpend : find c m.historyData.lastCarPositionMap = none)
    (hhist : find (incr64 m.lC) m.historyData.historyMap = none)
    (hk1 : decVal k1 ≤ ULONG_MAX) (hk2 : decVal k2 ≤ ULONG_MAX)
    (hk3 : decVal k3 ≤ ULONG_MAX) :
    ((runFrom m [l1, l2]).cerr = m.cerr ++ [error l1 (incr64 m.lC)] ∧
     (runFrom m [l1, l2]).cout = m.cout ∧
     (runFrom m [l1, l2]).statsTuple = m.statsTuple ∧
     (runFrom m [l1, l2]).halt = none ∧
     find c (runFrom m [l1, l2]).historyData.lastCarPositionMap =
       some ((stringToRoad r2, (toK (decVal k2), decVal d2)), incr64 (incr64 m.lC))) ∧
    (∃ st', updateStats m.statsTuple
        (c, stringToRoad r2, (toK (decVal k3), decVal d3), incr64 (incr64 (incr64 m.lC)))
        (toK (decVal k2), decVal d2) = .ok st' ∧
      (runFrom m [l1, l2, l3]).statsTuple = st' ∧
      (runFrom m [l1, l2, l3]).cerr = m.cerr ++ [error l1 (incr64 m.lC)] ∧
      (runFrom m [l1, l2, l3]).cout = m.cout) := by
  obtain ⟨-, hr1, hg1, hdg1⟩ := ActionLine_parts h1
  obtain ⟨-, hr2, hg2, hdg2⟩ := ActionLine_parts h2
  obtain ⟨-, -, hg3, hdg3⟩ := ActionLine_parts h3
  have hp1 := parseAction_tokens c r1 k1 d1 (incr64 m.lC) hg1 hdg1 hk1
  have hp2 := parseAction_tokens c r2 k2 d2 (incr64 (incr64 m.lC)) hg2 hdg2 hk2
  have hp3 := parseAction_tokens c r2 k3 d3 (incr64 (incr64 (incr64 m.lC))) hg3 hdg3 hk3
  have hroads : stringToRoad r2 ≠ stringToRoad r1 :=
    fun e => hne (stringToRoad_injective r1 r2 hr1 hr2 e.symm)
  -- the first line opens a pending report
  have s1 := step_action m l1 c r1 k1 d1 hrun h1
  rw [action_open l1 _ _ _ _ _ hp1 hpend] at s1
  simp only [getCar, getRoad, getKm, getLineId, List.append_nil] at s1
  -- the second line mismatches
  have hf2 : find c (m.historyData.lastCarPositionMap ++
      [(c, ((stringToRoad r1, (toK (decVal k1), decVal d1)), incr64 m.lC))]) =
      some ((stringToRoad r1, (toK (decVal k1), decVal d1)), incr64 m.lC) :=
    find_append_none _ _ _ hpend
  have hh2 := find_insertO_nat (incr64 m.lC) l1 m.historyData.historyMap hhist
  have s2 := step_action (step m l1) l2 c r2 k2 d2 (by rw [s1]; exact hrun) h2
  rw [s1] at s2
  simp only at s2
  rw [action_mismatch l2 _ _
    { lastCarPositionMap := m.historyData.lastCarPositionMap ++
        [(c, ((stringToRoad r1, (toK (decVal k1), decVal d1)), incr64 m.lC))],
      historyMap := insertO (fun a b => decide (a < b)) (incr64 m.lC) l1
        m.historyData.historyMap }
    m.statsTuple _ (stringToRoad r1) (toK (decVal k1), decVal d1) (incr64 m.lC) l1 hp2 hf2
    hroads hh2] at s2
  simp only [getCar, getRoad, getKm, getLineId, List.append_nil] at s2
  have hf3 := find_assign_self c
    ((stringToRoad r2, (toK (decVal k2), decVal d2)), incr64 (incr64 m.lC)) _ _ hf2
  have e2 : runFrom m [l1, l2] = step (step m l1) l2 := rfl
  refine ⟨?_, ?_⟩
  · rw [e2, s1, s2]
    exact ⟨rfl, rfl, rfl, hrun, hf3⟩
  · obtain ⟨st', hu, -⟩ := updateStats_ok m.statsTuple
      (c, stringToRoad r2, (toK (decVal k3), decVal d3), incr64 (incr64 (incr64 m.lC)))
      (toK (decVal k2), decVal d2) (stringToRoad_ok r2 hr2)
    have s3 := step_action (step (step m l1) l2) l3 c r2 k3 d3
      (by rw [s1, s2]; exact hrun) h3
    rw [s1, s2] at s3
    simp only at s3
    rw [action_close l3 _ _
      { lastCarPositionMap := assign c
          ((stringToRoad r2, (toK (decVal k2), decVal d2)), incr64 (incr64 m.lC))
          (m.historyData.lastCarPositionMap ++
            [(c, ((stringToRoad r1, (toK (decVal k1), decVal d1)), incr64 m.lC))]),
        historyMap := insertO (fun a b => decide (a < b)) (incr64 (incr64 m.lC)) l2
          (erase (incr64 m.lC) (insertO (fun a b => decide (a < b)) (incr64 m.lC) l1
            m.historyData.historyMap)) }
      m.statsTuple st' _ (toK (decVal k2), decVal d2) (incr64 (incr64 m.lC)) hp3 hf3 hu] at s3
    simp only [List.append_nil] at s3
    have e3 : runFrom m [l1, l2, l3] = step (step (step m l1) l2) l3 := rfl
    refine ⟨st', hu, ?_⟩
    rw [e3, s1, s2, s3]
    exact ⟨rfl, rfl, rfl⟩

/-! ## Blank lines and lines of white space -/

theorem ActionLine_car_mem {line c r k d : Str} (h : ActionLine line c r k d) :
    ∀ x ∈ c, x ∈ line := by
  obtain ⟨w0, w1, w2, w3, rfl, -⟩ := h
  intro x hx
  simp [hx]

theorem read_empty_iff (line : Str) (pl : ParsedLine) (lC : Nat) :
    (read line pl lC).1 = ReadType.readEmpty_t ↔ line = [] := by
  constructor
  · intro h
    cases line with
    | nil => rfl
    | cons a l =>
      unfold read at h
      simp only [List.isEmpty_cons, Bool.false_eq_true, if_false] at h
      split at h
      · cases h
      · split at h <;> cases h
  · rintro rfl
    rfl

/-- A non-empty line of white space matches neither pattern. -/
theorem read_whitespace (line : Str) (hne : line ≠ []) (hsp : ∀ x ∈ line, isSpace x = true)
    (pl : ParsedLine) (lC : Nat) :
    regex_match line queryRegex = none ∧ regex_match line actionRegex = none ∧
      read line pl lC = (ReadType.readErr_t, [], incr64 lC) := by
  have hq : regex_match line queryRegex = none := by
    cases h : regex_match line queryRegex with
    | none => rfl
    | some cs =>
      obtain ⟨t, -, ht⟩ := (queryRegex_matches_iff line cs).1 (regex_match_sound h)
      have h1 := hsp _ (QueryLine_mem ht)
      have h2 : isSpace '?' = false := by decide
      rw [h2] at h1
      cases h1
  have ha : regex_match line actionRegex = none := by
    cases h : regex_match line actionRegex with
    | none => rfl
    | some cs =>
      obtain ⟨c, r, k, d, -, hl⟩ := (actionRegex_matches_iff line cs).1 (regex_match_sound h)
      obtain ⟨hc, -⟩ := ActionLine_parts hl
      cases c with
      | nil => exact absurd rfl (carGrammar_ne_nil [] hc)
      | cons x c =>
        have h1 := ((carGrammar_iff (x :: c)).1 hc).1 x (by simp)
        have h2 := hsp x (ActionLine_car_mem hl x (by simp))
        rw [not_isSpace_of_isAlnum x h1] at h2
        cases h2
  refine ⟨hq, ha, ?_⟩
  have he : line.isEmpty = false := by
    cases line with
    | nil => exact absurd rfl hne
    | cons _ _ => rfl
  unfold read
  simp only [he, Bool.false_eq_true, if_false, hq, ha]

/-- **C19.** `read` returns Empty exactly when the line has length zero. A
non-empty line that consists of whitespace characters only matches neither
the query nor the action pattern, is classified as malformed, and a running
process reports it with `Error in line <N>: <line>`, `N` the incremented line
counter, writing nothing to the standard output and changing no store. -/
theorem C19_blank_vs_whitespace :
    (∀ (line : Str) (pl : ParsedLine) (lC : Nat),
      (read line pl lC).1 = ReadType.readEmpty_t ↔ line = []) ∧
    (∀ line : Str, line ≠ [] → (∀ x ∈ line, isSpace x = true) →
      regex_match line queryRegex = none ∧ regex_match line actionRegex = none ∧
      (∀ (pl : ParsedLine) (lC : Nat), (read line pl lC).1 = ReadType.readErr_t) ∧
      (∀ m : Machine, m.halt = none →
        (step m line).cerr = m.cerr ++ [error line (incr64 m.lC)] ∧
        (step m line).cout = m.cout ∧ (step m line).lC = incr64 m.lC ∧
        (step m line).historyData = m.historyData ∧
        (step m line).statsTuple = m.statsTuple)) := by
  refine ⟨read_empty_iff, ?_⟩
  intro line hne hsp
  refine ⟨(read_whitespace line hne hsp [] 0).1, (read_whitespace line hne hsp [] 0).2.1,
    ?_, ?_⟩
  · intro pl lC
    rw [(read_whitespace line hne hsp pl lC).2.2]
  · intro m hrun
    unfold step
    simp only [hrun, (read_whitespace line hne hsp m.parsedLine m.lC).2.2]
    exact ⟨trivial, trivial, trivial, trivial, trivial⟩

/-- A line of one space and a line of one tab are reported as malformed with
their line number, by C19. -/
theorem C19_blank_vs_whitespace_witness :
    (step Machine.init " ".toList).cerr = ["Error in line 1:  ".toList] ∧
    (read "\t".toList [] 0).1 = ReadType.readErr_t :=
  ⟨((C19_blank_vs_whitespace.2 " ".toList (by decide) (by decide)).2.2.2
      Machine.init rfl).1.trans (by decide),
   (C19_blank_vs_whitespace.2 "\t".toList (by decide) (by decide)).2.2.1 [] 0⟩

/-! ## The query for everything, twice -/

theorem query_all_indep (l1 l2 : Str) (rest1 rest2 : ParsedLine) (lC1 lC2 : Nat)
    (st : StatsTuple) :
    query l1 ([] :: rest1) lC1 st = query l2 ([] :: rest2) lC2 st := by
  simp [query, interpretQuery]

/-- The answer to the `?` query on a store reached by `run`. -/
theorem query_all_run (lines : List Str) (line : Str) (rest : ParsedLine) (lC : Nat) :
    query line ([] :: rest) lC (run lines).statsTuple =
      .ok ((run lines).statsTuple.allCars.map (fun c => queryCar c (run lines).statsTuple) ++
           (run lines).statsTuple.roadDistance.map
             (fun x => roadToString x.1 ++ " ".toList ++ kmToString x.2), []) := by
  obtain ⟨⟨-, -, -, h4⟩, -⟩ := run_inv lines
  have hnd := nodup_of_pairwise_lt roadCmp roadCmp_irrefl _ h4
  have hq := queryRoads_ok (run lines).statsTuple (run lines).statsTuple.roadDistance
    (find_of_mem_nodup _ hnd)
  simp [query, interpretQuery, queryAll, getRoadDistanceMap, getCarSet, hq]

theorem run_snoc (ps : List Str) (l : Str) : run (ps ++ [l]) = step (run ps) l := by
  unfold run
  rw [runFrom_append]
  rfl

theorem step_halted (m : Machine) (line : Str) (x : Halt) (h : m.halt = some x) :
    step m line = m := by
  unfold step
  simp only [h]

/-- **C18.** From every state reached by `run`, two `?` queries in a row
write the same lines to the standard output, and the first leaves the
aggregation store as it was; while the process runs these lines are the car
answers of the car set followed by the road answers of the per-road map. -/
theorem C18_query_all_twice (ps : List Str) (q1 q2 : Str) (h1 : QueryLine q1 [])
    (h2 : QueryLine q2 []) :
    ∃ out : List Str,
      (run (ps ++ [q1])).cout = (run ps).cout ++ out ∧
      (run (ps ++ [q1, q2])).cout = (run (ps ++ [q1])).cout ++ out ∧
      (run (ps ++ [q1])).statsTuple = (run ps).statsTuple ∧
      ((run ps).halt = none →
        out = (run ps).statsTuple.allCars.map (fun c => queryCar c (run ps).statsTuple) ++
          (run ps).statsTuple.roadDistance.map
            (fun x => roadToString x.1 ++ " ".toList ++ kmToString x.2)) := by
  have e2 : run (ps ++ [q1, q2]) = step (run (ps ++ [q1])) q2 := by
    rw [show ps ++ [q1, q2] = (ps ++ [q1]) ++ [q2] by simp, run_snoc]
  rw [e2, run_snoc]
  cases hh : (run ps).halt with
  | some x =>
    rw [step_halted _ q1 x hh, step_halted _ q2 x hh]
    exact ⟨[], by simp, by simp, rfl, by intro h; cases h⟩
  | none =>
    have hq1 := query_all_run ps q1 [] (incr64 (run ps).lC)
    have s1 := step_query (run ps) q1 [] hh h1
    rw [hq1] at s1
    simp only at s1
    have hq2 := query_all_run ps q2 [] (incr64 (incr64 (run ps).lC))
    have s2 := step_query (step (run ps) q1) q2 [] (by rw [s1]; exact hh) h2
    rw [s1] at s2
    simp only at s2
    rw [hq2] at s2
    simp only at s2
    rw [s1, s2]
    exact ⟨_, rfl, rfl, rfl, fun _ => rfl⟩

/-- After the scenario of the specification, `?` twice prints the same two
lines twice, by C18. -/
theorem C18_query_all_twice_witness :
    ∃ out : List Str,
      (run (["CAR001 A1 10,0".toList, "CAR001 A1 12,5".toList] ++ ["?".toList])).cout =
        (run ["CAR001 A1 10,0".toList, "CAR001 A1 12,5".toList]).cout ++ out ∧
      (run (["CAR001 A1 10,0".toList, "CAR001 A1 12,5".toList] ++
          ["?".toList, " ? ".toList])).cout =
        (run (["CAR001 A1 10,0".toList, "CAR001 A1 12,5".toList] ++ ["?".toList])).cout ++
          out := by
  obtain ⟨out, h1, h2, -⟩ := C18_query_all_twice
    ["CAR001 A1 10,0".toList, "CAR001 A1 12,5".toList] "?".toList " ? ".toList
    (QueryLine_bare [] (by simp)) ⟨[' '], [' '], [], rfl, by decide, by decide, by simp, by simp⟩
  exact ⟨out, h1, h2⟩

/-! ## The aggregation store changes only when a report is closed -/

/-- An action of a car without a pending report, or with a pending report on
another road, returns the statistics it was given. -/
theorem action_stats_frame {line c r k d : Str} {lC : Nat} {hd hd' : HistoryData}
    {st st' : StatsTuple} {err : List Str}
    (hf : find c hd.lastCarPositionMap = none ∨
      ∃ pos lid, find c hd.lastCarPositionMap = some (pos, lid) ∧ pos.1 ≠ stringToRoad r)
    (h : action line [c, r, k, d] lC hd st = .ok (hd', st', err)) : st' = st := by
  unfold action at h
  cases hp : parseAction [c, r, k, d] lC with
  | error x => simp [hp] at h
  | ok pA =>
    obtain ⟨kv, mv, -, -, rfl⟩ := parseAction_ok hp
    simp only [hp, getCar, getLastCarPositionMap, getRoad] at h
    rcases hf with hf | ⟨pos, lid, hf, hne⟩
    · simp only [hf] at h
      cases h
      rfl
    · simp only [hf, ne_eq, hne.symm, not_false_eq_true, if_true] at h
      split at h
      · cases h
      · cases h
        rfl

/-- A line that `read` does not classify as an action leaves the history
data and the statistics as they were. -/
theorem step_frame_nonaction (m : Machine) (line : Str)
    (h : (read line m.parsedLine m.lC).1 ≠ ReadType.readAction_t) :
    (step m line).historyData = m.historyData ∧ (step m line).statsTuple = m.statsTuple := by
  unfold step
  cases hh : m.halt with
  | some x => exact ⟨rfl, rfl⟩
  | none =>
    simp only
    cases hrt : (read line m.parsedLine m.lC).1 with
    | readErr_t => exact ⟨rfl, rfl⟩
    | readEmpty_t => exact ⟨rfl, rfl⟩
    | readQuery_t =>
      simp only
      split <;> exact ⟨rfl, rfl⟩
    | readAction_t => exact absurd hrt h

theorem step_action_stats_frame (m : Machine) (line c r k d : Str)
    (hl : ActionLine line c r k d)
    (hf : find c m.historyData.lastCarPositionMap = none ∨
      ∃ pos lid, find c m.historyData.lastCarPositionMap = some (pos, lid) ∧
        pos.1 ≠ stringToRoad r) :
    (step m line).statsTuple = m.statsTuple := by
  cases hh : m.halt with
  | some x => rw [step_halted m line x hh]
  | none =>
    rw [step_action m line c r k d hh hl]
    cases ha : action line [c, r, k, d] (incr64 m.lC) m.historyData m.statsTuple with
    | error x => rfl
    | ok o =>
      obtain ⟨hd', st', err⟩ := o
      exact action_stats_frame hf ha

/-- **C16.** An action line of a car that has no pending report, or whose
pending report is on another road, leaves the four structures of the
aggregation store unchanged; a line changes the store only if it is an action
of a car whose pending report is on the road of the action; and two
consecutive reports of a car on different roads, the car having no pending
report before them, leave the store unchanged. -/
theorem C16_open_or_mismatch_frame :
    (∀ (m : Machine) (line c r k d : Str), ActionLine line c r k d →
      (find c m.historyData.lastCarPositionMap = none ∨
        ∃ pos lid, find c m.historyData.lastCarPositionMap = some (pos, lid) ∧
          pos.1 ≠ stringToRoad r) →
      (step m line).statsTuple = m.statsTuple) ∧
    (∀ (m : Machine) (line : Str), (step m line).statsTuple ≠ m.statsTuple →
      ∃ c r k d km lid, ActionLine line c r k d ∧
        find c m.historyData.lastCarPositionMap = some ((stringToRoad r, km), lid)) ∧
    (∀ (m : Machine) (l1 l2 c r1 r2 k1 d1 k2 d2 : Str), ActionLine l1 c r1 k1 d1 →
      ActionLine l2 c r2 k2 d2 → r1 ≠ r2 →
      find c m.historyData.lastCarPositionMap = none →
      (runFrom m [l1, l2]).statsTuple = m.statsTuple) := by
  refine ⟨step_action_stats_frame, ?_, ?_⟩
  · intro m line hne
    by_cases hrt : (read line m.parsedLine m.lC).1 = ReadType.readAction_t
    · obtain ⟨c, r, k, d, -, hl⟩ := ActionLine_of_read hrt
      cases hf : find c m.historyData.lastCarPositionMap with
      | none => exact absurd (step_action_stats_frame m line c r k d hl (Or.inl hf)) hne
      | some e =>
        obtain ⟨⟨road, km⟩, lid⟩ := e
        by_cases hr : road = stringToRoad r
        · subst hr
          exact ⟨c, r, k, d, km, lid, hl, hf⟩
        · exact absurd (step_action_stats_frame m line c r k d hl
            (Or.inr ⟨(road, km), lid, hf, hr⟩)) hne
    · exact absurd (step_frame_nonaction m line hrt).2 hne
  · intro m l1 l2 c r1 r2 k1 d1 k2 d2 h1 h2 hne hpend
    have e : runFrom m [l1, l2] = step (step m l1) l2 := rfl
    have s1 := step_action_stats_frame m l1 c r1 k1 d1 h1 (Or.inl hpend)
    rw [e, ← s1]
    cases hh : m.halt with
    | some x => rw [step_halted m l1 x hh, step_halted m l2 x hh]
    | none =>
      obtain ⟨-, hr1, -, -⟩ := ActionLine_parts h1
      obtain ⟨-, hr2, -, -⟩ := ActionLine_parts h2
      cases hp : parseAction [c, r1, k1, d1] (incr64 m.lC) with
      | error x =>
        have s : (step m l1).halt = some x := by
          rw [step_action m l1 c r1 k1 d1 hh h1]
          simp only [action, hp]
        rw [step_halted (step m l1) l2 x s]
      | ok pA =>
        obtain ⟨kv, mv, -, -, rfl⟩ := parseAction_ok hp
        have s := step_action m l1 c r1 k1 d1 hh h1
        rw [action_open l1 _ _ _ _ _ hp hpend] at s
        simp only [getCar, getRoad, getKm, getLineId] at s
        apply step_action_stats_frame (step m l1) l2 c r2 k2 d2 h2
        right
        refine ⟨(stringToRoad r1, (toK kv, toM mv)), incr64 m.lC, ?_, ?_⟩
        · rw [s]
          exact find_append_none _ _ _ hpend
        · exact fun e => hne (stringToRoad_injective r1 r2 hr1 hr2 e)

/-- The report `CAR001 S2 5,0` after a pending report on A1 leaves the store
unchanged, by C16. -/
theorem C16_open_or_mismatch_frame_witness :
    (step (run ["CAR001 A1 10,0".toList]) "CAR001 S2 5,0".toList).statsTuple =
      (run ["CAR001 A1 10,0".toList]).statsTuple :=
  C16_open_or_mismatch_frame.1 (run ["CAR001 A1 10,0".toList]) "CAR001 S2 5,0".toList
    "CAR001".toList "S2".toList "5".toList "0".toList
    (@ActionLine_of_read_tokens _ [] 0 _ _ _ _ (by decide) (by decide))
    (Or.inr ⟨((RoadType.roadA_t, 1), (10, 0)), 1, by decide, by decide⟩)

/-! ## What a closed report adds to the store -/

theorem diff_comm (k1 k2 : Km) : diff k1 k2 = diff k2 k1 := by
  unfold diff
  simp only [ge_iff_le]
  by_cases h1 : kmToBig k2 ≤ kmToBig k1
  · by_cases h2 : kmToBig k1 ≤ kmToBig k2
    · have : kmToBig k1 = kmToBig k2 := by omega
      simp [this]
    · simp [h1, h2]
  · have h2 : kmToBig k1 ≤ kmToBig k2 := by omega
    simp [h1, h2]

section FindLemmas
variable {κ : Type} {ν : Type} [DecidableEq κ]

theorem find_append_ne (k k' : κ) (v : ν) (hne : k' ≠ k) :
    ∀ m : List (κ × ν), find k' (m ++ [(k, v)]) = find k' m := by
  intro m
  induction m with
  | nil => simp [find, hne.symm]
  | cons a t ih =>
    simp only [List.cons_append, find]
    split
    · rfl
    · exact ih

theorem find_insertU_ne (k k' : κ) (v : ν) (hne : k' ≠ k) (m : List (κ × ν)) :
    find k' (insertU k v m) = find k' m := by
  unfold insertU
  split
  · rfl
  · exact find_append_ne k k' v hne m

theorem find_assign_ne (k k' : κ) (v : ν) (hne : k' ≠ k) :
    ∀ m : List (κ × ν), find k' (assign k v m) = find k' m := by
  intro m
  induction m with
  | nil => rfl
  | cons a t ih =>
    simp only [assign]
    split
    · rename_i hk
      have h1 : ¬ a.1 = k' := by rw [hk]; exact fun e => hne e.symm
      simp [find, h1]
    · simp only [find]
      split
      · rfl
      · exact ih

theorem find_insertO_ne (lt : κ → κ → Bool) (k k' : κ) (v : ν) (hne : k' ≠ k) :
    ∀ m : List (κ × ν), find k' (insertO lt k v m) = find k' m := by
  intro m
  induction m with
  | nil => simp [insertO, find, hne.symm]
  | cons a t ih =>
    simp only [insertO]
    split
    · simp [find, hne.symm]
    · split
      · simp only [find]
        split
        · rfl
        · exact ih
      · rfl

theorem find_insertO_self (lt : κ → κ → Bool)
    (heq : ∀ a b, lt a b = false → lt b a = false → a = b) (k : κ) (v : ν) :
    ∀ m : List (κ × ν), find k m = none → find k (insertO lt k v m) = some v := by
  intro m
  induction m with
  | nil => intro _; simp [insertO, find]
  | cons a t ih =>
    intro h
    simp only [find] at h
    split at h
    · cases h
    · rename_i hne
      simp only [insertO]
      split
      · simp [find]
      · split
        · simp only [find, hne, if_false]
          exact ih h
        · rename_i c1 c2
          exact absurd (heq a.1 k (by simpa using c2) (by simpa using c1)) hne

end FindLemmas

theorem mem_setInsert_of_mem {κ : Type} (lt : κ → κ → Bool) (k : κ) :
    ∀ (m : List κ) (e : κ), e ∈ m → e ∈ setInsert lt k m := by
  intro m
  induction m with
  | nil => intro e he; simp at he
  | cons a t ih =>
    intro e he
    simp only [setInsert]
    split
    · simp [List.mem_cons.1 he]
    · split
      · rcases List.mem_cons.1 he with rfl | he
        · simp
        · simp [ih e he]
      · exact he

theorem mem_updateCarSet_iff (s : CarSet) (car c : Car) :
    c ∈ updateCarSet s car ↔ c ∈ s ∨ c = car := by
  constructor
  · exact mem_setInsert
  · rintro (h | rfl)
    · exact mem_setInsert_of_mem strLt car s c h
    · exact mem_updateCarSet_self c s

/-- The entries of a per-car map after `updateCarKmMap`. -/
theorem find_updateCarKmMap (map : List (Car × Km)) (dist : Km) (c : Car) :
    find c (updateCarKmMap map dist c) =
      some (match find c map with
        | none => dist
        | some old => sum dist old) ∧
    ∀ c', c' ≠ c → find c' (updateCarKmMap map dist c) = find c' map := by
  unfold updateCarKmMap
  cases h : find c map with
  | none =>
    exact ⟨(find_insertU_none c dist map h).2, fun c' hne => find_insertU_ne c c' dist hne map⟩
  | some old =>
    exact ⟨find_assign_self c _ map old h, fun c' hne => find_assign_ne c c' _ hne map⟩

/-- The entries of the per-road map after `updateRoadDistanceMap`. -/
theorem find_updateRoadDistanceMap (map : RoadDistanceMap) (dist : Km) (road : Road) :
    find road (updateRoadDistanceMap map dist road) =
      some (match find road map with
        | none => dist
        | some old => sum dist old) ∧
    ∀ r', r' ≠ road → find r' (updateRoadDistanceMap map dist road) = find r' map := by
  unfold updateRoadDistanceMap
  cases h : find road map with
  | none =>
    exact ⟨find_insertO_self roadCmp
        (fun a b h1 h2 => (roadCmp_equiv_iff a b).1 ⟨h1, h2⟩) road dist map h,
      fun r' hne => find_insertO_ne roadCmp road r' dist hne map⟩
  | some old =>
    exact ⟨find_assign_self road _ map old h, fun r' hne => find_assign_ne road r' _ hne map⟩

/-- The step of a running machine on an action that closes a pending report
on the same road. -/
theorem step_close (m : Machine) (line c r k d : Str) (pA : ParsedAction) (km0 : Km)
    (lid : Nat) (hrun : m.halt = none) (hl : ActionLine line c r k d)
    (hp : parseAction [c, r, k, d] (incr64 m.lC) = .ok pA)
    (hf : find c m.historyData.lastCarPositionMap = some ((stringToRoad r, km0), lid)) :
    ∃ st', updateStats m.statsTuple pA km0 = .ok st' ∧
      getCar pA = c ∧ getRoad pA = stringToRoad r ∧
      step m line =
        { m with lC := incr64 m.lC, parsedLine := [c, r, k, d],
                 historyData :=
                   { lastCarPositionMap := erase c m.historyData.lastCarPositionMap,
                     historyMap := erase lid m.historyData.historyMap },
                 statsTuple := st', cerr := m.cerr ++ [] } := by
  obtain ⟨kv, mv, -, -, rfl⟩ := parseAction_ok hp
  obtain ⟨-, hr, -, -⟩ := ActionLine_parts hl
  obtain ⟨st', hu, -⟩ := updateStats_ok m.statsTuple
    (c, stringToRoad r, (toK kv, toM mv), incr64 m.lC) km0 (stringToRoad_ok r hr)
  refine ⟨st', hu, rfl, rfl, ?_⟩
  rw [step_action m line c r k d hrun hl,
    action_close line _ _ m.historyData m.statsTuple st' _ km0 lid hp hf hu]
  rfl

/-- The effect of a commit on the store, in terms of the functions `diff` and
`sum` of the code. When an action for car `c` on road `r` closes a pending report
of `c` on the same road, with `d = diff (pending km) (new km)`: `c` is in the
car set afterwards and no other car is added; the per-road total of `r`
becomes `d` if `r` was absent and `sum d old` otherwise; the entry of `c` in
the per-car map of the category of `r` becomes `d` if absent and `sum d old`
otherwise; the per-car map of the other category is unchanged, and so is
every entry of another car or another road. -/
theorem commit_effect (m : Machine) (line c r k d : Str) (pA : ParsedAction) (km0 : Km)
    (lid : Nat) (hrun : m.halt = none) (hl : ActionLine line c r k d)
    (hp : parseAction [c, r, k, d] (incr64 m.lC) = .ok pA)
    (hf : find c m.historyData.lastCarPositionMap = some ((stringToRoad r, km0), lid)) :
    (∀ c', c' ∈ (step m line).statsTuple.allCars ↔ c' ∈ m.statsTuple.allCars ∨ c' = c) ∧
    find (stringToRoad r) (step m line).statsTuple.roadDistance =
      some (match find (stringToRoad r) m.statsTuple.roadDistance with
        | none => diff km0 (getKm pA)
        | some old => sum (diff km0 (getKm pA)) old) ∧
    (∀ r', r' ≠ stringToRoad r →
      find r' (step m line).statsTuple.roadDistance = find r' m.statsTuple.roadDistance) ∧
    ((stringToRoad r).1 = RoadType.roadA_t →
      find c (step m line).statsTuple.carDistanceOnA =
        some (match find c m.statsTuple.carDistanceOnA with
          | none => diff km0 (getKm pA)
          | some old => sum (diff km0 (getKm pA)) old) ∧
      (∀ c', c' ≠ c → find c' (step m line).statsTuple.carDistanceOnA =
        find c' m.statsTuple.carDistanceOnA) ∧
      (step m line).statsTuple.carDistanceOnS = m.statsTuple.carDistanceOnS) ∧
    ((stringToRoad r).1 = RoadType.roadS_t →
      find c (step m line).statsTuple.carDistanceOnS =
        some (match find c m.statsTuple.carDistanceOnS with
          | none => diff km0 (getKm pA)
          | some old => sum (diff km0 (getKm pA)) old) ∧
      (∀ c', c' ≠ c → find c' (step m line).statsTuple.carDistanceOnS =
        find c' m.statsTuple.carDistanceOnS) ∧
      (step m line).statsTuple.carDistanceOnA = m.statsTuple.carDistanceOnA) := by
  obtain ⟨st', hu, hc, hr, hs⟩ := step_close m line c r k d pA km0 lid hrun hl hp hf
  obtain ⟨-, hroad, -, -⟩ := ActionLine_parts hl
  obtain ⟨st2, hu2, hcars, hrd, hcat⟩ := updateStats_ok m.statsTuple pA km0
    (by rw [hr]; exact stringToRoad_ok r hroad)
  rw [hu] at hu2
  cases hu2
  rw [hs]
  simp only
  simp only [hc, hr, diff_comm (getKm pA) km0] at hcars hrd hcat
  rw [hcars, hrd]
  refine ⟨fun c' => mem_updateCarSet_iff _ c c', (find_updateRoadDistanceMap _ _ _).1,
    (find_updateRoadDistanceMap _ _ _).2, ?_, ?_⟩
  · intro hA
    rcases hcat with ⟨-, eA, eS⟩ | ⟨e, -, -⟩
    · rw [eA, eS]
      exact ⟨(find_updateCarKmMap _ _ _).1, (find_updateCarKmMap _ _ _).2, rfl⟩
    · rw [hA] at e
      cases e
  · intro hS
    rcases hcat with ⟨e, -, -⟩ | ⟨-, eS, eA⟩
    · rw [hS] at e
      cases e
    · rw [eA, eS]
      exact ⟨(find_updateCarKmMap _ _ _).1, (find_updateCarKmMap _ _ _).2, rfl⟩

/-- The second report of the scenario of the specification makes the total
of the road A1 equal to `2,5`. -/
theorem commit_effect_example :
    find (stringToRoad "A1".toList)
      (step (run ["CAR001 A1 10,0".toList]) "CAR001 A1 12,5".toList).statsTuple.roadDistance =
      some (2, 5) :=
  (commit_effect (run ["CAR001 A1 10,0".toList]) "CAR001 A1 12,5".toList "CAR001".toList
    "A1".toList "12".toList "5".toList
    ("CAR001".toList, (RoadType.roadA_t, 1), (12, 5), 2) (10, 0) 1 (by decide)
    (@ActionLine_of_read_tokens _ [] 0 _ _ _ _ (by decide) (by decide))
    rfl (by decide)).2.1.trans (by decide)

/-! ## Totals that decrease -/

/-- **C12.** The code at a failing input: after four reports the total of
`CAR001` on category A (and of the road A1) is `858993459,0`; the fifth and
sixth report commit the distance `0,1`, and the total becomes `429496729,5`:
`sum` converts the old total with `kmToBig`, which wraps at 2^32. No key is
removed. -/
theorem C12_total_decreases :
    (run ["CAR001 A1 0,0".toList, "CAR001 A1 429496729,5".toList, "CAR001 A1 0,0".toList,
      "CAR001 A1 429496729,5".toList]).statsTuple.carDistanceOnA =
      [("CAR001".toList, (858993459, 0))] ∧
    (run ["CAR001 A1 0,0".toList, "CAR001 A1 429496729,5".toList, "CAR001 A1 0,0".toList,
      "CAR001 A1 429496729,5".toList]).statsTuple.roadDistance =
      [((RoadType.roadA_t, 1), (858993459, 0))] ∧
    (step (step (run ["CAR001 A1 0,0".toList, "CAR001 A1 429496729,5".toList,
      "CAR001 A1 0,0".toList, "CAR001 A1 429496729,5".toList]) "CAR001 A1 0,0".toList)
      "CAR001 A1 0,1".toList).statsTuple.carDistanceOnA =
      [("CAR001".toList, (429496729, 5))] ∧
    (step (step (run ["CAR001 A1 0,0".toList, "CAR001 A1 429496729,5".toList,
      "CAR001 A1 0,0".toList, "CAR001 A1 429496729,5".toList]) "CAR001 A1 0,0".toList)
      "CAR001 A1 0,1".toList).statsTuple.roadDistance =
      [((RoadType.roadA_t, 1), (429496729, 5))] ∧
    sum (0, 1) (858993459, 0) = (429496729, 5) := by
  refine ⟨by decide, by decide, by decide, by decide, by decide⟩

/-! ## The car set and the per-car maps -/

/-- What a line does to the aggregation store: nothing when it commits no
segment, and the three updates of `updateStats` when it commits one. -/
theorem step_stats_committed (m : Machine) (line : Str) :
    (committed m line = none → (step m line).statsTuple = m.statsTuple) ∧
    (∀ c road, committed m line = some (c, road) →
      RoadOk road ∧ m.halt = none ∧
      ∃ a b : Km,
        (step m line).statsTuple.allCars = updateCarSet m.statsTuple.allCars c ∧
        (step m line).statsTuple.roadDistance =
          updateRoadDistanceMap m.statsTuple.roadDistance (diff a b) road ∧
        ((road.1 = RoadType.roadA_t ∧
            (step m line).statsTuple.carDistanceOnA =
              updateCarKmMap m.statsTuple.carDistanceOnA (diff a b) c ∧
            (step m line).statsTuple.carDistanceOnS = m.statsTuple.carDistanceOnS) ∨
         (road.1 = RoadType.roadS_t ∧
            (step m line).statsTuple.carDistanceOnS =
              updateCarKmMap m.statsTuple.carDistanceOnS (diff a b) c ∧
            (step m line).statsTuple.carDistanceOnA = m.statsTuple.carDistanceOnA))) := by
  cases hh : m.halt with
  | some x =>
    have hc : committed m line = none := by
      unfold committed
      simp only [hh]
    rw [hc, step_halted m line x hh]
    exact ⟨fun _ => rfl, fun c road h => by cases h⟩
  | none =>
    by_cases hrt : (read line m.parsedLine m.lC).1 = ReadType.readAction_t
    · obtain ⟨c, r, k, d, -, hl⟩ := ActionLine_of_read hrt
      have hread := read_of_ActionLine hl m.parsedLine m.lC
      obtain ⟨-, hr, -, -⟩ := ActionLine_parts hl
      cases hp : parseAction [c, r, k, d] (incr64 m.lC) with
      | error x =>
        have hc : committed m line = none := by
          unfold committed
          simp only [hh, hread, hp]
        have hs : (step m line).statsTuple = m.statsTuple := by
          rw [step_action m line c r k d hh hl]
          simp only [action, hp]
        rw [hc]
        exact ⟨fun _ => hs, fun c road h => by cases h⟩
      | ok pA =>
        obtain ⟨kv, mv, -, -, rfl⟩ := parseAction_ok hp
        cases hf : find c m.historyData.lastCarPositionMap with
        | none =>
          have hc : committed m line = none := by
            unfold committed
            simp only [hh, hread, hp, getCar, getLastCarPositionMap, hf]
          rw [hc]
          exact ⟨fun _ => step_action_stats_frame m line c r k d hl (Or.inl hf),
            fun c road h => by cases h⟩
        | some e =>
          obtain ⟨⟨road0, km0⟩, lid⟩ := e
          by_cases hroad : stringToRoad r = road0
          · subst hroad
            obtain ⟨st', hu, -, -, hs⟩ := step_close m line c r k d _ km0 lid hh hl hp hf
            obtain ⟨st2, hu2, hcars, hrd, hcat⟩ := updateStats_ok m.statsTuple
              (c, stringToRoad r, (toK kv, toM mv), incr64 m.lC) km0 (stringToRoad_ok r hr)
            rw [hu] at hu2
            cases hu2
            have hc : committed m line = some (c, stringToRoad r) := by
              unfold committed
              simp only [hh, hread, hp, getCar, getLastCarPositionMap, hf, getRoad, ne_eq,
                not_true_eq_false, if_false, hu]
            rw [hc, hs]
            refine ⟨fun h => (by cases h), ?_⟩
            intro c' road' h
            simp only [Option.some.injEq, Prod.mk.injEq] at h
            obtain ⟨rfl, rfl⟩ := h
            exact ⟨stringToRoad_ok r hr, rfl, _, _, hcars, hrd, hcat⟩
          · have hc : committed m line = none := by
              unfold committed
              simp only [hh, hread, hp, getCar, getLastCarPositionMap, hf, getRoad, ne_eq,
                hroad, not_false_eq_true, if_true]
            rw [hc]
            exact ⟨fun _ => step_action_stats_frame m line c r k d hl
                (Or.inr ⟨(road0, km0), lid, hf, fun e => hroad e.symm⟩),
              fun c road h => by cases h⟩
    · have hc : committed m line = none := by
        unfold committed
        simp only [hh, hrt]
      rw [hc]
      exact ⟨fun _ => (step_frame_nonaction m line hrt).2, fun c road h => by cases h⟩

theorem find_some_mem {κ : Type} {ν : Type} [DecidableEq κ] {k : κ} {v : ν} :
    ∀ {m : List (κ × ν)}, find k m = some v → (k, v) ∈ m := by
  intro m
  induction m with
  | nil => intro h; simp [find] at h
  | cons a t ih =>
    intro h
    simp only [find] at h
    split at h
    · rename_i hk
      cases h
      rw [← hk]
      simp
    · simp [ih h]

theorem isSome_find_updateCarKmMap (map : List (Car × Km)) (dist : Km) (c c' : Car) :
    (find c' (updateCarKmMap map dist c)).isSome = true ↔
      (find c' map).isSome = true ∨ c' = c := by
  by_cases h : c' = c
  · subst h
    simp [(find_updateCarKmMap map dist c').1]
  · simp [(find_updateCarKmMap map dist c).2 c' h, h]

/-- The car set after a step, in terms of the segment that the step commits. -/
theorem step_allCars (m : Machine) (line : Str) (c : Car) :
    c ∈ (step m line).statsTuple.allCars ↔
      c ∈ m.statsTuple.allCars ∨ ∃ road, committed m line = some (c, road) := by
  obtain ⟨h1, h2⟩ := step_stats_committed m line
  cases hc : committed m line with
  | none =>
    rw [h1 hc]
    simp
  | some e =>
    obtain ⟨c0, road0⟩ := e
    obtain ⟨-, -, a, b, hcars, -⟩ := h2 c0 road0 hc
    rw [hcars, mem_updateCarSet_iff]
    simp only [Option.some.injEq, Prod.mk.injEq]
    constructor
    · rintro (h | rfl)
      · exact Or.inl h
      · exact Or.inr ⟨road0, rfl, rfl⟩
    · rintro (h | ⟨road, rfl, -⟩)
      · exact Or.inl h
      · exact Or.inr rfl

/-- The keys of the per-car maps after a step, in terms of the segment that
the step commits. -/
theorem step_carMaps (m : Machine) (line : Str) (c : Car) :
    ((find c (step m line).statsTuple.carDistanceOnA).isSome = true ↔
      (find c m.statsTuple.carDistanceOnA).isSome = true ∨
        ∃ road, committed m line = some (c, road) ∧ road.1 = RoadType.roadA_t) ∧
    ((find c (step m line).statsTuple.carDistanceOnS).isSome = true ↔
      (find c m.statsTuple.carDistanceOnS).isSome = true ∨
        ∃ road, committed m line = some (c, road) ∧ road.1 = RoadType.roadS_t) := by
  obtain ⟨h1, h2⟩ := step_stats_committed m line
  cases hc : committed m line with
  | none =>
    rw [h1 hc]
    simp
  | some e =>
    obtain ⟨c0, road0⟩ := e
    obtain ⟨-, -, a, b, -, -, hcat⟩ := h2 c0 road0 hc
    simp only [Option.some.injEq, Prod.mk.injEq]
    rcases hcat with ⟨e, eA, eS⟩ | ⟨e, eS, eA⟩
    · rw [eA, eS, isSome_find_updateCarKmMap]
      constructor
      · constructor
        · rintro (h | rfl)
          · exact Or.inl h
          · exact Or.inr ⟨road0, ⟨rfl, rfl⟩, e⟩
        · rintro (h | ⟨road, ⟨rfl, -⟩, -⟩)
          · exact Or.inl h
          · exact Or.inr rfl
      · constructor
        · exact Or.inl
        · rintro (h | ⟨road, ⟨-, rfl⟩, h⟩)
          · exact h
          · rw [e] at h
            cases h
    · rw [eA, eS, isSome_find_updateCarKmMap]
      constructor
      · constructor
        · exact Or.inl
        · rintro (h | ⟨road, ⟨-, rfl⟩, h⟩)
          · exact h
          · rw [e] at h
            cases h
      · constructor
        · rintro (h | rfl)
          · exact Or.inl h
          · exact Or.inr ⟨road0, ⟨rfl, rfl⟩, e⟩
        · rintro (h | ⟨road, ⟨rfl, -⟩, -⟩)
          · exact Or.inl h
          · exact Or.inr rfl

/-- The car set and the keys of the per-car maps after the lines, in terms of
the segments committed on the way. -/
theorem runFrom_cars (c : Car) : ∀ (lines : List Str) (m : Machine),
    (c ∈ (runFrom m lines).statsTuple.allCars ↔
      c ∈ m.statsTuple.allCars ∨ ∃ road, (c, road) ∈ commitsFrom m lines) ∧
    ((find c (runFrom m lines).statsTuple.carDistanceOnA).isSome = true ↔
      (find c m.statsTuple.carDistanceOnA).isSome = true ∨
        ∃ road, (c, road) ∈ commitsFrom m lines ∧ road.1 = RoadType.roadA_t) ∧
    ((find c (runFrom m lines).statsTuple.carDistanceOnS).isSome = true ↔
      (find c m.statsTuple.carDistanceOnS).isSome = true ∨
        ∃ road, (c, road) ∈ commitsFrom m lines ∧ road.1 = RoadType.roadS_t) := by
  intro lines
  induction lines with
  | nil =>
    intro m
    simp [runFrom, commitsFrom]
  | cons l ls ih =>
    intro m
    obtain ⟨i1, i2, i3⟩ := ih (step m l)
    obtain ⟨s2, s3⟩ := step_carMaps m l c
    have e : runFrom m (l :: ls) = runFrom (step m l) ls := rfl
    rw [e, i1, i2, i3, step_allCars, s2, s3]
    simp only [commitsFrom, List.mem_append, Option.mem_toList, Option.mem_def]
    refine ⟨?_, ?_, ?_⟩
    · constructor
      · rintro ((h | ⟨road, h⟩) | ⟨road, h⟩)
        · exact Or.inl h
        · exact Or.inr ⟨road, Or.inl h⟩
        · exact Or.inr ⟨road, Or.inr h⟩
      · rintro (h | ⟨road, h | h⟩)
        · exact Or.inl (Or.inl h)
        · exact Or.inl (Or.inr ⟨road, h⟩)
        · exact Or.inr ⟨road, h⟩
    · constructor
      · rintro ((h | ⟨road, h, hr⟩) | ⟨road, h, hr⟩)
        · exact Or.inl h
        · exact Or.inr ⟨road, Or.inl h, hr⟩
        · exact Or.inr ⟨road, Or.inr h, hr⟩
      · rintro (h | ⟨road, h | h, hr⟩)
        · exact Or.inl (Or.inl h)
        · exact Or.inl (Or.inr ⟨road, h, hr⟩)
        · exact Or.inr ⟨road, h, hr⟩
    · constructor
      · rintro ((h | ⟨road, h, hr⟩) | ⟨road, h, hr⟩)
        · exact Or.inl h
        · exact Or.inr ⟨road, Or.inl h, hr⟩
        · exact Or.inr ⟨road, Or.inr h, hr⟩
      · rintro (h | ⟨road, h | h, hr⟩)
        · exact Or.inl (Or.inl h)
        · exact Or.inl (Or.inr ⟨road, h, hr⟩)
        · exact Or.inr ⟨road, h, hr⟩

/-- The roads of the committed segments are of category A or S. -/
theorem commitsFrom_roadOk : ∀ (lines : List Str) (m : Machine),
    ∀ e ∈ commitsFrom m lines, RoadOk e.2 := by
  intro lines
  induction lines with
  | nil => intro m e he; simp [commitsFrom] at he
  | cons l ls ih =>
    intro m e he
    simp only [commitsFrom, List.mem_append, Option.mem_toList, Option.mem_def] at he
    rcases he with he | he
    · exact ((step_stats_committed m l).2 e.1 e.2 he).1
    · exact ih (step m l) e he

/-- The car answer: the name, then the A total if there is one, then the S
total if there is one. -/
theorem queryCar_eq (c : Str) (st : StatsTuple) :
    queryCar c st =
      c ++ (match find c st.carDistanceOnA with
              | some km => " A ".toList ++ kmToString km
              | none => []) ++
           (match find c st.carDistanceOnS with
              | some km => " S ".toList ++ kmToString km
              | none => []) := by
  unfold queryCar getCarDistanceOnAMap getCarDistanceOnSMap
  cases find c st.carDistanceOnA <;> cases find c st.carDistanceOnS <;> simp

theorem queryCar_ne_bare (c : Str) (st : StatsTuple)
    (h : (find c st.carDistanceOnA).isSome = true ∨ (find c st.carDistanceOnS).isSome = true) :
    queryCar c st ≠ c := by
  rw [queryCar_eq]
  intro e
  have hl := congrArg List.length e
  simp only [List.length_append] at hl
  cases hA : find c st.carDistanceOnA with
  | some km =>
    rw [hA] at hl
    simp only [String.toList, List.length_append, List.length_cons] at hl
    omega
  | none =>
    cases hS : find c st.carDistanceOnS with
    | some km =>
      rw [hS] at hl
      simp only [String.toList, List.length_append, List.length_cons] at hl
      omega
    | none =>
      rw [hA, hS] at h
      simp at h

theorem queryRoad_ok_mem {rd : Road} {st : StatsTuple} {o : Str}
    (h : queryRoad rd st = .ok o) :
    ∃ e ∈ st.roadDistance, e.1 = rd ∧
      o = roadToString e.1 ++ " ".toList ++ kmToString e.2 := by
  unfold queryRoad getRoadDistanceMap at h
  simp only at h
  split at h
  · cases h
  · rename_i second hf
    cases h
    exact ⟨(rd, second), find_some_mem hf, rfl, rfl⟩

theorem queryRoads_ok_mem (st : StatsTuple) : ∀ (l : List (Road × Km)) (ls : List Str),
    queryRoads st l = .ok ls →
    ∀ o ∈ ls, ∃ e ∈ st.roadDistance, o = roadToString e.1 ++ " ".toList ++ kmToString e.2 := by
  intro l
  induction l with
  | nil =>
    intro ls h o ho
    cases h
    simp at ho
  | cons a l ih =>
    intro ls h o ho
    simp only [queryRoads] at h
    split at h
    · cases h
    · rename_i x hx
      split at h
      · cases h
      · rename_i xs hxs
        cases h
        rcases List.mem_cons.1 ho with rfl | ho
        · obtain ⟨e, he, -, ho⟩ := queryRoad_ok_mem hx
          exact ⟨e, he, ho⟩
        · exact ih xs hxs o ho

/-- Every line that a query prints is the car answer of a car of the car set
or the road answer of an element of the per-road map. -/
theorem query_out_mem {line t : Str} {rest : ParsedLine} {lC : Nat} {st : StatsTuple}
    {out err : List Str} (h : query line (t :: rest) lC st = .ok (out, err)) :
    ∀ o ∈ out, (∃ c ∈ st.allCars, o = queryCar c st) ∨
      (∃ e ∈ st.roadDistance, o = roadToString e.1 ++ " ".toList ++ kmToString e.2) := by
  unfold query at h
  cases hi : interpretQuery (t :: rest) st with
  | error x => simp [hi] at h
  | ok iQ =>
    obtain ⟨qt, name⟩ := iQ
    have hname : qt = QueryType.queryCar_t ∨ qt = QueryType.queryMix_t →
        name ∈ st.allCars := by
      intro hq
      unfold interpretQuery at hi
      simp only [getCarSet, getRoadDistanceMap] at hi
      split_ifs at hi with h1 h2 h3 h4 h5 <;> cases hi <;>
        first
        | (simp only [Bool.and_eq_true, decide_eq_true_eq] at h3; exact h3.1)
        | (simp only [decide_eq_true_eq] at h4; exact h4)
        | (rcases hq with hq | hq <;> cases hq)
    simp only [hi] at h
    cases qt with
    | queryAll_t =>
      simp only at h
      unfold queryAll at h
      cases hq : queryRoads st (getRoadDistanceMap st) with
      | error x => simp [hq] at h
      | ok ls =>
        simp only [hq, Except.ok.injEq, Prod.mk.injEq] at h
        obtain ⟨rfl, -⟩ := h
        intro o ho
        rcases List.mem_append.1 ho with ho | ho
        · obtain ⟨c, hc, rfl⟩ := List.mem_map.1 ho
          exact Or.inl ⟨c, hc, rfl⟩
        · exact Or.inr (queryRoads_ok_mem st _ ls hq o ho)
    | queryRoad_t =>
      simp only at h
      cases hq : queryRoad (stringToRoad name) st with
      | error x => simp [hq] at h
      | ok l =>
        simp only [hq, Except.ok.injEq, Prod.mk.injEq] at h
        obtain ⟨rfl, -⟩ := h
        intro o ho
        simp only [List.mem_singleton] at ho
        subst ho
        obtain ⟨e, he, -, ho⟩ := queryRoad_ok_mem hq
        exact Or.inr ⟨e, he, ho⟩
    | queryCar_t =>
      simp only [Except.ok.injEq, Prod.mk.injEq] at h
      obtain ⟨rfl, -⟩ := h
      intro o ho
      simp only [List.mem_singleton] at ho
      subst ho
      exact Or.inl ⟨name, hname (Or.inl rfl), rfl⟩
    | queryMix_t =>
      simp only at h
      cases hq : queryRoad (stringToRoad name) st with
      | error x => simp [hq] at h
      | ok l =>
        simp only [hq, Except.ok.injEq, Prod.mk.injEq] at h
        obtain ⟨rfl, -⟩ := h
        intro o ho
        simp only [List.mem_cons, List.mem_singleton, List.not_mem_nil, or_false] at ho
        rcases ho with rfl | rfl
        · exact Or.inl ⟨name, hname (Or.inr rfl), rfl⟩
        · obtain ⟨e, he, -, ho⟩ := queryRoad_ok_mem hq
          exact Or.inr ⟨e, he, ho⟩
    | queryIgnore_t =>
      simp only [Except.ok.injEq, Prod.mk.injEq] at h
      obtain ⟨rfl, -⟩ := h
      intro o ho
      simp at ho
    | queryError_t =>
      simp only [Except.ok.injEq, Prod.mk.injEq] at h
      obtain ⟨rfl, -⟩ := h
      intro o ho
      simp at ho

/-- **C11.** After any sequence of input lines, the car set is the union of
the key sets of the per-car A map and the per-car S map; a car has an entry
in the A (resp. S) map exactly when it has committed at least one segment on
a road of category A (resp. S); the car answer of a car of the car set is its
name followed by ` A <km>` if it has an A entry and by ` S <km>` if it has an
S entry, never the bare name; and every line that a query prints is such a car
answer of a car of the car set or a road answer. -/
theorem C11_car_set (lines : List Str) :
    (∀ c, c ∈ (run lines).statsTuple.allCars ↔
      (find c (run lines).statsTuple.carDistanceOnA).isSome = true ∨
      (find c (run lines).statsTuple.carDistanceOnS).isSome = true) ∧
    (∀ c, (find c (run lines).statsTuple.carDistanceOnA).isSome = true ↔
      ∃ road, (c, road) ∈ commits lines ∧ road.1 = RoadType.roadA_t) ∧
    (∀ c, (find c (run lines).statsTuple.carDistanceOnS).isSome = true ↔
      ∃ road, (c, road) ∈ commits lines ∧ road.1 = RoadType.roadS_t) ∧
    (∀ c ∈ (run lines).statsTuple.allCars,
      queryCar c (run lines).statsTuple ≠ c ∧
      queryCar c (run lines).statsTuple =
        c ++ (match find c (run lines).statsTuple.carDistanceOnA with
                | some km => " A ".toList ++ kmToString km
                | none => []) ++
             (match find c (run lines).statsTuple.carDistanceOnS with
                | some km => " S ".toList ++ kmToString km
                | none => [])) ∧
    (∀ (line t : Str) (rest : ParsedLine) (lC : Nat) (out err : List Str),
      query line (t :: rest) lC (run lines).statsTuple = .ok (out, err) →
      ∀ o ∈ out,
        (∃ c ∈ (run lines).statsTuple.allCars, o = queryCar c (run lines).statsTuple) ∨
        (∃ e ∈ (run lines).statsTuple.roadDistance,
          o = roadToString e.1 ++ " ".toList ++ kmToString e.2)) := by
  have hA : ∀ c, (find c (run lines).statsTuple.carDistanceOnA).isSome = true ↔
      ∃ road, (c, road) ∈ commits lines ∧ road.1 = RoadType.roadA_t := by
    intro c
    have := (runFrom_cars c lines Machine.init).2.1
    simpa [Machine.init, find] using this
  have hS : ∀ c, (find c (run lines).statsTuple.carDistanceOnS).isSome = true ↔
      ∃ road, (c, road) ∈ commits lines ∧ road.1 = RoadType.roadS_t := by
    intro c
    have := (runFrom_cars c lines Machine.init).2.2
    simpa [Machine.init, find] using this
  have hU : ∀ c, c ∈ (run lines).statsTuple.allCars ↔
      (find c (run lines).statsTuple.carDistanceOnA).isSome = true ∨
      (find c (run lines).statsTuple.carDistanceOnS).isSome = true := by
    intro c
    rw [hA, hS]
    have := (runFrom_cars c lines Machine.init).1
    have h0 : c ∉ Machine.init.statsTuple.allCars := by simp [Machine.init]
    rw [show (run lines) = runFrom Machine.init lines from rfl, this]
    simp only [h0, false_or]
    constructor
    · rintro ⟨road, h⟩
      rcases (commitsFrom_roadOk lines Machine.init (c, road) h).1 with e | e
      · exact Or.inl ⟨road, h, e⟩
      · exact Or.inr ⟨road, h, e⟩
    · rintro (⟨road, h, -⟩ | ⟨road, h, -⟩)
      · exact ⟨road, h⟩
      · exact ⟨road, h⟩
  refine ⟨hU, hA, hS, ?_, ?_⟩
  · intro c hc
    exact ⟨queryCar_ne_bare c _ ((hU c).1 hc), queryCar_eq c _⟩
  · intro line t rest lC out err h
    exact query_out_mem h

/-- After the scenario of the specification the answer for `CAR001` is not
the bare name, and the only committed segment is the one of `CAR001` on A1,
by C11. -/
theorem C11_car_set_witness :
    queryCar "CAR001".toList
      (run ["CAR001 A1 10,0".toList, "CAR001 A1 12,5".toList]).statsTuple ≠ "CAR001".toList ∧
    (∃ road, ("CAR001".toList, road) ∈
      commits ["CAR001 A1 10,0".toList, "CAR001 A1 12,5".toList] ∧
      road.1 = RoadType.roadA_t) :=
  ⟨((C11_car_set ["CAR001 A1 10,0".toList, "CAR001 A1 12,5".toList]).2.2.2.1
      "CAR001".toList (by decide)).1,
   ((C11_car_set ["CAR001 A1 10,0".toList, "CAR001 A1 12,5".toList]).2.1
      "CAR001".toList).1 (by decide)⟩

/-! ## Cars without a committed segment -/

/-- The answer to the query for a car name that is not in the car set. -/
theorem query_unknown_car (line c : Str) (lC : Nat) (st : StatsTuple)
    (hc : carGrammar c = true) (hmem : c ∉ st.allCars) :
    query line [c] lC st =
      .ok ((match find (stringToRoad c) st.roadDistance with
          | some km => [roadToString (stringToRoad c) ++ " ".toList ++ kmToString km]
          | none => []), []) := by
  have hne : c.isEmpty = false := by
    cases c with
    | nil => exact absurd rfl (carGrammar_ne_nil [] hc)
    | cons _ _ => rfl
  cases hr : find (stringToRoad c) st.roadDistance with
  | some km =>
    simp [query, interpretQuery, hne, validCarName_eq_carGrammar, hc, getCarSet, hmem,
      getRoadDistanceMap, hr, queryRoad]
  | none =>
    simp [query, interpretQuery, hne, validCarName_eq_carGrammar, hc, getCarSet, hmem,
      getRoadDistanceMap, hr]

/-- **C17 (amended).** For every input log that the process reads to its
end and every car name that has no committed segment in it (no action line at all, or action lines that only
opened or re-opened pending reports): the car is not in the car set, so the
`?` query, which prints the car answers of the car set and then the road
answers, prints no car answer for it; and a query for the car prints no car
answer and writes no diagnostic: it prints nothing, unless the name of the
car is also the name of a road with a recorded total, in which case it prints
the answer of that road. -/
theorem C17_no_segment_no_answer (lines : List Str) (c : Str) (hc : carGrammar c = true)
    (hno : c ∉ (commits lines).map Prod.fst) (hrun : (run lines).halt = none) :
    c ∉ (run lines).statsTuple.allCars ∧
    (∀ q : Str, QueryLine q [] →
      (run (lines ++ [q])).cout = (run lines).cout ++
        ((run lines).statsTuple.allCars.map (fun x => queryCar x (run lines).statsTuple) ++
         (run lines).statsTuple.roadDistance.map
           (fun x => roadToString x.1 ++ " ".toList ++ kmToString x.2))) ∧
    (∀ q : Str, QueryLine q c →
      (run (lines ++ [q])).cerr = (run lines).cerr ∧
      (run (lines ++ [q])).cout = (run lines).cout ++
        (match find (stringToRoad c) (run lines).statsTuple.roadDistance with
          | some km => [roadToString (stringToRoad c) ++ " ".toList ++ kmToString km]
          | none => [])) := by
  have hmem : c ∉ (run lines).statsTuple.allCars := by
    intro h
    rcases ((runFrom_cars c lines Machine.init).1).1 h with h | ⟨road, h⟩
    · simp [Machine.init] at h
    · exact hno (List.mem_map.2 ⟨(c, road), h, rfl⟩)
  refine ⟨hmem, ?_, ?_⟩
  · intro q hq
    rw [run_snoc, step_query (run lines) q [] hrun hq, query_all_run lines q []]
  · intro q hq
    rw [run_snoc, step_query (run lines) q c hrun hq, query_unknown_car q c _ _ hc hmem]
    exact ⟨by simp, rfl⟩

/-- The car `CAR002` has one pending report and no committed segment, and
the query `?CAR002` prints nothing, by C17. -/
theorem C17_no_segment_no_answer_witness :
    (run (["CAR001 A1 10,0".toList, "CAR001 A1 12,5".toList, "CAR002 A1 1,0".toList] ++
      ["?CAR002".toList])).cout =
    (run ["CAR001 A1 10,0".toList, "CAR001 A1 12,5".toList, "CAR002 A1 1,0".toList]).cout :=
  (((C17_no_segment_no_answer
    ["CAR001 A1 10,0".toList, "CAR001 A1 12,5".toList, "CAR002 A1 1,0".toList]
    "CAR002".toList (by decide) (by decide) (by decide)).2.2 "?CAR002".toList
    (QueryLine_bare _ (by decide))).2).trans (by decide)

/-- **C17 (counterexample).** The car `A12` has one action line, which only
opens a pending report, and no committed segment; the road A12 has a total
from the car `CAR001`. The query `?A12` prints the line `A12 1,0`. -/
theorem C17_counterexample :
    commits ["CAR001 A12 0,0".toList, "CAR001 A12 1,0".toList, "A12 S1 5,0".toList] =
      [("CAR001".toList, (RoadType.roadA_t, 12))] ∧
    (run ["CAR001 A12 0,0".toList, "CAR001 A12 1,0".toList, "A12 S1 5,0".toList]).cout = [] ∧
    (run ["CAR001 A12 0,0".toList, "CAR001 A12 1,0".toList, "A12 S1 5,0".toList,
      "?A12".toList]).cout = ["A12 1,0".toList] ∧
    (run ["CAR001 A12 0,0".toList, "CAR001 A12 1,0".toList, "A12 S1 5,0".toList,
      "?A12".toList]).cout ≠ [] := by
  refine ⟨by decide, by decide, by decide, by decide⟩

/-! ## The history and the ledger -/

theorem getElem?_snoc_of_lt (ps : List Str) (l : Str) (i : Nat) (text : Str)
    (h : ps[i]? = some text) : (ps ++ [l])[i]? = some text := by
  have hi : i < ps.length := by
    by_contra hc
    rw [List.getElem?_eq_none (by omega)] at h
    cases h
  rw [List.getElem?_append_left hi]
  exact h

/-- The relation is kept when a line is read that changes neither map. -/
theorem LedgerHistory_mono {lC lC' : Nat} {ps : List Str} {l : Str}
    {L : Car → Option (Position × Nat)} {H : Nat → Option Str} (hle : lC ≤ lC')
    (h : LedgerHistory lC ps L H) : LedgerHistory lC' (ps ++ [l]) L H := by
  obtain ⟨i1, i2, i3, i4⟩ := h
  refine ⟨?_, i2, i3, i4⟩
  intro n text hn
  obtain ⟨a, b, c⟩ := i1 n text hn
  exact ⟨a, by omega, getElem?_snoc_of_lt ps l _ text c⟩

/-- The relation after a report that opens a pending report, or replaces the
pending report of the car (`old` is the line of the report it replaces). -/
theorem LedgerHistory_open {ps : List Str} {l : Str} {L L' : Car → Option (Position × Nat)}
    {H H' : Nat → Option Str} {c : Car} {p : Position} {old : Option Nat}
    (h : LedgerHistory ps.length ps L H) (hold : old = (L c).map Prod.snd)
    (hL : ∀ c', L' c' = if c' = c then some (p, ps.length + 1) else L c')
    (hH : ∀ n, H' n = if n = ps.length + 1 then some l
      else if some n = old then none else H n) :
    LedgerHistory (ps.length + 1) (ps ++ [l]) L' H' := by
  obtain ⟨i1, i2, i3, i4⟩ := h
  have hle : ∀ c' pos n, L c' = some (pos, n) → n ≤ ps.length := by
    intro c' pos n hc
    obtain ⟨t, ht⟩ := Option.isSome_iff_exists.1 (i2 c' pos n hc)
    exact (i1 n t ht).2.1
  refine ⟨?_, ?_, ?_, ?_⟩
  · intro n text hn
    rw [hH] at hn
    split at hn
    · rename_i e
      cases hn
      subst e
      refine ⟨by omega, le_refl _, ?_⟩
      simp
    · split at hn
      · cases hn
      · obtain ⟨a, b, c⟩ := i1 n text hn
        exact ⟨a, by omega, getElem?_snoc_of_lt ps l _ text c⟩
  · intro c' pos n hc
    rw [hL] at hc
    rw [hH]
    split at hc
    · cases hc
      simp
    · rename_i hne
      have hn : ¬ n = ps.length + 1 := by
        have := hle c' pos n hc
        omega
      simp only [hn, if_false]
      split
      · rename_i hex
        rw [hold] at hex
        cases hq : L c with
        | none => rw [hq] at hex; cases hex
        | some e =>
          obtain ⟨q, lid⟩ := e
          rw [hq] at hex
          simp only [Option.map_some', Option.some.injEq] at hex
          subst hex
          exact absurd (i4 c' c pos q n hc hq) hne
      · exact i2 c' pos n hc
  · intro n hn
    rw [hH] at hn
    split at hn
    · rename_i e
      exact ⟨c, p, by rw [hL, e]; simp⟩
    · split at hn
      · cases hn
      · rename_i _ hex
        obtain ⟨c', pos, hc⟩ := i3 n hn
        refine ⟨c', pos, ?_⟩
        rw [hL]
        have hne : c' ≠ c := by
          rintro rfl
          apply hex
          rw [hold, hc]
          rfl
        simp [hne, hc]
  · intro c1 c2 p1 p2 n h1 h2
    rw [hL] at h1 h2
    split at h1
    · rename_i e1
      split at h2
      · rename_i e2
        rw [e1, e2]
      · cases h1
        have := hle c2 p2 _ h2
        omega
    · split at h2
      · cases h2
        have := hle c1 p1 _ h1
        omega
      · exact i4 c1 c2 p1 p2 n h1 h2

/-- The relation after a report that closes the pending report of the car. -/
theorem LedgerHistory_close {ps : List Str} {l : Str} {L L' : Car → Option (Position × Nat)}
    {H H' : Nat → Option Str} {c : Car} {q : Position} {lid : Nat}
    (h : LedgerHistory ps.length ps L H) (hc : L c = some (q, lid))
    (hL : ∀ c', L' c' = if c' = c then none else L c')
    (hH : ∀ n, H' n = if n = lid then none else H n) :
    LedgerHistory (ps.length + 1) (ps ++ [l]) L' H' := by
  obtain ⟨i1, i2, i3, i4⟩ := h
  refine ⟨?_, ?_, ?_, ?_⟩
  · intro n text hn
    rw [hH] at hn
    split at hn
    · cases hn
    · obtain ⟨a, b, c⟩ := i1 n text hn
      exact ⟨a, by omega, getElem?_snoc_of_lt ps l _ text c⟩
  · intro c' pos n hc'
    rw [hL] at hc'
    split at hc'
    · cases hc'
    · rename_i hne
      rw [hH]
      have hn : ¬ n = lid := by
        rintro rfl
        exact hne (i4 c' c pos q n hc' hc)
      simp only [hn, if_false]
      exact i2 c' pos n hc'
  · intro n hn
    rw [hH] at hn
    split at hn
    · cases hn
    · rename_i hne
      obtain ⟨c', pos, hc'⟩ := i3 n hn
      refine ⟨c', pos, ?_⟩
      rw [hL]
      have : c' ≠ c := by
        rintro rfl
        rw [hc] at hc'
        cases hc'
        exact hne rfl
      simp [this, hc']
  · intro c1 c2 p1 p2 n h1 h2
    rw [hL] at h1 h2
    split at h1
    · cases h1
    · split at h2
      · cases h2
      · exact i4 c1 c2 p1 p2 n h1 h2

section EraseLemmas
variable {κ : Type} {ν : Type} [DecidableEq κ]

theorem find_eq_none_iff (k : κ) : ∀ m : List (κ × ν),
    find k m = none ↔ k ∉ m.map Prod.fst := by
  intro m
  induction m with
  | nil => simp [find]
  | cons a t ih =>
    simp only [find, List.map_cons, List.mem_cons, not_or]
    split
    · rename_i h
      simp [h]
    · rename_i h
      rw [ih]
      constructor
      · intro h2
        exact ⟨fun e => h e.symm, h2⟩
      · intro h2
        exact h2.2

theorem erase_sublist (k : κ) : ∀ m : List (κ × ν), (erase k m).Sublist m := by
  intro m
  induction m with
  | nil => exact List.Sublist.refl _
  | cons a t ih =>
    simp only [erase]
    split
    · exact List.sublist_cons_self a t
    · exact ih.cons₂ a

theorem find_erase_ne (k k' : κ) (hne : k' ≠ k) :
    ∀ m : List (κ × ν), find k' (erase k m) = find k' m := by
  intro m
  induction m with
  | nil => rfl
  | cons a t ih =>
    simp only [erase]
    split
    · rename_i h
      have : ¬ a.1 = k' := by rw [h]; exact fun e => hne e.symm
      simp [find, this]
    · simp only [find]
      split
      · rfl
      · exact ih

theorem find_erase_self (k : κ) : ∀ m : List (κ × ν), (m.map Prod.fst).Nodup →
    find k (erase k m) = none := by
  intro m
  induction m with
  | nil => intro _; rfl
  | cons a t ih =>
    intro h
    rw [List.map_cons, List.nodup_cons] at h
    simp only [erase]
    split
    · rename_i hk
      rw [find_eq_none_iff, ← hk]
      exact h.1
    · rename_i hk
      simp only [find, hk, if_false]
      exact ih h.2

theorem find_erase (k k' : κ) (m : List (κ × ν)) (h : (m.map Prod.fst).Nodup) :
    find k' (erase k m) = if k' = k then none else find k' m := by
  by_cases e : k' = k
  · subst e
    simp [find_erase_self k' m h]
  · simp [e, find_erase_ne k k' e m]

theorem find_append (k k' : κ) (v : ν) (m : List (κ × ν)) (h : find k m = none) :
    find k' (m ++ [(k, v)]) = if k' = k then some v else find k' m := by
  by_cases e : k' = k
  · subst e
    simp [find_append_none k' v m h]
  · simp [e, find_append_ne k k' v e m]

theorem find_assign (k k' : κ) (v w : ν) (m : List (κ × ν)) (h : find k m = some w) :
    find k' (assign k v m) = if k' = k then some v else find k' m := by
  by_cases e : k' = k
  · subst e
    simp [find_assign_self k' v m w h]
  · simp [e, find_assign_ne k k' v e m]

theorem nodup_keys_erase (k : κ) (m : List (κ × ν)) (h : (m.map Prod.fst).Nodup) :
    ((erase k m).map Prod.fst).Nodup :=
  h.sublist ((erase_sublist k m).map Prod.fst)

theorem nodup_keys_append (k : κ) (v : ν) (m : List (κ × ν)) (h : (m.map Prod.fst).Nodup)
    (hf : find k m = none) : ((m ++ [(k, v)]).map Prod.fst).Nodup := by
  rw [List.map_append, List.nodup_append]
  refine ⟨h, by simp, ?_⟩
  intro a ha hb
  simp only [List.map_cons, List.map_nil, List.mem_singleton] at hb
  subst hb
  exact (find_eq_none_iff a m).1 hf ha

end EraseLemmas

theorem nat_lt_trans_bool (a b c : Nat) (h1 : decide (a < b) = true)
    (h2 : decide (b < c) = true) : decide (a < c) = true := by
  simp only [decide_eq_true_eq] at *
  omega

theorem find_insertO_hist (n n' : Nat) (l : Str) (m : List (Nat × Str))
    (h : find n m = none) :
    find n' (insertO (fun a b => decide (a < b)) n l m) =
      if n' = n then some l else find n' m := by
  by_cases e : n' = n
  · subst e
    simp [find_insertO_nat n' l m h]
  · simp [e, find_insertO_ne (fun a b => decide (a < b)) n n' l e m]

/-- What `action` does to the history data: the relation between ledger and
history is kept, and the only way it stops the process is the exception of
`stoul`. -/
theorem action_hist (ps : List Str) (line c r k d : Str) (hd : HistoryData)
    (st : StatsTuple) (hr : roadGrammar r = true)
    (hLH : LedgerHistory ps.length ps (fun c => find c hd.lastCarPositionMap)
      (fun n => find n hd.historyMap))
    (hn1 : (hd.lastCarPositionMap.map Prod.fst).Nodup)
    (hn2 : (hd.historyMap.map Prod.fst).Pairwise (fun a b => decide (a < b) = true)) :
    (∀ x, action line [c, r, k, d] (ps.length + 1) hd st = .error x → x = Halt.exception) ∧
    (∀ hd' st' err, action line [c, r, k, d] (ps.length + 1) hd st = .ok (hd', st', err) →
      LedgerHistory (ps.length + 1) (ps ++ [line]) (fun c => find c hd'.lastCarPositionMap)
        (fun n => find n hd'.historyMap) ∧
      (hd'.lastCarPositionMap.map Prod.fst).Nodup ∧
      (hd'.historyMap.map Prod.fst).Pairwise (fun a b => decide (a < b) = true)) := by
  have hnd2 : (hd.historyMap.map Prod.fst).Nodup :=
    nodup_of_pairwise_lt (fun a b => decide (a < b)) (by simp) _ hn2
  have hnew : find (ps.length + 1) hd.historyMap = none := by
    cases hf : find (ps.length + 1) hd.historyMap with
    | none => rfl
    | some t =>
      have := (hLH.1 _ t hf).2.1
      omega
  cases hp : parseAction [c, r, k, d] (ps.length + 1) with
  | error x =>
    constructor
    · intro y hy
      simp only [action, hp] at hy
      cases hy
      exact parseAction_error hp
    · intro hd' st' err hy
      simp only [action, hp] at hy
      cases hy
  | ok pA =>
    obtain ⟨kv, mv, -, -, rfl⟩ := parseAction_ok hp
    cases hf : find c hd.lastCarPositionMap with
    | none =>
      rw [action_open line _ _ hd st _ hp hf]
      simp only [getCar, getRoad, getKm, getLineId]
      refine ⟨fun x hx => (by cases hx), ?_⟩
      intro hd' st' err hy
      simp only [Except.ok.injEq, Prod.mk.injEq] at hy
      obtain ⟨rfl, -, -⟩ := hy
      refine ⟨?_, nodup_keys_append _ _ _ hn1 hf, insertO_sorted nat_lt_trans_bool _ _ _ hn2⟩
      apply @LedgerHistory_open _ _ _ _ _ _ c (stringToRoad r, (toK kv, toM mv)) none hLH
      · simp only [hf, Option.map_none']
      · intro c'
        exact find_append c c' _ _ hf
      · intro n
        simp only [find_insertO_hist _ n line _ hnew]
        by_cases e : n = ps.length + 1 <;> simp [e]
    | some e =>
      obtain ⟨⟨road0, km0⟩, lid⟩ := e
      obtain ⟨text, ht⟩ := Option.isSome_iff_exists.1 (hLH.2.1 c _ lid hf)
      have hlid := (hLH.1 lid text ht).2.1
      by_cases hroad : stringToRoad r = road0
      · subst hroad
        obtain ⟨st2, hu, -⟩ := updateStats_ok st
          (c, stringToRoad r, (toK kv, toM mv), ps.length + 1) km0 (stringToRoad_ok r hr)
        rw [action_close line _ _ hd st st2 _ km0 lid hp hf hu]
        simp only [getCar]
        refine ⟨fun x hx => (by cases hx), ?_⟩
        intro hd' st' err hy
        simp only [Except.ok.injEq, Prod.mk.injEq] at hy
        obtain ⟨rfl, -, -⟩ := hy
        refine ⟨?_, nodup_keys_erase _ _ hn1,
          hn2.sublist ((erase_sublist lid hd.historyMap).map Prod.fst)⟩
        apply @LedgerHistory_close _ _ _ _ _ _ c (stringToRoad r, km0) lid hLH hf
        · intro c'
          exact find_erase c c' _ hn1
        · intro n
          exact find_erase lid n _ hnd2
      · rw [action_mismatch line _ _ hd st _ road0 km0 lid text hp hf hroad ht]
        simp only [getCar, getRoad, getKm, getLineId]
        refine ⟨fun x hx => (by cases hx), ?_⟩
        intro hd' st' err hy
        simp only [Except.ok.injEq, Prod.mk.injEq] at hy
        obtain ⟨rfl, -, -⟩ := hy
        have hs2 := hn2.sublist ((erase_sublist lid hd.historyMap).map Prod.fst)
        refine ⟨?_, by rw [keys_assign]; exact hn1,
          insertO_sorted nat_lt_trans_bool _ _ _ hs2⟩
        have hnew2 : find (ps.length + 1) (erase lid hd.historyMap) = none := by
          rw [find_erase_ne lid _ (by omega), hnew]
        apply @LedgerHistory_open _ _ _ _ _ _ c (stringToRoad r, (toK kv, toM mv))
          (some lid) hLH
        · simp only [hf, Option.map_some']
        · intro c'
          exact find_assign c c' _ _ _ hf
        · intro n
          simp only [find_insertO_hist _ n line _ hnew2, find_erase lid n _ hnd2,
            Option.some.injEq]

/-- On a store whose road map has no repeated key a query does not use an
end iterator. -/
theorem query_ok (line t : Str) (lC : Nat) (st : StatsTuple)
    (hnd : (st.roadDistance.map Prod.fst).Nodup) (x : Halt) :
    query line [t] lC st ≠ .error x := by
  by_cases ht : t.isEmpty = true
  · have hq := queryRoads_ok st st.roadDistance (find_of_mem_nodup _ hnd)
    simp [query, interpretQuery, ht, queryAll, getRoadDistanceMap, hq]
  · by_cases hv : (!validCarName t && !validRoadName t) = true
    · simp [query, interpretQuery, ht, hv]
    · by_cases hc : t ∈ st.allCars
      · cases hr : find (stringToRoad t) st.roadDistance with
        | some km =>
          simp [query, interpretQuery, ht, hv, getCarSet, getRoadDistanceMap, hc, hr,
            queryRoad]
        | none =>
          simp [query, interpretQuery, ht, hv, getCarSet, getRoadDistanceMap, hc, hr]
      · cases hr : find (stringToRoad t) st.roadDistance with
        | some km =>
          simp [query, interpretQuery, ht, hv, getCarSet, getRoadDistanceMap, hc, hr,
            queryRoad]
        | none =>
          simp [query, interpretQuery, ht, hv, getCarSet, getRoadDistanceMap, hc, hr]

theorem step_lC_running (m : Machine) (line : Str) (h : m.halt = none) :
    (step m line).lC = incr64 m.lC := by
  unfold step
  simp only [h, read_lC]
  split
  · rfl
  · split <;> rfl
  · split <;> rfl
  · rfl

theorem incr64_of_lt (n : Nat) (h : n + 1 < 2 ^ 64) : incr64 n = n + 1 := by
  unfold incr64
  omega

/-- One line keeps the invariant of the history data, while the line counter
does not wrap. -/
theorem step_HistInv (ps : List Str) (l : Str) (m : Machine) (h : HistInv ps m)
    (hs : StoreInv m.historyData m.statsTuple) (hlen : ps.length + 1 < 2 ^ 64) :
    HistInv (ps ++ [l]) (step m l) := by
  obtain ⟨hle, heq, hund, hLH, hn1, hn2⟩ := h
  cases hh : m.halt with
  | some x =>
    rw [step_halted m l x hh]
    refine ⟨(by simp only [List.length_append, List.length_singleton]; omega), ?_, hund,
      LedgerHistory_mono (le_refl _) hLH, hn1, hn2⟩
    intro h
    rw [hh] at h
    cases h
  | none =>
    have hlC : m.lC = ps.length := heq hh
    have hi : incr64 m.lC = ps.length + 1 := by rw [hlC]; exact incr64_of_lt _ hlen
    have hl1 : (step m l).lC = ps.length + 1 := by rw [step_lC_running m l hh, hi]
    have hlen' : (ps ++ [l]).length = ps.length + 1 := by simp
    rw [hlC] at hLH
    by_cases hrt : (read l m.parsedLine m.lC).1 = ReadType.readAction_t
    · obtain ⟨c, r, k, d, -, hl⟩ := ActionLine_of_read hrt
      obtain ⟨-, hr, -, -⟩ := ActionLine_parts hl
      obtain ⟨a1, a2⟩ := action_hist ps l c r k d m.historyData m.statsTuple hr hLH hn1 hn2
      have hst := step_action m l c r k d hh hl
      rw [hi] at hst
      cases ha : action l [c, r, k, d] (ps.length + 1) m.historyData m.statsTuple with
      | error x =>
        rw [ha] at hst
        simp only at hst
        rw [hst]
        refine ⟨by simp [hlen'], (fun h => by cases h), ?_, ?_, hn1, hn2⟩
        · simp only [ne_eq, Option.some.injEq]
          rw [a1 x ha]
          decide
        · exact LedgerHistory_mono (Nat.le_succ _) hLH
      | ok o =>
        obtain ⟨hd', st', err⟩ := o
        rw [ha] at hst
        simp only at hst
        obtain ⟨b1, b2, b3⟩ := a2 hd' st' err ha
        rw [hst]
        refine ⟨by simp [hlen'], (fun _ => by simp [hlen']), ?_, b1, b2, b3⟩
        simp [hh]
    · obtain ⟨f1, -⟩ := step_frame_nonaction m l hrt
      refine ⟨by rw [hl1, hlen'], (fun _ => by rw [hl1, hlen']), ?_, ?_,
        (by rw [f1]; exact hn1), (by rw [f1]; exact hn2)⟩
      · unfold step
        simp only [hh]
        cases hrt2 : (read l m.parsedLine m.lC).1 with
        | readErr_t => simp [hh]
        | readEmpty_t => simp [hh]
        | readAction_t => exact absurd hrt2 hrt
        | readQuery_t =>
          obtain ⟨t, ht, -⟩ := QueryLine_of_read hrt2
          simp only [ht]
          cases ho : query l [t] (read l m.parsedLine m.lC).2.2 m.statsTuple with
          | error x =>
            exact absurd ho (query_ok l t _ m.statsTuple
              (nodup_of_pairwise_lt roadCmp roadCmp_irrefl _ hs.2.2.2) x)
          | ok o => simp [hh]
      · rw [hl1, f1]
        exact LedgerHistory_mono (Nat.le_succ _) hLH

/-- After fewer than 2^64 lines the history data satisfies its invariant. -/
theorem run_HistInv (lines : List Str) (hlen : lines.length < 2 ^ 64) :
    HistInv lines (run lines) := by
  induction lines using List.reverseRecOn with
  | nil =>
    refine ⟨le_refl _, fun _ => rfl, (by simp [run, runFrom, Machine.init]), ?_, ?_, ?_⟩
    · refine ⟨?_, ?_, ?_, ?_⟩ <;> simp [run, runFrom, Machine.init, find]
    · simp [run, runFrom, Machine.init]
    · simp [run, runFrom, Machine.init]
  | append_singleton ps l ih =>
    have hl : ps.length + 1 < 2 ^ 64 := by simpa using hlen
    rw [run_snoc]
    exact step_HistInv ps l (run ps) (ih (by omega)) (run_inv ps).1 hl

/-- **C13.** After any sequence of fewer than 2^64 input lines (the range of
the line counter), the keys of the history store are exactly the origin line
numbers of the pending reports of the position ledger; each key maps to the
text of the input line with that number; so the text of the line of every
pending report is found in the history, and the process never stops on the
lookup of a missing entry. -/
theorem C13_history_keys (lines : List Str) (hlen : lines.length < 2 ^ 64) :
    (∀ n, n ∈ (run lines).historyData.historyMap.map Prod.fst ↔
      n ∈ (run lines).historyData.lastCarPositionMap.map (fun e => e.2.2)) ∧
    (∀ e ∈ (run lines).historyData.historyMap, 1 ≤ e.1 ∧ lines[e.1 - 1]? = some e.2) ∧
    (∀ e ∈ (run lines).historyData.lastCarPositionMap,
      ∃ text, find e.2.2 (run lines).historyData.historyMap = some text ∧
        lines[e.2.2 - 1]? = some text) ∧
    (run lines).halt ≠ some Halt.undefined := by
  obtain ⟨-, -, hund, ⟨i1, i2, i3, -⟩, hn1, hn2⟩ := run_HistInv lines hlen
  have hnd2 := nodup_of_pairwise_lt (fun a b => decide (a < b)) (by simp) _ hn2
  refine ⟨?_, ?_, ?_, hund⟩
  · intro n
    constructor
    · intro hn
      have hs : (find n (run lines).historyData.historyMap).isSome = true := by
        cases hf : find n (run lines).historyData.historyMap with
        | some t => rfl
        | none => exact absurd hn ((find_eq_none_iff n _).1 hf)
      obtain ⟨c, pos, hc⟩ := i3 n hs
      exact List.mem_map.2 ⟨(c, (pos, n)), find_some_mem hc, rfl⟩
    · intro hn
      obtain ⟨e, he, rfl⟩ := List.mem_map.1 hn
      have hf := find_of_mem_nodup _ hn1 e he
      have hs : (find e.2.2 (run lines).historyData.historyMap).isSome = true :=
        i2 e.1 e.2.1 e.2.2 hf
      by_contra hc
      rw [(find_eq_none_iff _ _).2 hc] at hs
      cases hs
  · intro e he
    have hf := find_of_mem_nodup _ hnd2 e he
    obtain ⟨a, -, b⟩ := i1 e.1 e.2 hf
    exact ⟨a, b⟩
  · intro e he
    have hf := find_of_mem_nodup _ hn1 e he
    obtain ⟨text, ht⟩ := Option.isSome_iff_exists.1 (i2 e.1 e.2.1 e.2.2 hf)
    exact ⟨text, ht, (i1 _ text ht).2.2⟩

/-- After `CAR001 A1 10,0`, a blank line and `CAR002 S2 5,0` the history has
the keys 1 and 3, the lines of the two pending reports, by C13. -/
theorem C13_history_keys_witness :
    (3 ∈ (run ["CAR001 A1 10,0".toList, [], "CAR002 S2 5,0".toList]).historyData.historyMap.map
        Prod.fst ↔
      3 ∈ (run ["CAR001 A1 10,0".toList, [],
        "CAR002 S2 5,0".toList]).historyData.lastCarPositionMap.map (fun e => e.2.2)) ∧
    (run ["CAR001 A1 10,0".toList, [], "CAR002 S2 5,0".toList]).halt ≠ some Halt.undefined :=
  ⟨(C13_history_keys ["CAR001 A1 10,0".toList, [], "CAR002 S2 5,0".toList]
      (by decide)).1 3,
   (C13_history_keys ["CAR001 A1 10,0".toList, [], "CAR002 S2 5,0".toList]
      (by decide)).2.2.2⟩

/-- The transitions of the position ledger on a parsed action. For every
action line for car `c` processed by a running process
after fewer than 2^64 lines, with `pA` the parsed action (its road, its km and
the current line number): the process goes on; the position ledger is as
before at every car other than `c`; and at `c`, if `c` had no pending report
it now has the pending report of this action, if it had one on the same road
it now has none, and if it had one on a different road it now has the pending
report of this action. A line that is not an action does not change the
ledger. -/
theorem ledger_transitions (ps : List Str) (hlen : ps.length < 2 ^ 64)
    (hrun : (run ps).halt = none) (line c r k d : Str) (pA : ParsedAction)
    (hl : ActionLine line c r k d)
    (hp : parseAction [c, r, k, d] (incr64 (run ps).lC) = .ok pA) :
    (step (run ps) line).halt = none ∧
    getCar pA = c ∧ getRoad pA = stringToRoad r ∧ getLineId pA = incr64 (run ps).lC ∧
    (∀ c', c' ≠ c →
      find c' (step (run ps) line).historyData.lastCarPositionMap =
        find c' (run ps).historyData.lastCarPositionMap) ∧
    (find c (run ps).historyData.lastCarPositionMap = none →
      find c (step (run ps) line).historyData.lastCarPositionMap =
        some ((getRoad pA, getKm pA), getLineId pA)) ∧
    (∀ km0 lid, find c (run ps).historyData.lastCarPositionMap =
        some ((getRoad pA, km0), lid) →
      find c (step (run ps) line).historyData.lastCarPositionMap = none) ∧
    (∀ road0 km0 lid, find c (run ps).historyData.lastCarPositionMap =
        some ((road0, km0), lid) → road0 ≠ getRoad pA →
      find c (step (run ps) line).historyData.lastCarPositionMap =
        some ((getRoad pA, getKm pA), getLineId pA)) ∧
    (∀ (m : Machine) (other : Str),
      (read other m.parsedLine m.lC).1 ≠ ReadType.readAction_t →
      (step m other).historyData.lastCarPositionMap = m.historyData.lastCarPositionMap) := by
  obtain ⟨-, -, -, ⟨-, i2, -, -⟩, hn1, -⟩ := run_HistInv ps hlen
  obtain ⟨-, hr, -, -⟩ := ActionLine_parts hl
  have hst := step_action (run ps) line c r k d hrun hl
  have hlast : ∀ (m : Machine) (other : Str),
      (read other m.parsedLine m.lC).1 ≠ ReadType.readAction_t →
      (step m other).historyData.lastCarPositionMap = m.historyData.lastCarPositionMap := by
    intro m other h
    rw [(step_frame_nonaction m other h).1]
  obtain ⟨kv, mv, -, -, rfl⟩ := parseAction_ok hp
  simp only [getCar, getRoad, getKm, getLineId]
  cases hf : find c (run ps).historyData.lastCarPositionMap with
  | none =>
    rw [action_open line _ _ _ _ _ hp hf] at hst
    simp only [getCar, getRoad, getKm, getLineId] at hst
    rw [hst]
    simp only
    refine ⟨hrun, trivial, trivial, trivial, ?_, ?_, ?_, ?_, hlast⟩
    · intro c' hne
      exact find_append_ne c c' _ hne _
    · intro _
      exact find_append_none c _ _ hf
    · intro km0 lid h
      cases h
    · intro road0 km0 lid h
      cases h
  | some e =>
    obtain ⟨⟨road0, km0⟩, lid⟩ := e
    obtain ⟨text, ht⟩ := Option.isSome_iff_exists.1 (i2 c _ lid hf)
    by_cases hroad : stringToRoad r = road0
    · subst hroad
      obtain ⟨st2, hu, -⟩ := updateStats_ok (run ps).statsTuple
        (c, stringToRoad r, (toK kv, toM mv), incr64 (run ps).lC) km0 (stringToRoad_ok r hr)
      rw [action_close line _ _ _ _ st2 _ km0 lid hp hf hu] at hst
      simp only [getCar] at hst
      rw [hst]
      simp only
      refine ⟨hrun, trivial, trivial, trivial, ?_, ?_, ?_, ?_, hlast⟩
      · intro c' hne
        exact find_erase_ne c c' hne _
      · intro h
        cases h
      · intro km1 lid1 _
        exact find_erase_self c _ hn1
      · intro road1 km1 lid1 h hne
        simp only [Option.some.injEq, Prod.mk.injEq] at h
        exact absurd h.1.1.symm hne
    · rw [action_mismatch line _ _ _ _ _ road0 km0 lid text hp hf hroad ht] at hst
      simp only [getCar, getRoad, getKm, getLineId] at hst
      rw [hst]
      simp only
      refine ⟨hrun, trivial, trivial, trivial, ?_, ?_, ?_, ?_, hlast⟩
      · intro c' hne
        exact find_assign_ne c c' _ hne _
      · intro h
        cases h
      · intro km1 lid1 h
        simp only [Option.some.injEq, Prod.mk.injEq] at h
        exact absurd h.1.1.symm hroad
      · intro road1 km1 lid1 _ _
        exact find_assign_self c _ _ _ hf

/-- The report `CAR001 S2 5,0` after a pending report of `CAR001` on A1
leaves `CAR001` pending on S2 at `5,0` from line 2. -/
theorem ledger_transitions_example :
    find "CAR001".toList
      (step (run ["CAR001 A1 10,0".toList]) "CAR001 S2 5,0".toList).historyData.lastCarPositionMap =
      some (((RoadType.roadS_t, 2), (5, 0)), 2) :=
  (ledger_transitions ["CAR001 A1 10,0".toList] (by decide) (by decide)
    "CAR001 S2 5,0".toList "CAR001".toList "S2".toList "5".toList "0".toList
    ("CAR001".toList, (RoadType.roadS_t, 2), (5, 0), 2)
    (@ActionLine_of_read_tokens _ [] 0 _ _ _ _ (by decide) (by decide)) rfl).2.2.2.2.2.2.2.1
    (RoadType.roadA_t, 1) (10, 0) 1 (by decide) (by decide)

/-! ## Conservation between the per-road and the per-car totals -/

theorem kmToBig_lt (km : Km) : kmToBig km < 2 ^ 32 := by
  unfold kmToBig
  omega

/-- The distance of a segment is in range. -/
theorem tenths_diff_lt (a b : Km) : tenths (diff a b) < 2 ^ 32 := by
  have ha := kmToBig_lt a
  have hb := kmToBig_lt b
  unfold diff tenths
  simp only
  split
  · rw [bigToKm_exact _ (by omega)]
    simp only
    omega
  · rw [bigToKm_exact _ (by omega)]
    simp only
    omega

/-- The tenths of a sum of two km values in range are the sum of their
tenths. -/
theorem tenths_sum (a b : Km) (ha : tenths a < 2 ^ 32) (hb : tenths b < 2 ^ 32) :
    tenths (sum a b) = tenths a + tenths b := by
  unfold tenths at *
  unfold sum
  simp only [kmToBig_exact a ha, kmToBig_exact b hb]
  unfold bigToKm
  simp only
  omega

section Totals
variable {κ : Type}

theorem totalOf_cons (p : κ → Bool) (e : κ × Km) (m : List (κ × Km)) :
    totalOf p (e :: m) = (if p e.1 = true then tenths e.2 else 0) + totalOf p m := by
  unfold totalOf
  by_cases h : p e.1 = true
  · simp [List.filter_cons, h]
  · simp [List.filter_cons, h]

theorem totalOf_append_single (p : κ → Bool) (k : κ) (v : Km) (m : List (κ × Km)) :
    totalOf p (m ++ [(k, v)]) = totalOf p m + (if p k = true then tenths v else 0) := by
  induction m with
  | nil => by_cases hp : p k = true <;> simp [totalOf, List.filter_cons, hp]
  | cons a t ih =>
    rw [List.cons_append, totalOf_cons, totalOf_cons, ih]
    omega

variable [DecidableEq κ]

theorem totalOf_insertO (p : κ → Bool) (lt : κ → κ → Bool)
    (heq : ∀ a b, lt a b = false → lt b a = false → a = b) (k : κ) (v : Km) :
    ∀ m : List (κ × Km), find k m = none →
    totalOf p (insertO lt k v m) = totalOf p m + (if p k = true then tenths v else 0) := by
  intro m
  induction m with
  | nil => intro _; by_cases hp : p k = true <;> simp [insertO, totalOf, List.filter_cons, hp]
  | cons a t ih =>
    intro h
    simp only [find] at h
    split at h
    · cases h
    · rename_i hne
      simp only [insertO]
      split
      · rw [totalOf_cons]
        simp only
        omega
      · split
        · rw [totalOf_cons, totalOf_cons, ih h]
          omega
        · rename_i c1 c2
          exact absurd (heq a.1 k (by simpa using c2) (by simpa using c1)) hne

theorem totalOf_assign (p : κ → Bool) (k : κ) (v : Km) :
    ∀ (m : List (κ × Km)) (old : Km), find k m = some old →
    totalOf p (assign k v m) + (if p k = true then tenths old else 0) =
      totalOf p m + (if p k = true then tenths v else 0) := by
  intro m
  induction m with
  | nil => intro old h; simp [find] at h
  | cons a t ih =>
    intro old h
    simp only [find] at h
    simp only [assign]
    split at h
    · rename_i hk
      cases h
      simp only [hk, if_true]
      rw [totalOf_cons, totalOf_cons]
      simp only [hk]
      omega
    · rename_i hk
      simp only [hk, if_false]
      rw [totalOf_cons, totalOf_cons]
      have := ih old h
      omega

theorem find_mem_range (k : κ) (old : Km) (m : List (κ × Km))
    (hin : m.all (fun e => decide (tenths e.2 < 2 ^ 32)) = true) (h : find k m = some old) :
    tenths old < 2 ^ 32 := by
  have := List.all_eq_true.1 hin (k, old) (find_some_mem h)
  simpa using this

end Totals

/-- What `updateCarKmMap` adds to the total of a map in range. -/
theorem totalOf_updateCarKmMap (p : Car → Bool) (map : List (Car × Km)) (dist : Km) (c : Car)
    (hin : map.all (fun e => decide (tenths e.2 < 2 ^ 32)) = true)
    (hd : tenths dist < 2 ^ 32) :
    totalOf p (updateCarKmMap map dist c) =
      totalOf p map + (if p c = true then tenths dist else 0) := by
  unfold updateCarKmMap
  cases h : find c map with
  | none =>
    simp only
    rw [(find_insertU_none c dist map h).1]
    exact totalOf_append_single p c dist map
  | some old =>
    simp only
    have h1 := totalOf_assign p c (sum dist old) map old h
    rw [tenths_sum dist old hd (find_mem_range c old map hin h)] at h1
    by_cases hp : p c = true
    · simp only [hp, if_true] at h1 ⊢
      omega
    · have hq : p c = false := by simpa using hp
      simp only [hq, Bool.false_eq_true, if_false] at h1 ⊢
      omega

/-- What `updateRoadDistanceMap` adds to the total of a map in range. -/
theorem totalOf_updateRoadDistanceMap (p : Road → Bool) (map : RoadDistanceMap) (dist : Km)
    (road : Road) (hin : map.all (fun e => decide (tenths e.2 < 2 ^ 32)) = true)
    (hd : tenths dist < 2 ^ 32) :
    totalOf p (updateRoadDistanceMap map dist road) =
      totalOf p map + (if p road = true then tenths dist else 0) := by
  unfold updateRoadDistanceMap
  cases h : find road map with
  | none =>
    simp only
    exact totalOf_insertO p roadCmp (fun a b h1 h2 => (roadCmp_equiv_iff a b).1 ⟨h1, h2⟩)
      road dist map h
  | some old =>
    simp only
    have h1 := totalOf_assign p road (sum dist old) map old h
    rw [tenths_sum dist old hd (find_mem_range road old map hin h)] at h1
    by_cases hp : p road = true
    · simp only [hp, if_true] at h1 ⊢
      omega
    · have hq : p road = false := by simpa using hp
      simp only [hq, Bool.false_eq_true, if_false] at h1 ⊢
      omega

/-- One line keeps the two views of the store equal, when the totals are in
range before it. -/
theorem step_conservation (m : Machine) (line : Str)
    (hin : storeInRange m.statsTuple = true)
    (h : roadTotal RoadType.roadA_t m.statsTuple.roadDistance =
        carTotal m.statsTuple.carDistanceOnA ∧
      roadTotal RoadType.roadS_t m.statsTuple.roadDistance =
        carTotal m.statsTuple.carDistanceOnS) :
    roadTotal RoadType.roadA_t (step m line).statsTuple.roadDistance =
        carTotal (step m line).statsTuple.carDistanceOnA ∧
      roadTotal RoadType.roadS_t (step m line).statsTuple.roadDistance =
        carTotal (step m line).statsTuple.carDistanceOnS := by
  obtain ⟨h1, h2⟩ := step_stats_committed m line
  cases hc : committed m line with
  | none =>
    rw [h1 hc]
    exact h
  | some e =>
    obtain ⟨c, road⟩ := e
    obtain ⟨-, -, a, b, -, hrd, hcat⟩ := h2 c road hc
    unfold storeInRange at hin
    simp only [Bool.and_eq_true] at hin
    obtain ⟨⟨inA, inS⟩, inR⟩ := hin
    have hd := tenths_diff_lt a b
    unfold roadTotal carTotal at *
    rw [hrd, totalOf_updateRoadDistanceMap _ _ _ _ inR hd,
      totalOf_updateRoadDistanceMap _ _ _ _ inR hd]
    rcases hcat with ⟨e, eA, eS⟩ | ⟨e, eS, eA⟩
    · rw [eA, eS, totalOf_updateCarKmMap _ _ _ _ inA hd]
      simp only [e, decide_True, if_true]
      refine ⟨by omega, ?_⟩
      have : ¬ RoadType.roadA_t = RoadType.roadS_t := by decide
      simp only [this, decide_False, Bool.false_eq_true, if_false, Nat.add_zero]
      exact h.2
    · rw [eA, eS, totalOf_updateCarKmMap _ _ _ _ inS hd]
      simp only [e, decide_True, if_true]
      refine ⟨?_, by omega⟩
      have : ¬ RoadType.roadS_t = RoadType.roadA_t := by decide
      simp only [this, decide_False, Bool.false_eq_true, if_false, Nat.add_zero]
      exact h.1

theorem runFrom_conservation : ∀ (lines : List Str) (m : Machine),
    totalsInRange m lines = true →
    (roadTotal RoadType.roadA_t m.statsTuple.roadDistance =
        carTotal m.statsTuple.carDistanceOnA ∧
      roadTotal RoadType.roadS_t m.statsTuple.roadDistance =
        carTotal m.statsTuple.carDistanceOnS) →
    roadTotal RoadType.roadA_t (runFrom m lines).statsTuple.roadDistance =
        carTotal (runFrom m lines).statsTuple.carDistanceOnA ∧
      roadTotal RoadType.roadS_t (runFrom m lines).statsTuple.roadDistance =
        carTotal (runFrom m lines).statsTuple.carDistanceOnS := by
  intro lines
  induction lines with
  | nil => intro m _ h; exact h
  | cons l ls ih =>
    intro m hin h
    simp only [totalsInRange, Bool.and_eq_true] at hin
    exact ih (step m l) hin.2 (step_conservation m l hin.1 h)

/-- **C20.** After any sequence of input lines in which no total wraps when a
distance is added to it (before each line every total of the store has tenths
below 2^32), the sum of the tenths of the per-road totals of category A is
the sum of the tenths of the entries of the per-car A map, and likewise for
category S. -/
theorem C20_conservation (lines : List Str)
    (h : totalsInRange Machine.init lines = true) :
    roadTotal RoadType.roadA_t (run lines).statsTuple.roadDistance =
      carTotal (run lines).statsTuple.carDistanceOnA ∧
    roadTotal RoadType.roadS_t (run lines).statsTuple.roadDistance =
      carTotal (run lines).statsTuple.carDistanceOnS :=
  runFrom_conservation lines Machine.init h ⟨rfl, rfl⟩

/-- Two cars on the roads A1, A2 and S1: the totals of the A roads and of the
per-car A map agree, by C20. -/
theorem C20_conservation_witness :
    totalsInRange Machine.init ["CAR001 A1 10,0".toList, "CAR002 A2 3,0".toList,
      "CAR001 A1 12,5".toList, "CAR002 A2 1,5".toList, "CAR001 S1 0,0".toList,
      "CAR001 S1 7,7".toList, "CAR002 A1 0,0".toList, "CAR002 A1 0,9".toList] = true ∧
    roadTotal RoadType.roadA_t (run ["CAR001 A1 10,0".toList, "CAR002 A2 3,0".toList,
      "CAR001 A1 12,5".toList, "CAR002 A2 1,5".toList, "CAR001 S1 0,0".toList,
      "CAR001 S1 7,7".toList, "CAR002 A1 0,0".toList,
      "CAR002 A1 0,9".toList]).statsTuple.roadDistance = 49 :=
  ⟨by decide,
   (C20_conservation ["CAR001 A1 10,0".toList, "CAR002 A2 3,0".toList,
      "CAR001 A1 12,5".toList, "CAR002 A2 1,5".toList, "CAR001 S1 0,0".toList,
      "CAR001 S1 7,7".toList, "CAR002 A1 0,0".toList, "CAR002 A1 0,9".toList]
      (by decide)).1.trans (by decide)⟩

/-! ## Actions that the conversion of the km value stops, and totals that wrap -/

/-- The parsed action of an action line is made of the tokens of the line:
the car, the road of the road token, and the km value of the two km tokens. -/
theorem parseAction_km {line c r k d : Str} {lC : Nat} {pA : ParsedAction}
    (hl : ActionLine line c r k d) (hp : parseAction [c, r, k, d] lC = .ok pA) :
    decVal k ≤ ULONG_MAX ∧ pA = (c, stringToRoad r, (toK (decVal k), decVal d), lC) := by
  obtain ⟨-, -, hk, hd⟩ := ActionLine_parts hl
  by_cases hmax : decVal k ≤ ULONG_MAX
  · rw [parseAction_tokens c r k d lC hk hd hmax] at hp
    cases hp
    exact ⟨hmax, rfl⟩
  · rw [parseAction_overflow c r k d lC hk (by omega)] at hp
    cases hp

/-- An action line whose integer part exceeds `ULONG_MAX` stops a running
process, whatever the ledger holds: the step changes only the line counter,
the tokens and the halt flag. -/
theorem step_action_overflow (m : Machine) (line c r k d : Str) (hrun : m.halt = none)
    (hl : ActionLine line c r k d) (hmax : decVal k > ULONG_MAX) :
    step m line =
      { m with lC := incr64 m.lC, parsedLine := [c, r, k, d], halt := some Halt.exception } := by
  obtain ⟨-, -, hk, -⟩ := ActionLine_parts hl
  rw [step_action m line c r k d hrun hl]
  simp only [action, parseAction_overflow c r k d (incr64 m.lC) hk hmax]

/-- The sum of the code is the sum of the specification when the tenths of
both km values are below 2^32. -/
theorem sum_eq_kmSum (a b : Km) (ha : tenths a < 2 ^ 32) (hb : tenths b < 2 ^ 32) :
    sum a b = kmSum a b := by
  unfold tenths at ha hb
  unfold sum kmSum
  simp only [kmToBig_exact a ha, kmToBig_exact b hb]
  unfold bigToKm tenths
  apply Prod.ext
  · simp only
    omega
  · simp only
    omega

/-- **C14.** The code at a failing input: the line
`CAR001 A1 100000000000000000000,0` is an action line for the car `CAR001`,
which has no pending report; its integer part exceeds `ULONG_MAX`, `stoul`
throws in `parseAction` and the exception is not caught, so the process stops
and `CAR001` has no pending report afterwards. The same holds after the line
`CAR002 A1 1,0`, and the pending report of `CAR002` stays. -/
theorem C14_unconverted_action_opens_nothing :
    (read "CAR001 A1 100000000000000000000,0".toList [] 0).1 = ReadType.readAction_t ∧
    (read "CAR001 A1 100000000000000000000,0".toList [] 0).2.1 =
      ["CAR001".toList, "A1".toList, "100000000000000000000".toList, "0".toList] ∧
    (run []).halt = none ∧
    find "CAR001".toList (run []).historyData.lastCarPositionMap = none ∧
    (step (run []) "CAR001 A1 100000000000000000000,0".toList).halt = some Halt.exception ∧
    find "CAR001".toList (step (run [])
      "CAR001 A1 100000000000000000000,0".toList).historyData.lastCarPositionMap = none ∧
    (run ["CAR002 A1 1,0".toList]).halt = none ∧
    (run ["CAR002 A1 1,0".toList,
      "CAR001 A1 100000000000000000000,0".toList]).halt = some Halt.exception ∧
    (run ["CAR002 A1 1,0".toList,
      "CAR001 A1 100000000000000000000,0".toList]).historyData.lastCarPositionMap =
      [("CAR002".toList, ((RoadType.roadA_t, 1), (1, 0)), 1)] := by
  refine ⟨by decide, by decide, by decide, by decide, by decide, by decide, by decide,
    by decide, by decide⟩

/-- **C15.** The code at a failing input: after five reports `CAR001` is
pending on A1 at `0,0`, and the total of the road A1 and the A total of
`CAR001` are both `858993459,0`. The sixth report, `CAR001 A1 0,1`, closes the
pending report with the distance `diff (0,0) (0,1) = 0,1`. The sum of the
distance and the old total is `858993459,1`, but both totals become
`429496729,5`: `sum` converts the old total with `kmToBig`, which wraps at
2^32. -/
theorem C15_commit_onto_total_wraps :
    (run ["CAR001 A1 0,0".toList, "CAR001 A1 429496729,5".toList, "CAR001 A1 0,0".toList,
      "CAR001 A1 429496729,5".toList, "CAR001 A1 0,0".toList]).halt = none ∧
    find "CAR001".toList
      (run ["CAR001 A1 0,0".toList, "CAR001 A1 429496729,5".toList, "CAR001 A1 0,0".toList,
        "CAR001 A1 429496729,5".toList,
        "CAR001 A1 0,0".toList]).historyData.lastCarPositionMap =
      some (((RoadType.roadA_t, 1), (0, 0)), 5) ∧
    find (RoadType.roadA_t, 1)
      (run ["CAR001 A1 0,0".toList, "CAR001 A1 429496729,5".toList, "CAR001 A1 0,0".toList,
        "CAR001 A1 429496729,5".toList, "CAR001 A1 0,0".toList]).statsTuple.roadDistance =
      some (858993459, 0) ∧
    find "CAR001".toList
      (run ["CAR001 A1 0,0".toList, "CAR001 A1 429496729,5".toList, "CAR001 A1 0,0".toList,
        "CAR001 A1 429496729,5".toList, "CAR001 A1 0,0".toList]).statsTuple.carDistanceOnA =
      some (858993459, 0) ∧
    (read "CAR001 A1 0,1".toList [] 5).2.1 =
      ["CAR001".toList, "A1".toList, "0".toList, "1".toList] ∧
    diff (0, 0) (0, 1) = (0, 1) ∧
    kmSum (0, 1) (858993459, 0) = (858993459, 1) ∧
    sum (0, 1) (858993459, 0) = (429496729, 5) ∧
    find (RoadType.roadA_t, 1)
      (step (run ["CAR001 A1 0,0".toList, "CAR001 A1 429496729,5".toList,
        "CAR001 A1 0,0".toList, "CAR001 A1 429496729,5".toList, "CAR001 A1 0,0".toList])
        "CAR001 A1 0,1".toList).statsTuple.roadDistance = some (429496729, 5) ∧
    find "CAR001".toList
      (step (run ["CAR001 A1 0,0".toList, "CAR001 A1 429496729,5".toList,
        "CAR001 A1 0,0".toList, "CAR001 A1 429496729,5".toList, "CAR001 A1 0,0".toList])
        "CAR001 A1 0,1".toList).statsTuple.carDistanceOnA = some (429496729, 5) := by
  refine ⟨by decide, by decide, by decide, by decide, by decide, by decide, by decide,
    by decide, by decide, by decide⟩

end Nod
